import Mathlib

/-!
# Peer-connection core of the bitmunt node

A shallow embedding of the Go packages `message`, `util`, `messenger` and `conn`
(directory `go-skeleton-for-task-1`) together with the properties of the
connection registry, the handshake gate and the message codec.

Conventions of the embedding.

* The text of a frame, of a message decoded from a frame and of the constants
  of the program is a sequence of Unicode scalar values (`String` /
  `List Char`): it is taken to be valid UTF-8.  (`encoding/json` replaces a
  byte that is not valid UTF-8 inside a string literal by U+FFFD when it
  unquotes the literal, and refuses it elsewhere as it refuses U+FFFD; a
  frame with such bytes is the text after this replacement.)
* Where a message is built from strings the caller chooses, the strings are
  Go strings, sequences of bytes that need not be valid UTF-8 (`GoString`,
  the structs `Raw.HelloMessage` and so on), and the encoder fails on those
  that are not valid.
* `encoding/json` and `canonicaljson` are library code; the part of their
  behaviour that the program relies on (syntax check with the limit on the
  nesting depth, unquoting of strings, storing object members into string
  fields of a struct, canonical encoding of string members, the failure of
  the encoder on invalid UTF-8) is written out below.
* A transport (`net.Conn`) is an identity plus its remote address.  The
  network is a log of `Close` calls and a log of frames written successfully.
* A nil-pointer dereference is the result `none`.
* One session is followed at a time, as a sequence of events; each registry
  operation and each turn of the scan loop is one atomic step.  The goroutine
  of the timeout watcher makes two calls, `SendErrorMessage` and
  `removeConnection`, with no lock held across them: `stepLoop` takes them as
  two steps between which turns of the scan loop may run, `scanLoop` is the
  special case in which no turn runs between them (`stepLoop_steps`).
* The mutex `pm.mu` does not appear in the state.  Where the lock discipline
  itself is the subject, the accesses to the map `pm.peers` made by a function
  are listed, each with the fact whether the mutex is held.
* The receiving side splits the stream with a `bufio.Scanner` in its default
  configuration (`bufio.ScanLines`, lines of less than 64 KiB), written out
  below as `scanLines`.
-/

namespace Bitmunt

/-! ## JSON text: the syntax accepted by `encoding/json` -/

/-- A parsed JSON value.  Numbers carry no payload: no field of the program
has a numeric type. -/
inductive Json where
  | null
  | bool (b : Bool)
  | num
  | str (s : List Char)
  | arr (xs : List Json)
  | obj (members : List (List Char × Json))

/-- The scanner's `isSpace`. -/
def isSpace (c : Char) : Bool :=
  c = ' ' || c = '\t' || c = '\r' || c = '\n'

/-- Drop leading JSON white space. -/
def skipWs : List Char → List Char
  | [] => []
  | c :: cs => if isSpace c then skipWs cs else c :: cs

/-- Value of a hexadecimal digit, as accepted after a `\u` escape. -/
def hexVal (c : Char) : Option Nat :=
  if '0' ≤ c ∧ c ≤ '9' then some (c.toNat - 48)
  else if 'a' ≤ c ∧ c ≤ 'f' then some (c.toNat - 87)
  else if 'A' ≤ c ∧ c ≤ 'F' then some (c.toNat - 55)
  else none

/-- Four hexadecimal digits (the `XXXX` of `\uXXXX`) as a number. -/
def hex4 : List Char → Option (Nat × List Char)
  | a :: b :: c :: d :: rest =>
    match hexVal a, hexVal b, hexVal c, hexVal d with
    | some a, some b, some c, some d => some (((a * 16 + b) * 16 + c) * 16 + d, rest)
    | _, _, _, _ => none
  | _ => none

/-- The decoder's `getu4`: a complete `\uXXXX` escape at the head of the input. -/
def getu4 : List Char → Option (Nat × List Char)
  | c :: e :: rest => if c = '\\' ∧ e = 'u' then hex4 rest else none
  | _ => none

/-- The two-character escapes of JSON (the character after the backslash). -/
def unescapeSimple (e : Char) : Option Char :=
  if e = '"' then some '"'
  else if e = '\\' then some '\\'
  else if e = '/' then some '/'
  else if e = 'b' then some (Char.ofNat 8)
  else if e = 'f' then some (Char.ofNat 12)
  else if e = 'n' then some '\n'
  else if e = 'r' then some '\r'
  else if e = 't' then some '\t'
  else none

/-- The replacement character U+FFFD. -/
def replacementChar : Char := Char.ofNat 0xFFFD

/-- Body of a string literal, after the opening quote: the unquoted text and
the input that follows the closing quote.  A raw control character, an unknown
escape or a missing closing quote is a syntax error.  A `\u` escape naming a
surrogate is combined with a following low surrogate escape, and replaced by
U+FFFD when there is none. -/
def parseStringBody : Nat → List Char → Option (List Char × List Char)
  | 0, _ => none
  | _ + 1, [] => none
  | n + 1, c :: cs =>
    if c = '"' then some ([], cs)
    else if c = '\\' then
      match cs with
      | [] => none
      | e :: cs1 =>
        if e = 'u' then
          match hex4 cs1 with
          | none => none
          | some (u, cs2) =>
            if 0xD800 ≤ u ∧ u < 0xE000 then
              match getu4 cs2 with
              | some (u2, cs3) =>
                if u < 0xDC00 ∧ 0xDC00 ≤ u2 ∧ u2 < 0xE000 then
                  (parseStringBody n cs3).map fun r =>
                    (Char.ofNat ((u - 0xD800) * 0x400 + (u2 - 0xDC00) + 0x10000) :: r.1, r.2)
                else (parseStringBody n cs2).map fun r => (replacementChar :: r.1, r.2)
              | none => (parseStringBody n cs2).map fun r => (replacementChar :: r.1, r.2)
            else (parseStringBody n cs2).map fun r => (Char.ofNat u :: r.1, r.2)
        else
          match unescapeSimple e with
          | none => none
          | some ch => (parseStringBody n cs1).map fun r => (ch :: r.1, r.2)
    else if c.toNat < 0x20 then none
    else (parseStringBody n cs).map fun r => (c :: r.1, r.2)

/-- Drop leading decimal digits. -/
def dropDigits : List Char → List Char
  | [] => []
  | c :: cs => if c.isDigit then dropDigits cs else c :: cs

/-- One or more decimal digits. -/
def digits1 : List Char → Option (List Char)
  | [] => none
  | c :: cs => if c.isDigit then some (dropDigits cs) else none

/-- Optional fraction and exponent of a number. -/
def parseFracExp (cs : List Char) : Option (List Char) :=
  let afterFrac : Option (List Char) :=
    match cs with
    | c :: cs1 => if c = '.' then digits1 cs1 else some cs
    | [] => some cs
  match afterFrac with
  | none => none
  | some cs2 =>
    match cs2 with
    | c :: cs3 =>
      if c = 'e' ∨ c = 'E' then
        match cs3 with
        | s :: cs4 => if s = '+' ∨ s = '-' then digits1 cs4 else digits1 cs3
        | [] => none
      else some cs2
    | [] => some cs2

/-- A number with its sign removed: `0` or a digit `1..9` followed by digits,
then the optional fraction and exponent. -/
def parseUnsigned : List Char → Option (List Char)
  | [] => none
  | c :: cs =>
    if c = '0' then parseFracExp cs
    else if c.isDigit then parseFracExp (dropDigits cs)
    else none

/-- A number literal; the result is the input that follows it. -/
def parseNumber : List Char → Option (List Char)
  | [] => none
  | c :: cs => if c = '-' then parseUnsigned cs else parseUnsigned (c :: cs)

/-- Remove `lit` from the head of the input. -/
def stripLit : List Char → List Char → Option (List Char)
  | [], cs => some cs
  | _ :: _, [] => none
  | l :: ls, c :: cs => if l = c then stripLit ls cs else none

/-- The elements of an array after the first one has been announced:
`value (, value)* ]`.  `pv` parses one value. -/
def parseElements (pv : List Char → Option (Json × List Char)) :
    Nat → List Char → Option (List Json × List Char)
  | 0, _ => none
  | n + 1, cs =>
    match pv cs with
    | none => none
    | some (v, cs1) =>
      match skipWs cs1 with
      | [] => none
      | c :: cs2 =>
        if c = ',' then (parseElements pv n cs2).map fun r => (v :: r.1, r.2)
        else if c = ']' then some ([v], cs2)
        else none

/-- The members of an object: `"key" : value (, "key" : value)* }`.
`pv` parses one value. -/
def parseMembers (pv : List Char → Option (Json × List Char)) :
    Nat → List Char → Option (List (List Char × Json) × List Char)
  | 0, _ => none
  | n + 1, cs =>
    match skipWs cs with
    | [] => none
    | q :: cs1 =>
      if q = '"' then
        match parseStringBody (cs1.length + 1) cs1 with
        | none => none
        | some (k, cs2) =>
          match skipWs cs2 with
          | [] => none
          | colon :: cs3 =>
            if colon = ':' then
              match pv cs3 with
              | none => none
              | some (v, cs4) =>
                match skipWs cs4 with
                | [] => none
                | c :: cs5 =>
                  if c = ',' then (parseMembers pv n cs5).map fun r => ((k, v) :: r.1, r.2)
                  else if c = '}' then some ([(k, v)], cs5)
                  else none
            else none
      else none

/-- One JSON value, leading white space allowed.  The first argument is one
more than the number of container levels that may still be opened, as the
scanner counts them when it meets the opening bracket: a scalar needs 1, an
object or array needs 2 (also when it is empty) and reads its members with one
less. -/
def parseValue : Nat → List Char → Option (Json × List Char)
  | 0, _ => none
  | depth + 1, cs =>
    match skipWs cs with
    | [] => none
    | c :: rest =>
      if c = '{' then
        if depth = 0 then none
        else
          match skipWs rest with
          | [] => none
          | c1 :: rest1 =>
            if c1 = '}' then some (Json.obj [], rest1)
            else (parseMembers (parseValue depth) (rest.length + 1) (c1 :: rest1)).map
              fun r => (Json.obj r.1, r.2)
      else if c = '[' then
        if depth = 0 then none
        else
          match skipWs rest with
          | [] => none
          | c1 :: rest1 =>
            if c1 = ']' then some (Json.arr [], rest1)
            else (parseElements (parseValue depth) (rest.length + 1) (c1 :: rest1)).map
              fun r => (Json.arr r.1, r.2)
      else if c = '"' then
        (parseStringBody (rest.length + 1) rest).map fun r => (Json.str r.1, r.2)
      else if c = 't' then (stripLit ['r', 'u', 'e'] rest).map fun r => (Json.bool true, r)
      else if c = 'f' then
        (stripLit ['a', 'l', 's', 'e'] rest).map fun r => (Json.bool false, r)
      else if c = 'n' then (stripLit ['u', 'l', 'l'] rest).map fun r => (Json.null, r)
      else (parseNumber (c :: rest)).map fun r => (Json.num, r)

/-- Nesting depth accepted by the scanner of `encoding/json`: a text with
more than this number of objects and arrays open at once is refused. -/
def maxNestingDepth : Nat := 10000

/-- A complete JSON text: one value, then nothing but white space. -/
def parseJson (data : List Char) : Option Json :=
  match parseValue (maxNestingDepth + 1) data with
  | none => none
  | some (j, rest) => if skipWs rest = [] then some j else none

/-! ## Storing a JSON value into a struct with string fields -/

/-- Simple case folding of one character of an object key, as far as it can
reach an ASCII letter: upper-case ASCII, the Kelvin sign and the long s. -/
def foldRune (c : Char) : Char :=
  if 'A' ≤ c ∧ c ≤ 'Z' then Char.ofNat (c.toNat + 32)
  else if c = Char.ofNat 0x212A then 'k'
  else if c = Char.ofNat 0x17F then 's'
  else c

/-- Case-insensitive comparison of an object key with a field name. -/
def equalFold (field key : List Char) : Bool :=
  field.map foldRune = key.map foldRune

/-- The field an object key is stored into: an exact match of the tag is
preferred, a case-insensitive one accepted. -/
def findField (fields : List (List Char)) (key : List Char) : Option (List Char) :=
  match fields.find? (fun f => f = key) with
  | some f => some f
  | none => fields.find? (fun f => equalFold f key)

/-- Decoder state while an object is stored into a struct: the current value
of every field (by tag) and whether an `UnmarshalTypeError` has been saved. -/
structure Decoded where
  field : List Char → List Char
  typeError : Bool

/-- Store one object member.  A key naming no field is skipped; for a string
field a JSON string is stored, `null` leaves the field alone and every other
value saves a type error. -/
def storeMember (fields : List (List Char)) (d : Decoded) (m : List Char × Json) : Decoded :=
  match findField fields m.1 with
  | none => d
  | some f =>
    match m.2 with
    | Json.str s => { d with field := fun g => if g = f then s else d.field g }
    | Json.null => d
    | _ => { d with typeError := true }

/-- Store a JSON value into a zero-valued struct whose fields are all strings.
An object is stored member by member, in order; `null` is a no-op; any other
value is a type error.  A saved type error is returned at the end. -/
def decodeStruct (fields : List (List Char)) : Json → Option (List Char → List Char)
  | Json.obj members =>
    let d := members.foldl (storeMember fields) { field := fun _ => [], typeError := false }
    if d.typeError then none else some d.field
  | Json.null => some (fun _ => [])
  | _ => none

/-- The call `json.Unmarshal(data, &v)` for a struct `v` with the given string
fields: the field values on success, `none` on a syntax or type error. -/
def unmarshalStruct (fields : List String) (data : String) : Option (String → String) :=
  match parseJson data.data with
  | none => none
  | some j =>
    (decodeStruct (fields.map String.data) j).map fun r => fun tag => String.mk (r tag.data)

/-! ## Canonical JSON encoding -/

/-- Upper-case hexadecimal digit. -/
def hexDigit (n : Nat) : Char :=
  if n < 10 then Char.ofNat (48 + n) else Char.ofNat (55 + n)

/-- Canonical escaping of one character of a string: two-character escapes
where JSON has one, `\u00XX` for the other control characters, everything
else as it is. -/
def escapeChar (c : Char) : List Char :=
  if c = '"' then ['\\', '"']
  else if c = '\\' then ['\\', '\\']
  else if c = Char.ofNat 8 then ['\\', 'b']
  else if c = Char.ofNat 12 then ['\\', 'f']
  else if c = '\n' then ['\\', 'n']
  else if c = '\r' then ['\\', 'r']
  else if c = '\t' then ['\\', 't']
  else if c.toNat < 0x20 then ['\\', 'u', '0', '0', hexDigit (c.toNat / 16), hexDigit (c.toNat % 16)]
  else [c]

/-- Escaped body of a string literal. -/
def escape : List Char → List Char
  | [] => []
  | c :: cs => escapeChar c ++ escape cs

/-- A string literal. -/
def quote (s : List Char) : List Char :=
  '"' :: (escape s ++ ['"'])

/-- Members of an object, separated by commas (no white space). -/
def encodeMembers : List (List Char × List Char) → List Char
  | [] => []
  | [m] => quote m.1 ++ ':' :: quote m.2
  | m :: ms => quote m.1 ++ ':' :: quote m.2 ++ ',' :: encodeMembers ms

/-- An object whose members are strings. -/
def encodeObject (members : List (List Char × List Char)) : List Char :=
  '{' :: (encodeMembers members ++ ['}'])

/-! ## Package `message` -/

deriving instance DecidableEq for Except

/-- The struct `BaseMessage`. -/
structure BaseMessage where
  Type_ : String
deriving DecidableEq, Repr

/-- The struct `HelloMessage`; `Agent` is tagged `omitempty`. -/
structure HelloMessage where
  Type_ : String
  Version : String
  Agent : String
deriving DecidableEq, Repr

/-- The struct `ErrorMessage`. -/
structure ErrorMessage where
  Type_ : String
  Name : String
  Description : String
deriving DecidableEq, Repr

/-- A value of type `interface{}` holding one of the message structs. -/
inductive Message where
  | Hello (m : HelloMessage)
  | Error (m : ErrorMessage)
  | Base (m : BaseMessage)
deriving DecidableEq, Repr

/-- The type assertion `msg.(message.HelloMessage)`. -/
def Message.isHello : Message → Bool
  | Message.Hello _ => true
  | _ => false

/-- The constructor `NewHelloMessage`. -/
def NewHelloMessage (version agent : String) : HelloMessage :=
  { Type_ := "hello", Version := version, Agent := agent }

/-- The constructor `NewErrorMessage`. -/
def NewErrorMessage (name description : String) : ErrorMessage :=
  { Type_ := "error", Name := name, Description := description }

/-- The JSON fields of a message struct in declaration order: tag, value and
whether the tag carries `omitempty`. -/
def Message.fields : Message → List (String × String × Bool)
  | Message.Hello m => [("type", m.Type_, false), ("version", m.Version, false), ("agent", m.Agent, true)]
  | Message.Error m => [("type", m.Type_, false), ("name", m.Name, false), ("description", m.Description, false)]
  | Message.Base m => [("type", m.Type_, false)]

/-- Lexicographic order of names by code point. -/
def nameLe : List Char → List Char → Bool
  | [], _ => true
  | _ :: _, [] => false
  | a :: as, b :: bs => decide (a.toNat < b.toNat) || (decide (a = b) && nameLe as bs)

/-- Order of object members in canonical JSON: by name. -/
def memberLe (x y : String × String) : Prop := nameLe x.1.data y.1.data = true

instance memberLe_decidable : DecidableRel memberLe :=
  fun x y => inferInstanceAs (Decidable (nameLe x.1.data y.1.data = true))

/-- The members of the canonical encoding of a struct: empty `omitempty`
fields are left out and the members are ordered by name. -/
def canonicalMembers (fs : List (String × String × Bool)) : List (String × String) :=
  List.insertionSort memberLe
    ((fs.filter fun f => !(f.2.2 && f.2.1 = "")).map fun f => (f.1, f.2.1))

/-- The call `canonicaljson.Marshal(data)` for a message struct whose strings
are text, that is valid UTF-8: it has no error case then.  The call on a
struct holding arbitrary Go strings, with its error case, is
`Raw.canonicalMarshal`. -/
def canonicalMarshal (data : Message) : Except String String :=
  Except.ok (String.mk (encodeObject ((canonicalMembers data.fields).map fun m => (m.1.data, m.2.data))))

/-- The call `json.Unmarshal(data, &base)` for `var base BaseMessage`. -/
def unmarshalBaseMessage (data : String) : Option BaseMessage :=
  (unmarshalStruct ["type"] data).map fun r => { Type_ := r "type" }

/-- The call `json.Unmarshal(data, &msg)` for `var msg HelloMessage`. -/
def unmarshalHelloMessage (data : String) : Option HelloMessage :=
  (unmarshalStruct ["type", "version", "agent"] data).map fun r =>
    { Type_ := r "type", Version := r "version", Agent := r "agent" }

/-- The call `json.Unmarshal(data, &msg)` for `var msg ErrorMessage`. -/
def unmarshalErrorMessage (data : String) : Option ErrorMessage :=
  (unmarshalStruct ["type", "name", "description"] data).map fun r =>
    { Type_ := r "type", Name := r "name", Description := r "description" }

/-- The function `ParseMessage`: decode the discriminator, then decode the
payload against the struct selected by it. -/
def ParseMessage (data : String) : Except String Message :=
  match unmarshalBaseMessage data with
  | none => Except.error "invalid JSON format"
  | some base =>
    if base.Type_ = "hello" then
      match unmarshalHelloMessage data with
      | none => Except.error "invalid 'hello' message format"
      | some msg => Except.ok (Message.Hello msg)
    else if base.Type_ = "error" then
      match unmarshalErrorMessage data with
      | none => Except.error "invalid 'error' message format"
      | some msg => Except.ok (Message.Error msg)
    else Except.ok (Message.Base base)

/-! ## Package `util` -/

/-- The function `JsonMarshal`. -/
def JsonMarshal (data : Message) : Except String String :=
  match canonicalMarshal data with
  | Except.error err => Except.error err
  | Except.ok jsonData => Except.ok jsonData

/-- The function `JsonMarshalwithEnd`; the nil slice is the empty string. -/
def JsonMarshalwithEnd (data : Message) : String :=
  match canonicalMarshal data with
  | Except.error _ => ""
  | Except.ok jsonData => jsonData ++ "\n"

/-- The method `HelloMessage.Serialize`. -/
def HelloMessage.Serialize (m : HelloMessage) : Except String String :=
  match JsonMarshal (Message.Hello m) with
  | Except.error err => Except.error err
  | Except.ok msg => Except.ok msg

/-- The method `ErrorMessage.Serialize`. -/
def ErrorMessage.Serialize (m : ErrorMessage) : Except String String :=
  match JsonMarshal (Message.Error m) with
  | Except.error err => Except.error err
  | Except.ok msg => Except.ok msg

/-! ## Go strings as bytes, and messages built from them -/

/-- A byte. -/
abbrev Byte := Fin 256

/-- A Go string: a sequence of bytes, valid UTF-8 or not. -/
abbrev GoString := List Byte

/-- A continuation byte of UTF-8, `10xxxxxx`. -/
def isCont (b : Byte) : Bool := decide (0x80 ≤ b.val ∧ b.val < 0xC0)

/-- The function `utf8.DecodeRune` where it finds a valid encoding: the rune
and the bytes after it.  There is no result at the end of the input, on a
stray or missing continuation byte, on an overlong form, on a surrogate and
on a value above U+10FFFF. -/
def decodeRune : List Byte → Option (Char × List Byte)
  | [] => none
  | b0 :: rest =>
    if b0.val < 0x80 then some (Char.ofNat b0.val, rest)
    else if 0xC2 ≤ b0.val ∧ b0.val < 0xE0 then
      match rest with
      | b1 :: rest1 =>
        if isCont b1 then
          some (Char.ofNat ((b0.val - 0xC0) * 0x40 + (b1.val - 0x80)), rest1)
        else none
      | [] => none
    else if 0xE0 ≤ b0.val ∧ b0.val < 0xF0 then
      match rest with
      | b1 :: b2 :: rest2 =>
        if isCont b1 ∧ isCont b2 ∧ (b0.val = 0xE0 → 0xA0 ≤ b1.val) ∧
            (b0.val = 0xED → b1.val < 0xA0) then
          some (Char.ofNat ((b0.val - 0xE0) * 0x1000 + (b1.val - 0x80) * 0x40
              + (b2.val - 0x80)), rest2)
        else none
      | _ => none
    else if 0xF0 ≤ b0.val ∧ b0.val < 0xF5 then
      match rest with
      | b1 :: b2 :: b3 :: rest3 =>
        if isCont b1 ∧ isCont b2 ∧ isCont b3 ∧ (b0.val = 0xF0 → 0x90 ≤ b1.val) ∧
            (b0.val = 0xF4 → b1.val < 0x90) then
          some (Char.ofNat ((b0.val - 0xF0) * 0x40000 + (b1.val - 0x80) * 0x1000
              + (b2.val - 0x80) * 0x40 + (b3.val - 0x80)), rest3)
        else none
      | _ => none
    else none

/-- Rune after rune; the first argument bounds the number of runes. -/
def utf8DecodeFrom : Nat → List Byte → Option (List Char)
  | _, [] => some []
  | 0, _ :: _ => none
  | n + 1, b :: bs =>
    match decodeRune (b :: bs) with
    | none => none
    | some (c, rest) => (utf8DecodeFrom n rest).map fun r => c :: r

/-- The text of a Go string that is valid UTF-8; `none` when it is not.  The
strings with a text are exactly the encodings of the texts
(`utf8Decode_eq_some_iff`). -/
def utf8Decode (bs : GoString) : Option (List Char) := utf8DecodeFrom bs.length bs

/-- The UTF-8 encoding of one character. -/
def utf8EncodeChar (c : Char) : List Byte :=
  if c.toNat < 0x80 then [Fin.ofNat c.toNat]
  else if c.toNat < 0x800 then
    [Fin.ofNat (0xC0 + c.toNat / 0x40), Fin.ofNat (0x80 + c.toNat % 0x40)]
  else if c.toNat < 0x10000 then
    [Fin.ofNat (0xE0 + c.toNat / 0x1000), Fin.ofNat (0x80 + c.toNat / 0x40 % 0x40),
     Fin.ofNat (0x80 + c.toNat % 0x40)]
  else
    [Fin.ofNat (0xF0 + c.toNat / 0x40000), Fin.ofNat (0x80 + c.toNat / 0x1000 % 0x40),
     Fin.ofNat (0x80 + c.toNat / 0x40 % 0x40), Fin.ofNat (0x80 + c.toNat % 0x40)]

/-- The bytes of a text: its UTF-8 encoding. -/
def utf8Encode : List Char → GoString
  | [] => []
  | c :: cs => utf8EncodeChar c ++ utf8Encode cs

/-- The struct `BaseMessage` holding any Go string. -/
structure Raw.BaseMessage where
  Type_ : GoString
deriving DecidableEq, Repr

/-- The struct `HelloMessage` holding any Go strings. -/
structure Raw.HelloMessage where
  Type_ : GoString
  Version : GoString
  Agent : GoString
deriving DecidableEq, Repr

/-- The struct `ErrorMessage` holding any Go strings. -/
structure Raw.ErrorMessage where
  Type_ : GoString
  Name : GoString
  Description : GoString
deriving DecidableEq, Repr

/-- A value of type `interface{}` holding one of the message structs, its
strings being any Go strings. -/
inductive Raw.Message where
  | Hello (m : Raw.HelloMessage)
  | Error (m : Raw.ErrorMessage)
  | Base (m : Raw.BaseMessage)
deriving DecidableEq, Repr

/-- The constructor `NewHelloMessage`, called with any two Go strings. -/
def Raw.NewHelloMessage (version agent : GoString) : Raw.HelloMessage :=
  { Type_ := utf8Encode "hello".data, Version := version, Agent := agent }

/-- The constructor `NewErrorMessage`, called with any two Go strings. -/
def Raw.NewErrorMessage (name description : GoString) : Raw.ErrorMessage :=
  { Type_ := utf8Encode "error".data, Name := name, Description := description }

/-- The message as text, when every string of it is valid UTF-8. -/
def Raw.Message.text? : Raw.Message → Option Bitmunt.Message
  | Raw.Message.Hello m =>
    match utf8Decode m.Type_, utf8Decode m.Version, utf8Decode m.Agent with
    | some t, some v, some a =>
      some (Bitmunt.Message.Hello
        { Type_ := String.mk t, Version := String.mk v, Agent := String.mk a })
    | _, _, _ => none
  | Raw.Message.Error m =>
    match utf8Decode m.Type_, utf8Decode m.Name, utf8Decode m.Description with
    | some t, some n, some d =>
      some (Bitmunt.Message.Error
        { Type_ := String.mk t, Name := String.mk n, Description := String.mk d })
    | _, _, _ => none
  | Raw.Message.Base m =>
    match utf8Decode m.Type_ with
    | some t => some (Bitmunt.Message.Base { Type_ := String.mk t })
    | none => none

/-- A message whose strings are text, as the Go value it is. -/
def Message.raw : Message → Raw.Message
  | Message.Hello m =>
    Raw.Message.Hello { Type_ := utf8Encode m.Type_.data, Version := utf8Encode m.Version.data,
                        Agent := utf8Encode m.Agent.data }
  | Message.Error m =>
    Raw.Message.Error { Type_ := utf8Encode m.Type_.data, Name := utf8Encode m.Name.data,
                        Description := utf8Encode m.Description.data }
  | Message.Base m => Raw.Message.Base { Type_ := utf8Encode m.Type_.data }

/-- The call `canonicaljson.Marshal(data)` for a message struct holding any Go
strings: the encoder refuses a string that is not valid UTF-8 and returns an
error; otherwise the encoding is that of the text. -/
def Raw.canonicalMarshal (data : Raw.Message) : Except String String :=
  match data.text? with
  | some m => Bitmunt.canonicalMarshal m
  | none => Except.error "canonicaljson: unsupported value"

/-- The function `JsonMarshal`, on a struct holding any Go strings. -/
def Raw.JsonMarshal (data : Raw.Message) : Except String String :=
  match Raw.canonicalMarshal data with
  | Except.error err => Except.error err
  | Except.ok jsonData => Except.ok jsonData

/-- The function `JsonMarshalwithEnd`, on a struct holding any Go strings; the
nil slice returned when the encoder fails is the empty string. -/
def Raw.JsonMarshalwithEnd (data : Raw.Message) : String :=
  match Raw.canonicalMarshal data with
  | Except.error _ => ""
  | Except.ok jsonData => jsonData ++ "\n"

/-- The method `HelloMessage.Serialize`, on a struct holding any Go strings. -/
def Raw.HelloMessage.Serialize (m : Raw.HelloMessage) : Except String String :=
  match Raw.JsonMarshal (Raw.Message.Hello m) with
  | Except.error err => Except.error err
  | Except.ok msg => Except.ok msg

/-- The method `ErrorMessage.Serialize`, on a struct holding any Go strings. -/
def Raw.ErrorMessage.Serialize (m : Raw.ErrorMessage) : Except String String :=
  match Raw.JsonMarshal (Raw.Message.Error m) with
  | Except.error err => Except.error err
  | Except.ok msg => Except.ok msg

/-! ## Transports and the state of the program -/

/-- A transport (`net.Conn`): its identity and the text of `RemoteAddr()`. -/
structure NetConn where
  id : Nat
  remoteAddr : String
deriving DecidableEq, Repr

/-- The struct `ConnectionState`. -/
structure ConnectionState where
  Conn : NetConn
  ReceivedHello : Bool
deriving DecidableEq, Repr

/-- The struct `PeerManager`; the map `peers` is a partial function.  The
mutex is not represented: every registry operation is one atomic step. -/
structure PeerManager where
  port : String
  nodeName : String
  peers : String → Option ConnectionState

/-- The peer manager together with the network: `closed` logs every call of
`Close` (by transport identity, in order), `sent` logs every successful
`Write` (transport identity and bytes, in order). -/
structure World where
  pm : PeerManager
  closed : List Nat
  sent : List (Nat × String)

/-- The constructor `NewPeerManager`. -/
def NewPeerManager (nodeName port : String) : PeerManager :=
  { nodeName := nodeName, port := port, peers := fun _ => none }

/-- The call `conn.Close()`. -/
def World.Close (w : World) (conn : NetConn) : World :=
  { w with closed := w.closed ++ [conn.id] }

/-- The call `conn.Write(data)`: it fails, sending nothing, on a transport
that has been closed by this program, and succeeds otherwise.  Failures
caused by the remote end are not represented. -/
def World.Write (w : World) (conn : NetConn) (data : String) : World :=
  if conn.id ∈ w.closed then w else { w with sent := w.sent ++ [(conn.id, data)] }

/-! ## Package `messenger` -/

/-- The function `SendHelloMessage`. -/
def SendHelloMessage (w : World) (conn : NetConn) (agentName : String) : World :=
  w.Write conn
    (JsonMarshalwithEnd (Message.Hello { Type_ := "hello", Version := "0.10.0", Agent := agentName }))

/-- The function `SendErrorMessage`. -/
def SendErrorMessage (w : World) (conn : NetConn) (name description : String) : World :=
  w.Write conn
    (JsonMarshalwithEnd (Message.Error { Type_ := "error", Name := name, Description := description }))

/-! ## Package `conn`: the registry -/

/-- The method `addPeerConnection`: the new world and the returned boolean. -/
def addPeerConnection (w : World) (peerAddress : String) (conn : NetConn) : World × Bool :=
  match w.pm.peers peerAddress with
  | some _ => (w.Close conn, false)
  | none =>
    ({ w with
        pm := { w.pm with
          peers := fun a =>
            if a = peerAddress then some { Conn := conn, ReceivedHello := false }
            else w.pm.peers a } },
      true)

/-- The method `removeConnection`. -/
def removeConnection (w : World) (addr : String) : World :=
  match w.pm.peers addr with
  | some connState =>
    { w.Close connState.Conn with
      pm := { w.pm with
        peers := fun a => if a = addr then none else w.pm.peers a } }
  | none => w

/-- The method `updateReceivedHello`. -/
def updateReceivedHello (w : World) (addr : String) (receivedHello : Bool) : World :=
  match w.pm.peers addr with
  | some connState =>
    { w with
      pm := { w.pm with
        peers := fun a =>
          if a = addr then some { connState with ReceivedHello := receivedHello }
          else w.pm.peers a } }
  | none => w

/-! ## Package `conn`: the handlers -/

/-- The function `handleHello`. -/
def handleHello (w : World) (_msg : HelloMessage) (connState : ConnectionState) : World :=
  let peerAddr := connState.Conn.remoteAddr
  if connState.ReceivedHello then
    removeConnection
      (SendErrorMessage w connState.Conn "INVALID_HANDSHAKE" "Handshake already received") peerAddr
  else updateReceivedHello w peerAddr true

/-- The function `routeMessage`. -/
def routeMessage (w : World) (msg : Message) (connState : ConnectionState) : World :=
  match msg with
  | Message.Hello m => handleHello w m connState
  | _ => w

/-- The function `parseAndLogMessage`.  `connState` is the pointer it is given
(`none` for nil); both branches dereference it, so a nil pointer panics. -/
def parseAndLogMessage (w : World) (msgString : String) (connState : Option ConnectionState) :
    Option (World × Except String Message) :=
  match ParseMessage msgString with
  | Except.error err =>
    match connState with
    | none => none
    | some cs =>
      some (SendErrorMessage w cs.Conn "INVALID_FORMAT" "Invalid message format", Except.error err)
  | Except.ok msg =>
    match connState with
    | none => none
    | some _ => some (w, Except.ok msg)

/-- The function `handleMessage`; `none` is a panic. -/
def handleMessage (w : World) (msgString : String) (connState : Option ConnectionState) :
    Option World :=
  match parseAndLogMessage w msgString connState with
  | none => none
  | some (w1, Except.error _) => some w1
  | some (w1, Except.ok msg) =>
    match connState with
    | none => none
    | some cs =>
      if !cs.ReceivedHello && !msg.isHello then
        some (removeConnection (SendErrorMessage w1 cs.Conn "INVALID_HANDSHAKE" "Handshake first")
          cs.Conn.remoteAddr)
      else some (routeMessage w1 msg cs)

/-! ## Package `conn`: the session loop -/

/-- State of the context created by `context.WithTimeout`. -/
inductive Ctx where
  | active
  | canceled
  | deadlineExceeded
deriving DecidableEq, Repr

/-- The call `cancel()`: it has an effect only on a context that is not done. -/
def Ctx.cancel : Ctx → Ctx
  | Ctx.active => Ctx.canceled
  | c => c

/-- What happens to a session, in order.  `frame text buffered` is a line the
scanner delivers: with `buffered = false` the scanner has to read the
transport to obtain it, with `buffered = true` the line arrived in the same
read as the line before it and is already in the scanner's buffer.
`deadline` is the expiry of the 20 second timer followed at once by the whole
run of the watcher goroutine. -/
inductive Event where
  | frame (text : String) (buffered : Bool)
  | deadline
deriving DecidableEq, Repr

/-- State of one run of `handleConnection`. -/
structure Session where
  world : World
  ctx : Ctx
  panicked : Bool

/-- The goroutine started by `handleConnection`, run from the expiry of the
timer to its end without a turn of the scan loop in between: it acts only when
the context ended by its deadline.  The two calls it makes are taken apart in
`stepLoop`. -/
def timeoutWatcher (conn : NetConn) (addr : String) (w : World) (ctx : Ctx) : World × Ctx :=
  match ctx with
  | Ctx.active =>
    (removeConnection
      (SendErrorMessage w conn "INVALID_HANDSHAKE" "No handshake within 20 seconds") addr,
      Ctx.deadlineExceeded)
  | c => (w, c)

/-- One turn of the loop `for reader.Scan()` on the line `message`: the call
of `handleMessage` on the registry entry of `addr` and the test that cancels
the timer.  `none` is a panic. -/
def loopBody (addr : String) (w : World) (ctx : Ctx) (message : String) : Option (World × Ctx) :=
  match handleMessage w message (w.pm.peers addr) with
  | none => none
  | some w1 =>
    match w1.pm.peers addr with
    | some cs => if cs.ReceivedHello then some (w1, ctx.cancel) else some (w1, ctx)
    | none => some (w1, ctx)

/-- The loop `for reader.Scan()` over the events of the session.  The end of
the events is the end of the stream.  A line that is not buffered ends the
loop when the transport has been closed, because the read fails; a buffered
line is delivered whatever the state of the transport. -/
def scanLoop (conn : NetConn) (addr : String) : World → Ctx → List Event → Session
  | w, ctx, [] => { world := w, ctx := ctx, panicked := false }
  | w, ctx, Event.deadline :: es =>
    scanLoop conn addr (timeoutWatcher conn addr w ctx).1 (timeoutWatcher conn addr w ctx).2 es
  | w, ctx, Event.frame text buffered :: es =>
    if buffered = false ∧ conn.id ∈ w.closed then { world := w, ctx := ctx, panicked := false }
    else
      match loopBody addr w ctx text with
      | none => { world := w, ctx := ctx, panicked := true }
      | some r => scanLoop conn addr r.1 r.2 es

/-- The method `handleConnection`.  The result of `addPeerConnection` is not
looked at.  The deferred calls, `cancel()` and `removeConnection(addr)`, run
when the loop ends and also when it panics. -/
def handleConnection (w : World) (conn : NetConn) (events : List Event) : Session :=
  let addr := conn.remoteAddr
  let w1 := (addPeerConnection w addr conn).1
  let w2 := SendHelloMessage w1 conn w1.pm.nodeName
  let s := scanLoop conn addr w2 Ctx.active events
  { world := removeConnection s.world addr, ctx := s.ctx.cancel, panicked := s.panicked }

/-! ## The session loop with the watcher goroutine step by step -/

/-- What happens to a session, in order, the watcher goroutine taken call by
call.  `frame` is a line the scanner delivers, as in `Event`.  `expire` is the
expiry of the 20 second timer, `watcherSend` the call of `SendErrorMessage`
made by the watcher goroutine and `watcherRemove` its call of
`removeConnection`. -/
inductive Step where
  | frame (text : String) (buffered : Bool)
  | expire
  | watcherSend
  | watcherRemove
deriving DecidableEq, Repr

/-- Where the watcher goroutine stands: blocked on `ctx.Done()`, woken with
`DeadlineExceeded` and about to call `SendErrorMessage`, about to call
`removeConnection`, or at its end. -/
inductive WatcherPc where
  | waiting
  | sending
  | removing
  | finished
deriving DecidableEq, Repr

/-- State of one run of `handleConnection`, with the place of the watcher. -/
structure Run where
  world : World
  ctx : Ctx
  pc : WatcherPc
  panicked : Bool

/-- The loop `for reader.Scan()` and the watcher goroutine, interleaved as the
steps say.  A turn of the loop is one step, as in `scanLoop`.  The timer
expires only on a context that is not done; the watcher makes a call only
when it stands before that call, so a step that is not enabled changes
nothing.  A watcher woken by `cancel()` makes no call. -/
def stepLoop (conn : NetConn) (addr : String) : World → Ctx → WatcherPc → List Step → Run
  | w, ctx, pc, [] => { world := w, ctx := ctx, pc := pc, panicked := false }
  | w, ctx, pc, Step.expire :: ss =>
    match ctx with
    | Ctx.active => stepLoop conn addr w Ctx.deadlineExceeded WatcherPc.sending ss
    | _ => stepLoop conn addr w ctx pc ss
  | w, ctx, pc, Step.watcherSend :: ss =>
    match pc with
    | WatcherPc.sending =>
      stepLoop conn addr
        (SendErrorMessage w conn "INVALID_HANDSHAKE" "No handshake within 20 seconds")
        ctx WatcherPc.removing ss
    | _ => stepLoop conn addr w ctx pc ss
  | w, ctx, pc, Step.watcherRemove :: ss =>
    match pc with
    | WatcherPc.removing => stepLoop conn addr (removeConnection w addr) ctx WatcherPc.finished ss
    | _ => stepLoop conn addr w ctx pc ss
  | w, ctx, pc, Step.frame text buffered :: ss =>
    if buffered = false ∧ conn.id ∈ w.closed then
      { world := w, ctx := ctx, pc := pc, panicked := false }
    else
      match loopBody addr w ctx text with
      | none => { world := w, ctx := ctx, pc := pc, panicked := true }
      | some r => stepLoop conn addr r.1 r.2 pc ss

/-- The method `handleConnection` over steps.  The end of the steps is the end
of the stream: the loop ends and the deferred calls run.  Calls the watcher
has not made by then find the transport closed and the entry gone; they are
not followed. -/
def handleConnectionSteps (w : World) (conn : NetConn) (steps : List Step) : Run :=
  let addr := conn.remoteAddr
  let w1 := (addPeerConnection w addr conn).1
  let w2 := SendHelloMessage w1 conn w1.pm.nodeName
  let s := stepLoop conn addr w2 Ctx.active WatcherPc.waiting steps
  { world := removeConnection s.world addr, ctx := s.ctx.cancel, pc := s.pc,
    panicked := s.panicked }

/-- The steps of an event: at `deadline` the timer expires and the watcher
makes its two calls with nothing in between. -/
def Event.steps : Event → List Step
  | Event.frame text buffered => [Step.frame text buffered]
  | Event.deadline => [Step.expire, Step.watcherSend, Step.watcherRemove]

/-- The step of a line `f.1` delivered by the scanner, buffered or not. -/
def frameStep (f : String × Bool) : Step := Step.frame f.1 f.2

/-- Whether the frames, handled in this order on a connection whose handshake
flag is `flag`, keep to the order of the handshake: no frame that decodes to
something other than a greeting while the flag is false, and no greeting
while it is true.  Frames that do not decode are allowed anywhere.  These are
the frames the handlers do not answer with an `INVALID_HANDSHAKE` Error. -/
def keepsHandshakeOrder : Bool → List String → Bool
  | _, [] => true
  | flag, f :: fs =>
    match ParseMessage f with
    | Except.error _ => keepsHandshakeOrder flag fs
    | Except.ok msg =>
      if msg.isHello then !flag && keepsHandshakeOrder true fs
      else flag && keepsHandshakeOrder flag fs

/-- The steps of a sequence of events. -/
def stepsOf : List Event → List Step
  | [] => []
  | e :: es => e.steps ++ stepsOf es

/-- The steps of a session that runs into the deadline: frames, the expiry of
the timer, frames, the watcher's `SendErrorMessage`, frames, the watcher's
`removeConnection`, and whatever follows. -/
def timeoutSteps (pre mid1 mid2 : List (String × Bool)) (post : List Step) : List Step :=
  pre.map frameStep ++ Step.expire ::
    (mid1.map frameStep ++ Step.watcherSend ::
      (mid2.map frameStep ++ Step.watcherRemove :: post))

/-! ## Notions used to state the properties -/

/-- A value parser that reads back every string literal written by `quote`. -/
def ReadsQuoted (pv : List Char → Option (Json × List Char)) : Prop :=
  ∀ s rest, pv (quote s ++ rest) = some (Json.str s, rest)

/-- The frame written by `SendErrorMessage`. -/
def errorFrame (name description : String) : String :=
  JsonMarshalwithEnd (Message.Error { Type_ := "error", Name := name, Description := description })

/-- The frame written by `SendHelloMessage`. -/
def helloFrame (agentName : String) : String :=
  JsonMarshalwithEnd (Message.Hello { Type_ := "hello", Version := "0.10.0", Agent := agentName })

/-- The world with `p` put in front of its log of sent frames. -/
def World.prependSent (p : List (Nat × String)) (w : World) : World :=
  { w with sent := p ++ w.sent }

/-- What a step did, seen from outside: the registry and the log of `Close`
calls after it, and the frames it sent. -/
def effect (before after : World) :
    (String → Option ConnectionState) × List Nat × List (Nat × String) :=
  (after.pm.peers, after.closed, after.sent.drop before.sent.length)

/-- Whether a frame decodes to an Error message named `INVALID_HANDSHAKE`. -/
def isInvalidHandshake (frame : String) : Bool :=
  match ParseMessage frame with
  | Except.ok (Message.Error e) => decide (e.Name = "INVALID_HANDSHAKE")
  | _ => false

/-- The frames written to the transport `id` after the first `n` entries of
the log. -/
def World.sentOnSince (w : World) (id n : Nat) : List String :=
  ((w.sent.drop n).filter fun x => x.1 = id).map fun x => x.2

/-- The address used in the examples. -/
def exAddr : String := "10.0.0.1:5000"

/-- A transport of the peer `exAddr`. -/
def exConn : NetConn := { id := 0, remoteAddr := exAddr }

/-- A second transport of the peer `exAddr`. -/
def exConn2 : NetConn := { id := 1, remoteAddr := exAddr }

/-- A world with an empty registry. -/
def exEmpty : World :=
  { pm := NewPeerManager "node-x" "18018", closed := [], sent := [] }

/-- A world in which `exAddr` is registered with transport `exConn`, open,
and handshake flag `flag`. -/
def exWorld (flag : Bool) : World :=
  { pm := { port := "18018", nodeName := "node-x",
            peers := fun a =>
              if a = exAddr then some { Conn := exConn, ReceivedHello := flag } else none },
    closed := [], sent := [] }

/-- The event of a line `f.1` delivered by the scanner, buffered or not. -/
def frameEvent (f : String × Bool) : Event := Event.frame f.1 f.2

/-- A greeting as a peer sends it. -/
def exHello : String :=
  "\x7b\"type\":\"hello\",\"version\":\"0.10.0\",\"agent\":\"node-y\"\x7d"

/-- A frame of a type the program has no handler for. -/
def exPing : String := "\x7b\"type\":\"ping\"\x7d"

/-! ## Sequences of registry operations -/

/-- One operation of the registry. -/
inductive RegistryOp where
  | add (peerAddress : String) (conn : NetConn)
  | remove (addr : String)
  | update (addr : String) (receivedHello : Bool)
deriving DecidableEq, Repr

/-- The world after a registry operation. -/
def RegistryOp.apply (w : World) : RegistryOp → World
  | RegistryOp.add peerAddress conn => (addPeerConnection w peerAddress conn).1
  | RegistryOp.remove addr => removeConnection w addr
  | RegistryOp.update addr receivedHello => updateReceivedHello w addr receivedHello

/-- What is asked of an operation: a transport handed to `addPeerConnection`
is open and is not the transport of a registered connection. -/
def RegistryOp.admissible (w : World) : RegistryOp → Prop
  | RegistryOp.add _ conn =>
    conn.id ∉ w.closed ∧ ∀ a cs, w.pm.peers a = some cs → cs.Conn.id ≠ conn.id
  | _ => True

/-- The world after a sequence of registry operations. -/
def runOps : World → List RegistryOp → World
  | w, [] => w
  | w, op :: ops => runOps (op.apply w) ops

/-- Every operation of the sequence is admissible in the world it is applied to. -/
def admissibleOps : World → List RegistryOp → Prop
  | _, [] => True
  | w, op :: ops => op.admissible w ∧ admissibleOps (op.apply w) ops

/-- Every registered transport is open. -/
def RegisteredOpen (w : World) : Prop :=
  ∀ a cs, w.pm.peers a = some cs → cs.Conn.id ∉ w.closed

/-- No transport is registered under two addresses. -/
def TransportsDistinct (w : World) : Prop :=
  ∀ a b csa csb, w.pm.peers a = some csa → w.pm.peers b = some csb →
    csa.Conn.id = csb.Conn.id → a = b

/-- The entry of `a` is `cs` or there is none. -/
def EntryOrAbsent (a : String) (cs : ConnectionState) (w : World) : Prop :=
  w.pm.peers a = none ∨ w.pm.peers a = some cs

/-! ## The framer of the receiving side -/

/-- The function `dropCR` of package `bufio`: a trailing carriage return is
removed from a line. -/
def dropCR (line : List Char) : List Char :=
  match line.getLast? with
  | some c => if c = '\r' then line.dropLast else line
  | none => line

/-- The constant `bufio.MaxScanTokenSize`: the size to which the buffer of a
scanner grows when `Buffer` has not been called. -/
def maxScanTokenSize : Nat := 64 * 1024

/-- Number of bytes of a text. -/
def byteLength (s : List Char) : Nat := (utf8Encode s).length

/-- The tokens a `bufio.Scanner` with the split function `bufio.ScanLines` and
the default buffer delivers on a stream that holds `data` and then ends; `cur`
is the line read so far, last character first.  When the bytes of a line fill
the buffer before its newline is seen, `Scan` fails with `ErrTooLong` and
delivers nothing more. -/
def scanLinesFrom (cur : List Char) : List Char → List (List Char)
  | [] => if cur = [] then [] else [dropCR cur.reverse]
  | c :: cs =>
    if c = '\n' then dropCR cur.reverse :: scanLinesFrom [] cs
    else if maxScanTokenSize ≤ byteLength (c :: cur) then []
    else scanLinesFrom (c :: cur) cs

/-- The frames the scanner of the receiving side makes of `data`. -/
def scanLines (data : List Char) : List (List Char) := scanLinesFrom [] data

/-! ## Accesses to the map of the registry and the mutex -/

/-- One access to the map `pm.peers`: whether it writes the map, and whether
the goroutine that makes it holds `pm.mu` at that moment. -/
structure MapAccess where
  write : Bool
  locked : Bool
deriving DecidableEq, Repr

/-- The accesses of `addPeerConnection`, all between `Lock` and `Unlock`:
the lookup and, for a new address, the insertion. -/
def addPeerConnectionAccesses (w : World) (peerAddress : String) : List MapAccess :=
  match w.pm.peers peerAddress with
  | some _ => [{ write := false, locked := true }]
  | none => [{ write := false, locked := true }, { write := true, locked := true }]

/-- The accesses of `removeConnection`, all between `Lock` and `Unlock`: the
lookup and, for a registered address, the deletion. -/
def removeConnectionAccesses (w : World) (addr : String) : List MapAccess :=
  match w.pm.peers addr with
  | some _ => [{ write := false, locked := true }, { write := true, locked := true }]
  | none => [{ write := false, locked := true }]

/-- The access of `updateReceivedHello`, between `Lock` and `Unlock`: the
lookup. -/
def updateReceivedHelloAccesses : List MapAccess :=
  [{ write := false, locked := true }]

/-- The accesses made during `handleMessage`: those of the registry method it
ends up calling, if any. -/
def handleMessageAccesses (w : World) (msgString : String) (connState : Option ConnectionState) :
    List MapAccess :=
  match connState with
  | none => []
  | some cs =>
    match ParseMessage msgString with
    | Except.error _ => []
    | Except.ok msg =>
      if !cs.ReceivedHello && !msg.isHello then
        removeConnectionAccesses
          (SendErrorMessage w cs.Conn "INVALID_HANDSHAKE" "Handshake first") cs.Conn.remoteAddr
      else
        match msg with
        | Message.Hello _ =>
          if cs.ReceivedHello then
            removeConnectionAccesses
              (SendErrorMessage w cs.Conn "INVALID_HANDSHAKE" "Handshake already received")
              cs.Conn.remoteAddr
          else updateReceivedHelloAccesses
        | _ => []

/-- The accesses made during one turn of the loop `for reader.Scan()`: the
expression `pm.peers[addr]` passed to `handleMessage`, the accesses of
`handleMessage`, and the test `pm.peers[addr] != nil &&
pm.peers[addr].ReceivedHello`, whose second lookup is made when the first
found an entry.  The loop never calls `Lock`. -/
def loopBodyAccesses (addr : String) (w : World) (message : String) : List MapAccess :=
  { write := false, locked := false } ::
    (handleMessageAccesses w message (w.pm.peers addr) ++
      match handleMessage w message (w.pm.peers addr) with
      | none => []
      | some w1 =>
        match w1.pm.peers addr with
        | some _ => [{ write := false, locked := false }, { write := false, locked := false }]
        | none => [{ write := false, locked := false }])

/-! ## JSON objects as the decoder sees them -/

/-- Whether a JSON value is a string. -/
def Json.isStr : Json → Bool
  | Json.str _ => true
  | _ => false

/-- Whether a JSON value is `null`. -/
def Json.isNull : Json → Bool
  | Json.null => true
  | _ => false

/-- Whether a JSON value is an object. -/
def Json.isObj : Json → Bool
  | Json.obj _ => true
  | _ => false

/-- The text of a JSON string. -/
def Json.text : Json → Option (List Char)
  | Json.str s => some s
  | _ => none

/-- The value of the first member called `name` in a JSON object. -/
def Json.member (name : List Char) : Json → Option Json
  | Json.obj ms => (ms.find? fun m => m.1 = name).map fun m => m.2
  | _ => none

/-- The members of an object whose name is `tag` when letter case is ignored. -/
def membersNamed (tag : String) (ms : List (List Char × Json)) : List (List Char × Json) :=
  ms.filter fun m => equalFold tag.data m.1

/-- The text of the last string among the values of `l`, and `acc` when there
is none. -/
def lastText (acc : List Char) (l : List (List Char × Json)) : List Char :=
  l.foldl (fun acc m => match m.2 with
    | Json.str s => s
    | _ => acc) acc

/-- Whether every member named `tag` up to letter case is a string or `null`:
the members the decoder stores into the field `tag` without a type error. -/
def storable (tag : String) (ms : List (List Char × Json)) : Bool :=
  (membersNamed tag ms).all fun m => m.2.isStr || m.2.isNull

/-- The value the decoder gives to the string field `tag` of a zero-valued
struct: the last string among the members named `tag` up to letter case, the
empty string when there is none. -/
def decodedField (tag : String) (ms : List (List Char × Json)) : String :=
  String.mk (lastText [] (membersNamed tag ms))

/-- No two tags of `fields` are equal up to letter case. -/
def FoldDistinct (fields : List (List Char)) : Prop :=
  (fields.map (List.map foldRune)).Nodup

/-- Whether storing the member saves a type error: its name is the name of a
field and its value is neither a string nor `null`. -/
def isTypeError (fields : List (List Char)) (m : List Char × Json) : Bool :=
  (findField fields m.1).isSome && !(m.2.isStr || m.2.isNull)

/-- A frame whose member `type` is "ping" and which has a second member whose
name differs from `type` by letter case only. -/
def exPingTwoTypes : String := "\x7b\"type\":\"ping\",\"TYPE\":\"hello\"\x7d"

/-- A frame whose member `type` is "hello" and which has a second member whose
name differs from `type` by letter case only. -/
def exHelloTwoTypes : String := "\x7b\"type\":\"hello\",\"TYPE\":\"ping\"\x7d"

/-- A frame whose member `type` is "hello", without a member `version`, and
with a member `Version` that is a number. -/
def exHelloNumber : String := "\x7b\"type\":\"hello\",\"Version\":5\x7d"

/-- A frame with two members named `type` up to letter case, neither of them
"hello" or "error". -/
def exPingPong : String := "\x7b\"type\":\"ping\",\"Type\":\"pong\"\x7d"

/-- A greeting whose members are named in upper case, one of them `null`. -/
def exHelloUpper : String :=
  "\x7b\"TYPE\":\"hello\",\"type\":null,\"VERSION\":\"9.9\",\"agent\":null\x7d"

/-- A frame whose only member is `type`, with the value "hello". -/
def exHelloBare : String := "\x7b\"type\":\"hello\"\x7d"

/-- The text of the member `name` of the JSON object in `frame`, when the
frame is a JSON object and that member is a string. -/
def frameText (frame : String) (name : String) : Option String :=
  (((parseJson frame.data).bind (Json.member name.data)).bind Json.text).map String.mk

/-- Whether `frame` is a JSON object without a member called `name`. -/
def frameLacks (frame : String) (name : String) : Bool :=
  match parseJson frame.data with
  | some (Json.obj ms) => (ms.find? fun m => m.1 = name.data).isNone
  | _ => false

/-- The text of `n + 1` arrays nested in one another. -/
def nestedArrays : Nat → List Char
  | 0 => ['[', ']']
  | n + 1 => '[' :: (nestedArrays n ++ [']'])

/-- The value of `nestedArrays n`. -/
def nestedValue : Nat → Json
  | 0 => Json.arr []
  | n + 1 => Json.arr [nestedValue n]

/-- A greeting whose agent is not valid UTF-8: the single byte `\xff`. -/
def exRawHelloInvalid : Raw.Message :=
  Raw.Message.Hello (Raw.NewHelloMessage (utf8Encode "0.10.0".data) [0xff])

/-- A greeting whose agent is 65536 letters `a`. -/
def exHelloLong : Message :=
  Message.Hello { Type_ := "hello", Version := "0.10.0",
                  Agent := String.mk (List.replicate 65536 'a') }

/-- A greeting whose agent holds a newline. -/
def exHelloNewline : Message :=
  Message.Hello { Type_ := "hello", Version := "0.10.0", Agent := "node\nx" }

/-- A run of the registry: a registration, a rejected duplicate, the
handshake flag set, and the removal. -/
def exOps : List RegistryOp :=
  [RegistryOp.add exAddr exConn, RegistryOp.add exAddr exConn2,
   RegistryOp.update exAddr true, RegistryOp.remove exAddr]


/-! ## The codec reads back what it writes -/

theorem hexVal_hexDigit (d : Nat) (h : d < 16) : hexVal (hexDigit d) = some d := by
  interval_cases d <;> decide

theorem parseStringBody_cons_raw (n : Nat) (c : Char) (cs : List Char)
    (h1 : c ≠ '"') (h2 : c ≠ '\\') (h3 : ¬ c.toNat < 0x20) :
    parseStringBody (n + 1) (c :: cs) = (parseStringBody n cs).map fun r => (c :: r.1, r.2) := by
  simp [parseStringBody, h1, h2, h3]

theorem parseStringBody_cons_simple (n : Nat) (e ch : Char) (cs : List Char)
    (h1 : e ≠ 'u') (h2 : unescapeSimple e = some ch) :
    parseStringBody (n + 1) ('\\' :: e :: cs) = (parseStringBody n cs).map fun r => (ch :: r.1, r.2) := by
  simp [parseStringBody, h1, h2]

theorem parseStringBody_cons_control (n : Nat) (c : Char) (cs : List Char) (h : c.toNat < 0x20) :
    parseStringBody (n + 1)
        ('\\' :: 'u' :: '0' :: '0' :: hexDigit (c.toNat / 16) :: hexDigit (c.toNat % 16) :: cs)
      = (parseStringBody n cs).map fun r => (c :: r.1, r.2) := by
  have h0 : hexVal '0' = some 0 := by decide
  have ha : hexVal (hexDigit (c.toNat / 16)) = some (c.toNat / 16) := hexVal_hexDigit _ (by omega)
  have hb : hexVal (hexDigit (c.toNat % 16)) = some (c.toNat % 16) := hexVal_hexDigit _ (by omega)
  have hv : ((0 * 16 + 0) * 16 + c.toNat / 16) * 16 + c.toNat % 16 = c.toNat := by omega
  have hs : ¬ (0xD800 ≤ c.toNat ∧ c.toNat < 0xE000) := by omega
  simp only [parseStringBody, hex4, h0, ha, hb, hv]
  simp [hs]

/-- Reading back an escaped character. -/
theorem parseStringBody_escapeChar (n : Nat) (c : Char) (cs : List Char) :
    parseStringBody (n + 1) (escapeChar c ++ cs)
      = (parseStringBody n cs).map fun r => (c :: r.1, r.2) := by
  unfold escapeChar
  split_ifs with h1 h2 h3 h4 h5 h6 h7 h8
  · subst h1; exact parseStringBody_cons_simple n _ _ cs (by decide) (by decide)
  · subst h2; exact parseStringBody_cons_simple n _ _ cs (by decide) (by decide)
  · subst h3; exact parseStringBody_cons_simple n _ _ cs (by decide) (by decide)
  · subst h4; exact parseStringBody_cons_simple n _ _ cs (by decide) (by decide)
  · subst h5; exact parseStringBody_cons_simple n _ _ cs (by decide) (by decide)
  · subst h6; exact parseStringBody_cons_simple n _ _ cs (by decide) (by decide)
  · subst h7; exact parseStringBody_cons_simple n _ _ cs (by decide) (by decide)
  · exact parseStringBody_cons_control n c cs h8
  · exact parseStringBody_cons_raw n c cs h1 h2 h8

/-- The decoder reads back what `escape` wrote, up to the closing quote. -/
theorem parseStringBody_escape (s rest : List Char) :
    ∀ n, (escape s).length + 1 ≤ n →
      parseStringBody n (escape s ++ '"' :: rest) = some (s, rest) := by
  induction s with
  | nil =>
    intro n hn
    obtain ⟨m, rfl⟩ : ∃ m, n = m + 1 := ⟨n - 1, by omega⟩
    simp [escape, parseStringBody]
  | cons c s ih =>
    intro n hn
    obtain ⟨m, rfl⟩ : ∃ m, n = m + 1 := ⟨n - 1, by omega⟩
    have hlen : 1 ≤ (escapeChar c).length := by
      unfold escapeChar; split_ifs <;> simp
    have hm : (escape s).length + 1 ≤ m := by
      simp only [escape, List.length_append] at hn; omega
    simp only [escape, List.append_assoc]
    rw [parseStringBody_escapeChar, ih m hm]
    rfl

theorem skipWs_cons (c : Char) (cs : List Char) (h : isSpace c = false) :
    skipWs (c :: cs) = c :: cs := by
  simp [skipWs, h]

theorem parseValue_quote (d : Nat) : ReadsQuoted (parseValue (d + 1)) := by
  intro s rest
  have hsk : skipWs (quote s ++ rest) = '"' :: (escape s ++ '"' :: rest) := by
    simp [quote, skipWs, isSpace]
  have hq1 : ('"' : Char) ≠ '{' := by decide
  have hq2 : ('"' : Char) ≠ '[' := by decide
  simp only [parseValue, hsk, hq1, hq2, if_false, if_true]
  rw [parseStringBody_escape s rest _ (by simp)]
  rfl

theorem length_le_encodeMembers (ms : List (List Char × List Char)) :
    ms.length ≤ (encodeMembers ms).length := by
  induction ms with
  | nil => simp
  | cons m ms ih =>
    cases ms with
    | nil => simp [encodeMembers, quote]
    | cons m2 ms2 =>
      simp only [encodeMembers, List.length_append, List.length_cons] at ih ⊢
      simp only [quote, List.length_append, List.length_cons] at ih ⊢
      omega

/-- The member loop reads back the members written by `encodeMembers`. -/
theorem parseMembers_encodeMembers (pv : List Char → Option (Json × List Char))
    (hpv : ReadsQuoted pv) (rest : List Char) (ms : List (List Char × List Char)) :
    ms ≠ [] → ∀ n, ms.length ≤ n →
      parseMembers pv n (encodeMembers ms ++ '}' :: rest)
        = some (ms.map fun m => (m.1, Json.str m.2), rest) := by
  induction ms with
  | nil => intro h; exact absurd rfl h
  | cons m ms ih =>
    intro _ n hn
    obtain ⟨k, rfl⟩ : ∃ k, n = k + 1 := ⟨n - 1, by simp at hn; omega⟩
    cases ms with
    | nil =>
      have h1 : encodeMembers [m] ++ '}' :: rest
          = '"' :: (escape m.1 ++ '"' :: ':' :: (quote m.2 ++ '}' :: rest)) := by
        simp [encodeMembers, quote]
      rw [h1]
      simp only [parseMembers]
      rw [skipWs_cons _ _ (by decide)]
      simp only [if_true]
      rw [parseStringBody_escape m.1 _ _ (by simp)]
      simp only []
      rw [skipWs_cons _ _ (by decide)]
      simp only [if_true]
      rw [hpv]
      simp only []
      rw [skipWs_cons _ _ (by decide)]
      simp
    | cons m2 ms2 =>
      have h1 : encodeMembers (m :: m2 :: ms2) ++ '}' :: rest
          = '"' :: (escape m.1 ++ '"' :: ':' ::
              (quote m.2 ++ ',' :: (encodeMembers (m2 :: ms2) ++ '}' :: rest))) := by
        simp [encodeMembers, quote]
      rw [h1]
      simp only [parseMembers]
      rw [skipWs_cons _ _ (by decide)]
      simp only [if_true]
      rw [parseStringBody_escape m.1 _ _ (by simp)]
      simp only []
      rw [skipWs_cons _ _ (by decide)]
      simp only [if_true]
      rw [hpv]
      simp only []
      rw [skipWs_cons _ _ (by decide)]
      simp only [if_true]
      rw [ih (by simp) k (by simp at hn ⊢; omega)]
      simp

/-- The parser reads back an encoded object. -/
theorem parseValue_encodeObject (d : Nat) (ms : List (List Char × List Char)) (rest : List Char)
    (hms : ms ≠ []) :
    parseValue (d + 2) (encodeObject ms ++ rest)
      = some (Json.obj (ms.map fun m => (m.1, Json.str m.2)), rest) := by
  obtain ⟨m, ms1, rfl⟩ := List.exists_cons_of_ne_nil hms
  have hhead : ∃ tl, encodeMembers (m :: ms1) ++ '}' :: rest = '"' :: tl := by
    cases ms1 <;> simp [encodeMembers, quote]
  obtain ⟨tl, htl⟩ := hhead
  have h1 : encodeObject (m :: ms1) ++ rest = '{' :: (encodeMembers (m :: ms1) ++ '}' :: rest) := by
    simp [encodeObject]
  rw [h1, parseValue]
  rw [skipWs_cons _ _ (by decide)]
  simp only [if_true, Nat.add_one_ne_zero, if_false]
  have hq : ('"' : Char) ≠ '}' := by decide
  have h2 : skipWs (encodeMembers (m :: ms1) ++ '}' :: rest) = '"' :: tl := by
    rw [htl]; exact skipWs_cons _ _ (by decide)
  rw [h2]
  simp only [hq, if_false]
  rw [← htl, parseMembers_encodeMembers _ (parseValue_quote d) rest (m :: ms1) (by simp)]
  · rfl
  · have := length_le_encodeMembers (m :: ms1)
    simp only [List.length_append, List.length_cons] at this ⊢
    omega

/-- A complete text made of an encoded object and trailing white space. -/
theorem parseJson_encodeObject (ms : List (List Char × List Char)) (tail : List Char)
    (hms : ms ≠ []) (htail : skipWs tail = []) :
    parseJson (encodeObject ms ++ tail)
      = some (Json.obj (ms.map fun m => (m.1, Json.str m.2))) := by
  simp only [parseJson, maxNestingDepth]
  rw [show (10000 + 1 : Nat) = 9999 + 2 from rfl, parseValue_encodeObject 9999 ms tail hms]
  simp [htail]

theorem nestedArrays_head (n : Nat) (rest : List Char) :
    ∃ tl, nestedArrays n ++ rest = '[' :: tl := by
  cases n <;> exact ⟨_, rfl⟩

/-- Arrays nested as deep as the bound allows are read. -/
theorem parseValue_nestedArrays (n : Nat) :
    ∀ (d : Nat) (rest : List Char), n + 1 ≤ d →
      parseValue (d + 1) (nestedArrays n ++ rest) = some (nestedValue n, rest) := by
  induction n with
  | zero =>
    intro d rest hd
    have hd0 : d ≠ 0 := by omega
    have e : nestedArrays 0 ++ rest = '[' :: ']' :: rest := rfl
    rw [e, parseValue, skipWs_cons _ _ (by decide)]
    simp only [hd0, if_false]
    rw [skipWs_cons _ _ (by decide)]
    simp +decide [nestedValue]
  | succ n ih =>
    intro d rest hd
    obtain ⟨k, rfl⟩ : ∃ k, d = k + 1 := ⟨d - 1, by omega⟩
    obtain ⟨tl, htl⟩ := nestedArrays_head n (']' :: rest)
    have e : nestedArrays (n + 1) ++ rest = '[' :: (nestedArrays n ++ ']' :: rest) := by
      simp [nestedArrays]
    rw [e, parseValue, skipWs_cons _ _ (by decide)]
    simp only [Nat.add_one_ne_zero, if_false]
    rw [htl, skipWs_cons _ _ (by decide)]
    have hne : ('[' : Char) ≠ ']' := by decide
    have hlb : ('[' : Char) ≠ '{' := by decide
    simp only [hne, hlb, if_false, if_true, parseElements]
    rw [← htl, ih k (']' :: rest) (by omega)]
    simp only []
    rw [skipWs_cons _ _ (by decide)]
    simp +decide [nestedValue]

/-- Arrays nested one level deeper than the bound allows are refused. -/
theorem parseValue_nestedArrays_none (n : Nat) :
    ∀ (d : Nat) (rest : List Char), d ≤ n + 1 →
      parseValue d (nestedArrays n ++ rest) = none := by
  induction n with
  | zero =>
    intro d rest hd
    cases d with
    | zero => rfl
    | succ k =>
      have hk : k = 0 := by omega
      subst hk
      have e : nestedArrays 0 ++ rest = '[' :: ']' :: rest := rfl
      rw [e, parseValue, skipWs_cons _ _ (by decide)]
      simp +decide
  | succ n ih =>
    intro d rest hd
    cases d with
    | zero => rfl
    | succ k =>
      obtain ⟨tl, htl⟩ := nestedArrays_head n (']' :: rest)
      have e : nestedArrays (n + 1) ++ rest = '[' :: (nestedArrays n ++ ']' :: rest) := by
        simp [nestedArrays]
      rw [e, parseValue, skipWs_cons _ _ (by decide)]
      have hlb : ('[' : Char) ≠ '{' := by decide
      simp only [hlb, if_false, if_true]
      by_cases hk : k = 0
      · simp [hk]
      · simp only [hk, if_false]
        rw [htl, skipWs_cons _ _ (by decide)]
        have hne : ('[' : Char) ≠ ']' := by decide
        simp only [hne, if_false, parseElements]
        rw [← htl, ih k (']' :: rest) (by omega)]
        rfl

theorem parseJson_nestedArrays (n : Nat) (h : n + 1 ≤ maxNestingDepth) :
    parseJson (nestedArrays n) = some (nestedValue n) := by
  have h1 := parseValue_nestedArrays n maxNestingDepth [] h
  rw [List.append_nil] at h1
  unfold parseJson
  rw [h1]
  rfl

theorem parseJson_nestedArrays_none (n : Nat) (h : maxNestingDepth ≤ n) :
    parseJson (nestedArrays n) = none := by
  have h1 := parseValue_nestedArrays_none n (maxNestingDepth + 1) [] (by omega)
  rw [List.append_nil] at h1
  unfold parseJson
  rw [h1]

/-- The bound on the nesting depth is the one of `encoding/json`: a text with
10000 arrays open at once is read, one with 10001 is refused, even though
its innermost array is empty. -/
theorem parseJson_nesting_limit :
    parseJson (nestedArrays 9999) = some (nestedValue 9999) ∧
    parseJson (nestedArrays 10000) = none :=
  ⟨parseJson_nestedArrays 9999 (by decide), parseJson_nestedArrays_none 10000 (by decide)⟩

/-- Decoding the canonical encoding of string members followed by white space. -/
theorem unmarshalStruct_encodeObject (fields : List String) (ms : List (String × String))
    (tail : String) (hms : ms ≠ []) (htail : skipWs tail.data = []) :
    unmarshalStruct fields
        (String.mk (encodeObject (ms.map fun m => (m.1.data, m.2.data))) ++ tail)
      = (decodeStruct (fields.map String.data)
          (Json.obj (ms.map fun m => (m.1.data, Json.str m.2.data)))).map
            fun r => fun tag => String.mk (r tag.data) := by
  unfold unmarshalStruct
  rw [String.data_append, parseJson_encodeObject _ _ (by simpa using hms) htail]
  simp [List.map_map, Function.comp_def]

theorem canonicalMembers_hello (v a : String) (ha : a ≠ "") :
    canonicalMembers (Message.Hello { Type_ := "hello", Version := v, Agent := a }).fields
      = [("agent", a), ("type", "hello"), ("version", v)] := by
  simp [canonicalMembers, Message.fields, List.filter, ha, List.insertionSort, List.orderedInsert,
    memberLe, nameLe]

theorem canonicalMembers_hello_noAgent (v : String) :
    canonicalMembers (Message.Hello { Type_ := "hello", Version := v, Agent := "" }).fields
      = [("type", "hello"), ("version", v)] := by
  simp [canonicalMembers, Message.fields, List.filter, List.insertionSort, List.orderedInsert,
    memberLe, nameLe]

/-- Decoding what `canonicaljson.Marshal` wrote for a hello message, with
white space after it, gives the message back. -/
theorem ParseMessage_marshal_hello (v a tail : String) (htail : skipWs tail.data = []) :
    ∃ bytes, canonicalMarshal (Message.Hello { Type_ := "hello", Version := v, Agent := a })
        = Except.ok bytes ∧
      ParseMessage (bytes ++ tail)
        = Except.ok (Message.Hello { Type_ := "hello", Version := v, Agent := a }) := by
  refine ⟨_, rfl, ?_⟩
  by_cases ha : a = ""
  · subst ha
    rw [canonicalMembers_hello_noAgent]
    unfold ParseMessage unmarshalBaseMessage unmarshalHelloMessage
    rw [unmarshalStruct_encodeObject _ _ _ (by simp) htail,
      unmarshalStruct_encodeObject _ _ _ (by simp) htail]
    simp +decide [decodeStruct, storeMember, findField, equalFold]
  · rw [canonicalMembers_hello v a ha]
    unfold ParseMessage unmarshalBaseMessage unmarshalHelloMessage
    rw [unmarshalStruct_encodeObject _ _ _ (by simp) htail,
      unmarshalStruct_encodeObject _ _ _ (by simp) htail]
    simp +decide [decodeStruct, storeMember, findField, equalFold]

/-! ## Registry operations and handlers: auxiliary facts -/

theorem SendErrorMessage_open (w : World) (conn : NetConn) (name description : String)
    (hopen : conn.id ∉ w.closed) :
    SendErrorMessage w conn name description
      = { w with sent := w.sent ++ [(conn.id, errorFrame name description)] } := by
  simp [SendErrorMessage, World.Write, hopen, errorFrame]

theorem SendErrorMessage_closed (w : World) (conn : NetConn) (name description : String)
    (hclosed : conn.id ∈ w.closed) :
    SendErrorMessage w conn name description = w := by
  simp [SendErrorMessage, World.Write, hclosed]

theorem removeConnection_of_some (w : World) (addr : String) (cs : ConnectionState)
    (h : w.pm.peers addr = some cs) :
    removeConnection w addr
      = { w with
          closed := w.closed ++ [cs.Conn.id]
          pm := { w.pm with peers := fun a => if a = addr then none else w.pm.peers a } } := by
  simp [removeConnection, h, World.Close]

theorem removeConnection_of_none (w : World) (addr : String) (h : w.pm.peers addr = none) :
    removeConnection w addr = w := by
  simp [removeConnection, h]

theorem Write_prependSent (p : List (Nat × String)) (w : World) (c : NetConn) (d : String) :
    (w.prependSent p).Write c d = (w.Write c d).prependSent p := by
  unfold World.Write World.prependSent
  by_cases h : c.id ∈ w.closed <;> simp [h]

theorem SendErrorMessage_prependSent (p : List (Nat × String)) (w : World) (c : NetConn)
    (n d : String) :
    SendErrorMessage (w.prependSent p) c n d = (SendErrorMessage w c n d).prependSent p := by
  simp [SendErrorMessage, Write_prependSent]

theorem removeConnection_prependSent (p : List (Nat × String)) (w : World) (a : String) :
    removeConnection (w.prependSent p) a = (removeConnection w a).prependSent p := by
  unfold removeConnection
  cases h : w.pm.peers a <;> simp [World.prependSent, h, World.Close]

theorem updateReceivedHello_prependSent (p : List (Nat × String)) (w : World) (a : String)
    (b : Bool) :
    updateReceivedHello (w.prependSent p) a b = (updateReceivedHello w a b).prependSent p := by
  unfold updateReceivedHello
  cases h : w.pm.peers a <;> simp [World.prependSent, h]

/-- Handling a frame does not look at the frames sent earlier. -/
theorem handleMessage_prependSent (p : List (Nat × String)) (w : World) (f : String)
    (cs : Option ConnectionState) :
    handleMessage (w.prependSent p) f cs = (handleMessage w f cs).map (World.prependSent p) := by
  unfold handleMessage parseAndLogMessage
  cases hp : ParseMessage f with
  | error e =>
    cases cs with
    | none => rfl
    | some c => simp [SendErrorMessage_prependSent]
  | ok msg =>
    cases cs with
    | none => rfl
    | some c =>
      cases msg with
      | Hello m =>
        by_cases hf : c.ReceivedHello = true <;>
          simp [hf, Message.isHello, routeMessage, handleHello, SendErrorMessage_prependSent,
            removeConnection_prependSent, updateReceivedHello_prependSent]
      | Error m =>
        by_cases hf : c.ReceivedHello = true <;>
          simp [hf, Message.isHello, routeMessage, SendErrorMessage_prependSent,
            removeConnection_prependSent]
      | Base m =>
        by_cases hf : c.ReceivedHello = true <;>
          simp [hf, Message.isHello, routeMessage, SendErrorMessage_prependSent,
            removeConnection_prependSent]

/-- The effect of handling a frame does not depend on the frames sent earlier. -/
theorem handleMessage_effect_prependSent (p : List (Nat × String)) (w : World) (f : String)
    (cs : Option ConnectionState) :
    (handleMessage (w.prependSent p) f cs).map (effect (w.prependSent p))
      = (handleMessage w f cs).map (effect w) := by
  rw [handleMessage_prependSent, Option.map_map]
  congr 1
  funext x
  simp [effect, World.prependSent, List.drop_append]

/-- The effect of handling a frame depends on the registry and on the closed
transports only. -/
theorem handleMessage_effect_congr (w w1 : World) (hpm : w1.pm = w.pm)
    (hcl : w1.closed = w.closed) (f : String) (cs : Option ConnectionState) :
    (handleMessage w1 f cs).map (effect w1) = (handleMessage w f cs).map (effect w) := by
  have e : w = World.prependSent w.sent { w with sent := [] } := by
    simp [World.prependSent]
  have e1 : w1 = World.prependSent w1.sent { w with sent := [] } := by
    cases w1; simp only [World.prependSent] at *; simp [hpm, hcl]
  rw [e1, handleMessage_effect_prependSent]
  conv_rhs => rw [e, handleMessage_effect_prependSent]

theorem handleMessage_of_parse_error (w : World) (cs : ConnectionState) (bad : String)
    (hbad : ∀ msg, ParseMessage bad ≠ Except.ok msg) :
    handleMessage w bad (some cs)
      = some (SendErrorMessage w cs.Conn "INVALID_FORMAT" "Invalid message format") := by
  cases h : ParseMessage bad with
  | error e => simp [handleMessage, parseAndLogMessage, h]
  | ok msg => exact absurd h (hbad msg)


/-- The greeting `exHello` decodes to a hello message. -/
theorem exHello_decodes :
    ParseMessage exHello
      = Except.ok (Message.Hello { Type_ := "hello", Version := "0.10.0", Agent := "node-y" }) := by
  decide

/-- The text `not json` does not decode. -/
theorem not_json_malformed : ∀ msg, ParseMessage "not json" ≠ Except.ok msg := by
  intro msg h
  have e : ParseMessage "not json" = Except.error "invalid JSON format" := by decide
  rw [e] at h
  exact Except.noConfusion h

/-- The empty frame does not decode. -/
theorem empty_frame_malformed : ∀ msg, ParseMessage "" ≠ Except.ok msg := by
  intro msg h
  have e : ParseMessage "" = Except.error "invalid JSON format" := by decide
  rw [e] at h
  exact Except.noConfusion h

/-- A turn of the loop for an address that is not registered panics: the nil
state is dereferenced. -/
theorem loopBody_of_absent (addr : String) (w : World) (ctx : Ctx) (text : String)
    (h : w.pm.peers addr = none) : loopBody addr w ctx text = none := by
  unfold loopBody handleMessage parseAndLogMessage
  rw [h]
  cases ParseMessage text <;> rfl

/-- Once the entry is gone, the transport closed and the context done, the
rest of the events leaves the world as it is. -/
theorem scanLoop_after_removal (conn : NetConn) (addr : String) (w : World) (ctx : Ctx)
    (habs : w.pm.peers addr = none) (hctx : ctx ≠ Ctx.active)
    (es : List Event) : (scanLoop conn addr w ctx es).world = w := by
  induction es with
  | nil => rfl
  | cons e es ih =>
    cases e with
    | deadline =>
      have h : timeoutWatcher conn addr w ctx = (w, ctx) := by
        cases ctx <;> first | rfl | exact absurd rfl hctx
      simp only [scanLoop, h]
      exact ih
    | frame text buffered =>
      simp only [scanLoop, loopBody_of_absent addr w ctx text habs]
      split <;> rfl

/-- Malformed frames on a registered, open connection: each one is answered
by an `INVALID_FORMAT` Error and the loop goes on. -/
theorem scanLoop_malformed_frames (conn : NetConn) (ctx : Ctx)
    (pre : List (String × Bool))
    (hpre : ∀ f ∈ pre, ∀ msg, ParseMessage f.1 ≠ Except.ok msg) (es : List Event) :
    ∀ w : World, w.pm.peers conn.remoteAddr = some { Conn := conn, ReceivedHello := false } →
      conn.id ∉ w.closed →
      scanLoop conn conn.remoteAddr w ctx (pre.map frameEvent ++ es)
        = scanLoop conn conn.remoteAddr
            { w with sent := w.sent ++
                pre.map fun _ => (conn.id, errorFrame "INVALID_FORMAT" "Invalid message format") }
            ctx es := by
  induction pre with
  | nil => intro w _ _; simp
  | cons f pre ih =>
    intro w hreg hopen
    have hf := hpre f (List.mem_cons_self _ _)
    have hb : loopBody conn.remoteAddr w ctx f.1
        = some ({ w with sent := w.sent ++
            [(conn.id, errorFrame "INVALID_FORMAT" "Invalid message format")] }, ctx) := by
      unfold loopBody
      rw [hreg, handleMessage_of_parse_error w _ f.1 hf, SendErrorMessage_open w _ _ _ hopen]
      simp [hreg]
    simp only [List.map_cons, List.cons_append, frameEvent, scanLoop, hb, hopen, and_false,
      if_false]
    have h2 := ih (fun g hg => hpre g (List.mem_cons_of_mem _ hg))
      { w with sent := w.sent ++
          [(conn.id, errorFrame "INVALID_FORMAT" "Invalid message format")] } hreg hopen
    simp only [List.append_assoc, List.singleton_append] at h2
    exact h2


theorem isInvalidHandshake_helloFrame (agentName : String) :
    isInvalidHandshake (helloFrame agentName) = false := by
  obtain ⟨bytes, hm, hp⟩ := ParseMessage_marshal_hello "0.10.0" agentName "\n" (by decide)
  simp [isInvalidHandshake, helloFrame, JsonMarshalwithEnd, hm, hp]

theorem isInvalidHandshake_invalidFormat :
    isInvalidHandshake (errorFrame "INVALID_FORMAT" "Invalid message format") = false := by
  decide

theorem isInvalidHandshake_timeout :
    isInvalidHandshake (errorFrame "INVALID_HANDSHAKE" "No handshake within 20 seconds") = true := by
  decide

/-- The loop of a session that is registered, open and not yet established,
when all frames before the expiry of the timer are malformed. -/
theorem scanLoop_timeout (conn : NetConn) (w : World) (pre : List (String × Bool))
    (post : List Event)
    (hreg : w.pm.peers conn.remoteAddr = some { Conn := conn, ReceivedHello := false })
    (hopen : conn.id ∉ w.closed)
    (hpre : ∀ f ∈ pre, ∀ msg, ParseMessage f.1 ≠ Except.ok msg) :
    (scanLoop conn conn.remoteAddr w Ctx.active
        (pre.map frameEvent ++ Event.deadline :: post)).world
      = { pm := { port := w.pm.port, nodeName := w.pm.nodeName,
                  peers := fun a => if a = conn.remoteAddr then none else w.pm.peers a },
          closed := w.closed ++ [conn.id],
          sent := w.sent ++
            (pre.map fun _ => (conn.id, errorFrame "INVALID_FORMAT" "Invalid message format")) ++
            [(conn.id, errorFrame "INVALID_HANDSHAKE" "No handshake within 20 seconds")] } := by
  rw [scanLoop_malformed_frames conn Ctx.active pre hpre _ w hreg hopen, scanLoop]
  simp only [timeoutWatcher]
  rw [SendErrorMessage_open]
  · rw [removeConnection_of_some _ _ { Conn := conn, ReceivedHello := false }]
    · rw [scanLoop_after_removal conn conn.remoteAddr _ Ctx.deadlineExceeded]
      · simp
      · decide
    · exact hreg
  · exact hopen

/-- The whole run of a session whose frames before the expiry of the timer
are all malformed. -/
theorem handleConnection_timeout_world (w : World) (conn : NetConn) (pre : List (String × Bool))
    (post : List Event)
    (hfresh : w.pm.peers conn.remoteAddr = none) (hopen : conn.id ∉ w.closed)
    (hpre : ∀ f ∈ pre, ∀ msg, ParseMessage f.1 ≠ Except.ok msg) :
    (handleConnection w conn (pre.map frameEvent ++ Event.deadline :: post)).world
      = { pm := w.pm,
          closed := w.closed ++ [conn.id],
          sent := w.sent ++ (conn.id, helloFrame w.pm.nodeName) ::
            ((pre.map fun _ => (conn.id, errorFrame "INVALID_FORMAT" "Invalid message format")) ++
              [(conn.id, errorFrame "INVALID_HANDSHAKE" "No handshake within 20 seconds")]) } := by
  have hstart : SendHelloMessage (addPeerConnection w conn.remoteAddr conn).1 conn
        (addPeerConnection w conn.remoteAddr conn).1.pm.nodeName
      = { pm := { port := w.pm.port, nodeName := w.pm.nodeName,
                  peers := fun a => if a = conn.remoteAddr then
                    some { Conn := conn, ReceivedHello := false } else w.pm.peers a },
          closed := w.closed,
          sent := w.sent ++ [(conn.id, helloFrame w.pm.nodeName)] } := by
    simp [addPeerConnection, hfresh, SendHelloMessage, World.Write, hopen, helloFrame]
  have key := scanLoop_timeout conn
    { pm := { port := w.pm.port, nodeName := w.pm.nodeName,
              peers := fun a => if a = conn.remoteAddr then
                some { Conn := conn, ReceivedHello := false } else w.pm.peers a },
      closed := w.closed,
      sent := w.sent ++ [(conn.id, helloFrame w.pm.nodeName)] } pre post (by simp) hopen hpre
  unfold handleConnection
  simp only [hstart, key]
  rw [removeConnection_of_none _ _ (by simp)]
  have hp : (fun a => if a = conn.remoteAddr then none
      else if a = conn.remoteAddr then some ({ Conn := conn, ReceivedHello := false } : ConnectionState)
        else w.pm.peers a) = w.pm.peers := by
    funext a
    by_cases h : a = conn.remoteAddr
    · simp [h, hfresh]
    · simp [h]
  simp [hp]

/-- On a registered connection whose flag is false, a frame that decodes to
a message other than hello is answered by one Error `INVALID_HANDSHAKE` /
"Handshake first" and the connection is removed. -/
theorem handleMessage_handshake_first (w : World) (cs : ConnectionState) (frame : String)
    (msg : Message)
    (hreg : w.pm.peers cs.Conn.remoteAddr = some cs) (hopen : cs.Conn.id ∉ w.closed)
    (hflag : cs.ReceivedHello = false) (hdec : ParseMessage frame = Except.ok msg)
    (hnot : msg.isHello = false) :
    ∃ w1, handleMessage w frame (w.pm.peers cs.Conn.remoteAddr) = some w1 ∧
      w1.sent = w.sent ++ [(cs.Conn.id, errorFrame "INVALID_HANDSHAKE" "Handshake first")] ∧
      w1.pm.peers cs.Conn.remoteAddr = none ∧
      w1.closed = w.closed ++ [cs.Conn.id] ∧
      ∀ a, a ≠ cs.Conn.remoteAddr → w1.pm.peers a = w.pm.peers a := by
  have h1 : handleMessage w frame (w.pm.peers cs.Conn.remoteAddr)
      = some (removeConnection (SendErrorMessage w cs.Conn "INVALID_HANDSHAKE" "Handshake first")
          cs.Conn.remoteAddr) := by
    rw [hreg]
    simp [handleMessage, parseAndLogMessage, hdec, hflag, hnot]
  rw [h1, SendErrorMessage_open w _ _ _ hopen, removeConnection_of_some _ _ cs (by exact hreg)]
  refine ⟨_, rfl, rfl, by simp, rfl, ?_⟩
  intro a ha; simp [ha]

/-- A line that is not buffered is not handled once the transport of the
session has been closed: the loop ends. -/
theorem scanLoop_unbuffered_closed (conn : NetConn) (addr : String) (w : World) (ctx : Ctx)
    (text : String) (es : List Event) (hcl : conn.id ∈ w.closed) :
    scanLoop conn addr w ctx (Event.frame text false :: es)
      = { world := w, ctx := ctx, panicked := false } := by
  simp [scanLoop, hcl]

/-! ## The registry -/

/-- C1: registering a new transport `c` for an address `A` that is already
registered returns false, closes `c` and leaves the peer manager as it was;
the entry of `A` keeps its transport, still open, and its handshake flag. -/
theorem addPeerConnection_duplicate (w : World) (A : String) (c : NetConn) (cs : ConnectionState)
    (hreg : w.pm.peers A = some cs) (hnew : c.id ≠ cs.Conn.id) (hopen : cs.Conn.id ∉ w.closed) :
    (addPeerConnection w A c).2 = false ∧
    (addPeerConnection w A c).1.closed = w.closed ++ [c.id] ∧
    (addPeerConnection w A c).1.pm = w.pm ∧
    (addPeerConnection w A c).1.sent = w.sent ∧
    (addPeerConnection w A c).1.pm.peers A = some cs ∧
    cs.Conn.id ∉ (addPeerConnection w A c).1.closed := by
  have e : addPeerConnection w A c = (w.Close c, false) := by
    simp only [addPeerConnection, hreg]
  rw [e]
  refine ⟨rfl, rfl, rfl, rfl, hreg, ?_⟩
  simp only [World.Close, List.mem_append, List.mem_singleton, not_or]
  exact ⟨hopen, fun h => hnew h.symm⟩

/-- C1 at the registry `exWorld true` and the second transport `exConn2`. -/
theorem addPeerConnection_duplicate_witness :
    (addPeerConnection (exWorld true) exAddr exConn2).2 = false ∧
    (addPeerConnection (exWorld true) exAddr exConn2).1.closed = [] ++ [1] ∧
    (addPeerConnection (exWorld true) exAddr exConn2).1.pm = (exWorld true).pm ∧
    (addPeerConnection (exWorld true) exAddr exConn2).1.sent = [] ∧
    (addPeerConnection (exWorld true) exAddr exConn2).1.pm.peers exAddr
      = some { Conn := exConn, ReceivedHello := true } ∧
    0 ∉ (addPeerConnection (exWorld true) exAddr exConn2).1.closed :=
  addPeerConnection_duplicate (exWorld true) exAddr exConn2
    { Conn := exConn, ReceivedHello := true } (by decide) (by decide) (by decide)

/-- C9: `removeConnection` changes nothing for an absent address; for a
registered one it closes the transport of the entry and deletes exactly that
entry.  Calling it twice gives the same world as calling it once, and the two
calls together close the transport exactly once. -/
theorem removeConnection_spec (w : World) (A : String) :
    (w.pm.peers A = none → removeConnection w A = w) ∧
    (∀ cs, w.pm.peers A = some cs →
      (removeConnection w A).closed = w.closed ++ [cs.Conn.id] ∧
      (removeConnection w A).pm.peers A = none ∧
      (∀ a, a ≠ A → (removeConnection w A).pm.peers a = w.pm.peers a) ∧
      (removeConnection w A).sent = w.sent ∧
      (removeConnection (removeConnection w A) A).closed.count cs.Conn.id
        = w.closed.count cs.Conn.id + 1) ∧
    removeConnection (removeConnection w A) A = removeConnection w A := by
  refine ⟨removeConnection_of_none w A, ?_, ?_⟩
  · intro cs h
    have h2 : (removeConnection w A).pm.peers A = none := by
      simp [removeConnection_of_some w A cs h]
    refine ⟨by simp [removeConnection_of_some w A cs h], h2, ?_,
      by simp [removeConnection_of_some w A cs h], ?_⟩
    · intro a ha; simp [removeConnection_of_some w A cs h, ha]
    · rw [removeConnection_of_none _ A h2]; simp [removeConnection_of_some w A cs h]
  · cases h : w.pm.peers A with
    | none => rw [removeConnection_of_none w A h, removeConnection_of_none w A h]
    | some cs =>
      exact removeConnection_of_none _ A (by simp [removeConnection_of_some w A cs h])

/-- C9 at the registry `exWorld true`, for the registered address and for an
absent one. -/
theorem removeConnection_spec_witness :
    removeConnection (exWorld true) "10.0.0.2:5000" = exWorld true ∧
    ((removeConnection (exWorld true) exAddr).closed = (exWorld true).closed ++ [exConn.id] ∧
      (removeConnection (exWorld true) exAddr).pm.peers exAddr = none ∧
      (∀ a, a ≠ exAddr →
        (removeConnection (exWorld true) exAddr).pm.peers a = (exWorld true).pm.peers a) ∧
      (removeConnection (exWorld true) exAddr).sent = (exWorld true).sent ∧
      (removeConnection (removeConnection (exWorld true) exAddr) exAddr).closed.count exConn.id
        = (exWorld true).closed.count exConn.id + 1) ∧
    removeConnection (removeConnection (exWorld true) exAddr) exAddr
      = removeConnection (exWorld true) exAddr :=
  ⟨(removeConnection_spec (exWorld true) "10.0.0.2:5000").1 (by decide),
   (removeConnection_spec (exWorld true) exAddr).2.1
      { Conn := exConn, ReceivedHello := true } (by decide),
   (removeConnection_spec (exWorld true) exAddr).2.2⟩

/-! ## The handshake gate -/

/-- C4: on a registered connection whose flag is true, a frame that decodes
to a hello message makes `handleMessage` send exactly one Error
`INVALID_HANDSHAKE` / "Handshake already received" and remove the connection,
closing its transport; every other entry of the registry is unchanged. -/
theorem handleMessage_second_hello (w : World) (cs : ConnectionState) (frame : String)
    (m : HelloMessage)
    (hreg : w.pm.peers cs.Conn.remoteAddr = some cs) (hopen : cs.Conn.id ∉ w.closed)
    (hflag : cs.ReceivedHello = true) (hdec : ParseMessage frame = Except.ok (Message.Hello m)) :
    ∃ w1, handleMessage w frame (w.pm.peers cs.Conn.remoteAddr) = some w1 ∧
      w1.sent = w.sent ++
        [(cs.Conn.id, errorFrame "INVALID_HANDSHAKE" "Handshake already received")] ∧
      w1.pm.peers cs.Conn.remoteAddr = none ∧
      w1.closed = w.closed ++ [cs.Conn.id] ∧
      ∀ a, a ≠ cs.Conn.remoteAddr → w1.pm.peers a = w.pm.peers a := by
  have h1 : handleMessage w frame (w.pm.peers cs.Conn.remoteAddr)
      = some (removeConnection
          (SendErrorMessage w cs.Conn "INVALID_HANDSHAKE" "Handshake already received")
          cs.Conn.remoteAddr) := by
    rw [hreg]
    simp [handleMessage, parseAndLogMessage, hdec, hflag, routeMessage, handleHello]
  rw [h1, SendErrorMessage_open w _ _ _ hopen, removeConnection_of_some _ _ cs (by exact hreg)]
  refine ⟨_, rfl, rfl, by simp, rfl, ?_⟩
  intro a ha; simp [ha]

/-- C4 at the registry `exWorld true` and the greeting `exHello`. -/
theorem handleMessage_second_hello_witness :
    (exWorld true).pm.peers exAddr = some { Conn := exConn, ReceivedHello := true } ∧
    exConn.id ∉ (exWorld true).closed ∧
    ParseMessage exHello
      = Except.ok (Message.Hello { Type_ := "hello", Version := "0.10.0", Agent := "node-y" }) ∧
    ∃ w1, handleMessage (exWorld true) exHello ((exWorld true).pm.peers exAddr) = some w1 ∧
      w1.sent = (exWorld true).sent ++
        [(exConn.id, errorFrame "INVALID_HANDSHAKE" "Handshake already received")] ∧
      w1.pm.peers exAddr = none ∧
      w1.closed = (exWorld true).closed ++ [exConn.id] ∧
      ∀ a, a ≠ exAddr → w1.pm.peers a = (exWorld true).pm.peers a :=
  ⟨by decide, by decide, exHello_decodes,
   handleMessage_second_hello (exWorld true) { Conn := exConn, ReceivedHello := true } exHello
     { Type_ := "hello", Version := "0.10.0", Agent := "node-y" }
     (by decide) (by decide) rfl exHello_decodes⟩

/-- C5: on a registered connection whose flag is false, a frame that decodes
to a hello message sets the flag, sends nothing, closes nothing and leaves the
other entries alone; the loop then cancels the context, so that the expiry of
the timer afterwards has no effect. -/
theorem loopBody_first_hello (w : World) (ctx : Ctx) (conn : NetConn) (cs : ConnectionState)
    (frame : String) (m : HelloMessage)
    (hreg : w.pm.peers cs.Conn.remoteAddr = some cs)
    (hflag : cs.ReceivedHello = false) (hdec : ParseMessage frame = Except.ok (Message.Hello m)) :
    ∃ w1, loopBody cs.Conn.remoteAddr w ctx frame = some (w1, ctx.cancel) ∧
      w1.pm.peers cs.Conn.remoteAddr = some { Conn := cs.Conn, ReceivedHello := true } ∧
      (∀ a, a ≠ cs.Conn.remoteAddr → w1.pm.peers a = w.pm.peers a) ∧
      w1.sent = w.sent ∧ w1.closed = w.closed ∧
      ctx.cancel ≠ Ctx.active ∧
      timeoutWatcher conn cs.Conn.remoteAddr w1 ctx.cancel = (w1, ctx.cancel) := by
  refine ⟨updateReceivedHello w cs.Conn.remoteAddr true, ?_, ?_, ?_, ?_, ?_, ?_, ?_⟩
  · have h1 : handleMessage w frame (some cs)
        = some (updateReceivedHello w cs.Conn.remoteAddr true) := by
      simp [handleMessage, parseAndLogMessage, hdec, hflag, routeMessage, handleHello,
        Message.isHello]
    simp [loopBody, h1, updateReceivedHello, hreg]
  · simp [updateReceivedHello, hreg]
  · intro a ha; simp [updateReceivedHello, hreg, ha]
  · simp [updateReceivedHello, hreg]
  · simp [updateReceivedHello, hreg]
  · cases ctx <;> simp [Ctx.cancel]
  · cases ctx <;> rfl

/-- C5 at the registry `exWorld false`, an active context and the greeting
`exHello`. -/
theorem loopBody_first_hello_witness :
    (exWorld false).pm.peers exAddr = some { Conn := exConn, ReceivedHello := false } ∧
    ∃ w1, loopBody exAddr (exWorld false) Ctx.active exHello = some (w1, Ctx.canceled) ∧
      w1.pm.peers exAddr = some { Conn := exConn, ReceivedHello := true } ∧
      (∀ a, a ≠ exAddr → w1.pm.peers a = (exWorld false).pm.peers a) ∧
      w1.sent = (exWorld false).sent ∧ w1.closed = (exWorld false).closed ∧
      Ctx.canceled ≠ Ctx.active ∧
      timeoutWatcher exConn exAddr w1 Ctx.canceled = (w1, Ctx.canceled) :=
  ⟨by decide,
   loopBody_first_hello (exWorld false) Ctx.active exConn { Conn := exConn, ReceivedHello := false }
     exHello { Type_ := "hello", Version := "0.10.0", Agent := "node-y" }
     (by decide) rfl exHello_decodes⟩

/-- C6: a frame that fails to decode makes `handleMessage` send exactly one
Error `INVALID_FORMAT` / "Invalid message format" and leaves the peer manager
and the transports as they were; the effect of handling any next frame is the
one it would have had without the malformed frame. -/
theorem handleMessage_malformed (w : World) (cs : ConnectionState) (bad : String)
    (hreg : w.pm.peers cs.Conn.remoteAddr = some cs) (hopen : cs.Conn.id ∉ w.closed)
    (hbad : ∀ msg, ParseMessage bad ≠ Except.ok msg) :
    ∃ w1, handleMessage w bad (w.pm.peers cs.Conn.remoteAddr) = some w1 ∧
      w1.sent = w.sent ++ [(cs.Conn.id, errorFrame "INVALID_FORMAT" "Invalid message format")] ∧
      w1.pm = w.pm ∧ w1.closed = w.closed ∧
      ∀ next : String,
        (handleMessage w1 next (w1.pm.peers cs.Conn.remoteAddr)).map (effect w1)
          = (handleMessage w next (w.pm.peers cs.Conn.remoteAddr)).map (effect w) := by
  refine ⟨{ w with sent := w.sent ++
      [(cs.Conn.id, errorFrame "INVALID_FORMAT" "Invalid message format")] }, ?_, rfl, rfl, rfl, ?_⟩
  · rw [hreg, handleMessage_of_parse_error w cs bad hbad, SendErrorMessage_open w _ _ _ hopen]
  · intro next
    exact handleMessage_effect_congr w
      { w with sent := w.sent ++
          [(cs.Conn.id, errorFrame "INVALID_FORMAT" "Invalid message format")] }
      rfl rfl next (w.pm.peers cs.Conn.remoteAddr)


/-- C6 at the registry `exWorld false` and the frame `not json`. -/
theorem handleMessage_malformed_witness :
    (exWorld false).pm.peers exAddr = some { Conn := exConn, ReceivedHello := false } ∧
    exConn.id ∉ (exWorld false).closed ∧
    (∀ msg, ParseMessage "not json" ≠ Except.ok msg) ∧
    ∃ w1, handleMessage (exWorld false) "not json" ((exWorld false).pm.peers exAddr) = some w1 ∧
      w1.sent = (exWorld false).sent ++
        [(exConn.id, errorFrame "INVALID_FORMAT" "Invalid message format")] ∧
      w1.pm = (exWorld false).pm ∧ w1.closed = (exWorld false).closed ∧
      ∀ next : String,
        (handleMessage w1 next (w1.pm.peers exAddr)).map (effect w1)
          = (handleMessage (exWorld false) next ((exWorld false).pm.peers exAddr)).map
              (effect (exWorld false)) :=
  ⟨by decide, by decide, not_json_malformed,
   handleMessage_malformed (exWorld false) { Conn := exConn, ReceivedHello := false } "not json"
     (by decide) (by decide) not_json_malformed⟩

/-! ## The session -/

/-- C2, evaluated: `exAddr` is registered with the open transport `exConn`
and a session starts on a second transport `exConn2` of the same address,
which the registry rejects.  The session goes on, and when it returns the
entry of `exAddr` is gone and both transports have been closed. -/
theorem handleConnection_duplicate_removes_registered :
    (exWorld true).pm.peers exConn2.remoteAddr = some { Conn := exConn, ReceivedHello := true } ∧
    (addPeerConnection (exWorld true) exConn2.remoteAddr exConn2).2 = false ∧
    (handleConnection (exWorld true) exConn2 []).world.pm.peers exConn2.remoteAddr = none ∧
    (handleConnection (exWorld true) exConn2 []).world.closed = [exConn2.id, exConn.id] := by
  decide

/-- C3, evaluated: a frame of type `ping` on a connection that has not sent
its greeting removes the connection; when a second frame is already in the
scanner's buffer, the loop hands it to `handleMessage` with the nil state and
the session panics. -/
theorem handleConnection_buffered_frame_after_removal :
    ParseMessage exPing = Except.ok (Message.Base { Type_ := "ping" }) ∧
    (scanLoop exConn exAddr (exWorld false) Ctx.active
      [Event.frame exPing false]).world.pm.peers exAddr = none ∧
    (scanLoop exConn exAddr (exWorld false) Ctx.active
      [Event.frame exPing false]).panicked = false ∧
    (scanLoop exConn exAddr (exWorld false) Ctx.active
      [Event.frame exPing false, Event.frame exPing true]).panicked
      = true ∧
    (handleConnection exEmpty exConn
      [Event.frame exPing false, Event.frame exPing true]).panicked
      = true := by
  decide

/-- The loop over events is the loop over steps in which the watcher is not
interrupted. -/
theorem stepLoop_steps (conn : NetConn) (addr : String) (es : List Event) :
    ∀ (w : World) (ctx : Ctx) (pc : WatcherPc), pc = WatcherPc.waiting ∨ pc = WatcherPc.finished →
      (stepLoop conn addr w ctx pc (stepsOf es)).world = (scanLoop conn addr w ctx es).world ∧
      (stepLoop conn addr w ctx pc (stepsOf es)).ctx = (scanLoop conn addr w ctx es).ctx ∧
      (stepLoop conn addr w ctx pc (stepsOf es)).panicked
        = (scanLoop conn addr w ctx es).panicked := by
  induction es with
  | nil => intro w ctx pc _; exact ⟨rfl, rfl, rfl⟩
  | cons e es ih =>
    intro w ctx pc hpc
    cases e with
    | frame text buffered =>
      simp only [stepsOf, Event.steps, List.singleton_append, stepLoop, scanLoop]
      split
      · exact ⟨rfl, rfl, rfl⟩
      · cases hb : loopBody addr w ctx text with
        | none => exact ⟨rfl, rfl, rfl⟩
        | some r => exact ih r.1 r.2 pc hpc
    | deadline =>
      cases ctx with
      | active =>
        simp only [stepsOf, Event.steps, List.cons_append, List.nil_append, stepLoop, scanLoop,
          timeoutWatcher]
        exact ih _ _ _ (Or.inr rfl)
      | canceled =>
        rcases hpc with rfl | rfl <;>
          simp only [stepsOf, Event.steps, List.cons_append, List.nil_append, stepLoop, scanLoop,
            timeoutWatcher] <;>
          exact ih _ _ _ (by simp)
      | deadlineExceeded =>
        rcases hpc with rfl | rfl <;>
          simp only [stepsOf, Event.steps, List.cons_append, List.nil_append, stepLoop, scanLoop,
            timeoutWatcher] <;>
          exact ih _ _ _ (by simp)

/-- The session over events is the session over steps in which the watcher
is not interrupted. -/
theorem handleConnectionSteps_steps (w : World) (conn : NetConn) (es : List Event) :
    (handleConnectionSteps w conn (stepsOf es)).world = (handleConnection w conn es).world ∧
    (handleConnectionSteps w conn (stepsOf es)).ctx = (handleConnection w conn es).ctx ∧
    (handleConnectionSteps w conn (stepsOf es)).panicked = (handleConnection w conn es).panicked := by
  have h := stepLoop_steps conn conn.remoteAddr es
    (SendHelloMessage (addPeerConnection w conn.remoteAddr conn).1 conn
      (addPeerConnection w conn.remoteAddr conn).1.pm.nodeName) Ctx.active WatcherPc.waiting
    (Or.inl rfl)
  simp only [handleConnectionSteps, handleConnection, h.1, h.2.1, h.2.2, and_self]

/-- Once the entry is gone, the context done and the watcher at its end, the
rest of the steps leaves the world as it is. -/
theorem stepLoop_after_removal (conn : NetConn) (addr : String) (w : World) (ctx : Ctx)
    (habs : w.pm.peers addr = none) (hctx : ctx ≠ Ctx.active) (ss : List Step) :
    (stepLoop conn addr w ctx WatcherPc.finished ss).world = w := by
  induction ss with
  | nil => rfl
  | cons s ss ih =>
    cases s with
    | frame text buffered =>
      simp only [stepLoop, loopBody_of_absent addr w ctx text habs]
      split <;> rfl
    | expire =>
      cases ctx with
      | active => exact absurd rfl hctx
      | canceled => simpa only [stepLoop] using ih
      | deadlineExceeded => simpa only [stepLoop] using ih
    | watcherSend => simpa only [stepLoop] using ih
    | watcherRemove => simpa only [stepLoop] using ih

/-- Frames that keep to the order of the handshake, handled on a registered
and open connection: the loop goes on, the connection stays registered and
open, and no frame sent meanwhile is an `INVALID_HANDSHAKE` Error. -/
theorem stepLoop_frames_in_order (conn : NetConn) (pc : WatcherPc) (rest : List Step)
    (fs : List (String × Bool)) :
    ∀ (gs : List String) (w : World) (ctx : Ctx) (flag : Bool),
      w.pm.peers conn.remoteAddr = some { Conn := conn, ReceivedHello := flag } →
      conn.id ∉ w.closed →
      keepsHandshakeOrder flag (fs.map Prod.fst ++ gs) = true →
      ∃ (w1 : World) (ctx1 : Ctx) (flag1 : Bool),
        stepLoop conn conn.remoteAddr w ctx pc (fs.map frameStep ++ rest)
          = stepLoop conn conn.remoteAddr w1 ctx1 pc rest ∧
        w1.pm.peers conn.remoteAddr = some { Conn := conn, ReceivedHello := flag1 } ∧
        w1.closed = w.closed ∧
        (∃ extra, w1.sent = w.sent ++ extra ∧ ∀ x ∈ extra, isInvalidHandshake x.2 = false) ∧
        keepsHandshakeOrder flag1 gs = true ∧
        (ctx.cancel = ctx → ctx1 = ctx) ∧
        ((∀ f ∈ fs, ∀ msg, ParseMessage f.1 ≠ Except.ok msg) → flag = false →
          ctx1 = ctx ∧ flag1 = false) := by
  induction fs with
  | nil =>
    intro gs w ctx flag hreg hopen hk
    exact ⟨w, ctx, flag, rfl, hreg, rfl, ⟨[], by simp, by simp⟩, hk, fun _ => rfl,
      fun _ hf => ⟨rfl, hf⟩⟩
  | cons f fs ih =>
    intro gs w ctx flag hreg hopen hk
    simp only [List.map_cons, List.cons_append, keepsHandshakeOrder] at hk
    simp only [List.map_cons, List.cons_append, frameStep, stepLoop, hopen, and_false, if_false]
    cases hp : ParseMessage f.1 with
    | error e =>
      rw [hp] at hk
      have hbad : ∀ msg, ParseMessage f.1 ≠ Except.ok msg := by
        intro msg h; rw [hp] at h; exact Except.noConfusion h
      have hb : loopBody conn.remoteAddr w ctx f.1
          = some ({ w with sent := w.sent ++
              [(conn.id, errorFrame "INVALID_FORMAT" "Invalid message format")] },
            if flag then ctx.cancel else ctx) := by
        unfold loopBody
        rw [hreg, handleMessage_of_parse_error w _ f.1 hbad, SendErrorMessage_open w _ _ _ hopen]
        simp only [hreg]
        cases flag <;> simp
      rw [hb]
      obtain ⟨w1, ctx1, flag1, h1, h2, h3, ⟨extra, h4, h5⟩, h6, h7, h8⟩ :=
        ih gs { w with sent := w.sent ++
            [(conn.id, errorFrame "INVALID_FORMAT" "Invalid message format")] }
          (if flag then ctx.cancel else ctx) flag hreg hopen hk
      refine ⟨w1, ctx1, flag1, h1, h2, h3,
        ⟨(conn.id, errorFrame "INVALID_FORMAT" "Invalid message format") :: extra, ?_, ?_⟩,
        h6, ?_, ?_⟩
      · simp [h4]
      · intro x hx
        rcases List.mem_cons.mp hx with rfl | hx
        · exact isInvalidHandshake_invalidFormat
        · exact h5 x hx
      · intro hc
        have : (if flag then ctx.cancel else ctx) = ctx := by cases flag <;> simp [hc]
        rw [this] at h7
        exact h7 hc
      · intro hall hf
        subst hf
        exact h8 (fun g hg => hall g (List.mem_cons_of_mem _ hg)) rfl
    | ok msg =>
      rw [hp] at hk
      simp only [] at hk
      cases hh : msg.isHello with
      | true =>
        simp only [hh, if_true, Bool.and_eq_true, Bool.not_eq_true'] at hk
        obtain ⟨hflag, hk⟩ := hk
        subst hflag
        have hb : loopBody conn.remoteAddr w ctx f.1
            = some (updateReceivedHello w conn.remoteAddr true, ctx.cancel) := by
          have h1 : handleMessage w f.1 (some { Conn := conn, ReceivedHello := false })
              = some (updateReceivedHello w conn.remoteAddr true) := by
            cases msg with
            | Hello m =>
              simp [handleMessage, parseAndLogMessage, hp, routeMessage, handleHello,
                Message.isHello]
            | Error m => simp [Message.isHello] at hh
            | Base m => simp [Message.isHello] at hh
          simp [loopBody, hreg, h1, updateReceivedHello]
        rw [hb]
        have hreg1 : (updateReceivedHello w conn.remoteAddr true).pm.peers conn.remoteAddr
            = some { Conn := conn, ReceivedHello := true } := by
          simp [updateReceivedHello, hreg]
        have hopen1 : conn.id ∉ (updateReceivedHello w conn.remoteAddr true).closed := by
          simpa [updateReceivedHello, hreg] using hopen
        obtain ⟨w1, ctx1, flag1, h1, h2, h3, ⟨extra, h4, h5⟩, h6, h7, h8⟩ :=
          ih gs (updateReceivedHello w conn.remoteAddr true) ctx.cancel true hreg1 hopen1 hk
        refine ⟨w1, ctx1, flag1, h1, h2, ?_, ⟨extra, ?_, h5⟩, h6, ?_, ?_⟩
        · rw [h3]; simp [updateReceivedHello, hreg]
        · rw [h4]; simp [updateReceivedHello, hreg]
        · intro hc
          rw [hc] at h7
          exact h7 hc
        · intro hall _
          exact absurd hp (hall f (List.mem_cons_self _ _) msg)
      | false =>
        simp only [hh, Bool.false_eq_true, if_false, Bool.and_eq_true] at hk
        obtain ⟨hflag, hk⟩ := hk
        subst hflag
        have hb : loopBody conn.remoteAddr w ctx f.1 = some (w, ctx.cancel) := by
          have h1 : handleMessage w f.1 (some { Conn := conn, ReceivedHello := true })
              = some w := by
            cases msg with
            | Hello m => simp [Message.isHello] at hh
            | Error m => simp [handleMessage, parseAndLogMessage, hp, routeMessage]
            | Base m => simp [handleMessage, parseAndLogMessage, hp, routeMessage]
          simp [loopBody, hreg, h1]
        rw [hb]
        obtain ⟨w1, ctx1, flag1, h1, h2, h3, h45, h6, h7, h8⟩ :=
          ih gs w ctx.cancel true hreg hopen hk
        refine ⟨w1, ctx1, flag1, h1, h2, h3, h45, h6, ?_, ?_⟩
        · intro hc
          rw [hc] at h7
          exact h7 hc
        · intro _ hf
          exact Bool.noConfusion hf


theorem keepsHandshakeOrder_of_malformed (flag : Bool) (fs : List String)
    (h : ∀ f ∈ fs, ∀ msg, ParseMessage f ≠ Except.ok msg) :
    keepsHandshakeOrder flag fs = true := by
  induction fs with
  | nil => rfl
  | cons f fs ih =>
    cases hp : ParseMessage f with
    | error e =>
      simp only [keepsHandshakeOrder, hp]
      exact ih fun g hg => h g (List.mem_cons_of_mem _ hg)
    | ok msg => exact absurd hp (h f (List.mem_cons_self _ _) msg)

theorem filter_isInvalidHandshake_nil (id : Nat) (extra : List (Nat × String))
    (h : ∀ x ∈ extra, isInvalidHandshake x.2 = false) :
    (((extra.filter fun x => x.1 = id).map fun x => x.2).filter isInvalidHandshake) = [] := by
  rw [List.filter_eq_nil_iff]
  intro s hs
  obtain ⟨x, hx, rfl⟩ := List.mem_map.mp hs
  rw [h x (List.mem_filter.mp hx).1]
  exact Bool.false_ne_true

/-- The world at the end of a session that runs into the deadline, when every
frame before the expiry is malformed and the frames handled between the
expiry and the watcher's `removeConnection` keep to the order of the
handshake. -/
theorem handleConnectionSteps_timeout_world (w : World) (conn : NetConn)
    (pre mid1 mid2 : List (String × Bool)) (post : List Step)
    (hfresh : w.pm.peers conn.remoteAddr = none) (hopen : conn.id ∉ w.closed)
    (hpre : ∀ f ∈ pre, ∀ msg, ParseMessage f.1 ≠ Except.ok msg)
    (hmid : keepsHandshakeOrder false ((mid1 ++ mid2).map Prod.fst) = true) :
    ∃ e1 e2 e3 : List (Nat × String),
      (∀ x ∈ e1, isInvalidHandshake x.2 = false) ∧ (∀ x ∈ e2, isInvalidHandshake x.2 = false) ∧
      (∀ x ∈ e3, isInvalidHandshake x.2 = false) ∧
      (handleConnectionSteps w conn (timeoutSteps pre mid1 mid2 post)).world.pm.peers
        conn.remoteAddr = none ∧
      (handleConnectionSteps w conn (timeoutSteps pre mid1 mid2 post)).world.closed
        = w.closed ++ [conn.id] ∧
      (handleConnectionSteps w conn (timeoutSteps pre mid1 mid2 post)).world.sent
        = w.sent ++ (conn.id, helloFrame w.pm.nodeName) ::
            (e1 ++ (e2 ++
              (conn.id, errorFrame "INVALID_HANDSHAKE" "No handshake within 20 seconds") :: e3)) := by
  have hstart : SendHelloMessage (addPeerConnection w conn.remoteAddr conn).1 conn
        (addPeerConnection w conn.remoteAddr conn).1.pm.nodeName
      = { pm := { port := w.pm.port, nodeName := w.pm.nodeName,
                  peers := fun a => if a = conn.remoteAddr then
                    some { Conn := conn, ReceivedHello := false } else w.pm.peers a },
          closed := w.closed,
          sent := w.sent ++ [(conn.id, helloFrame w.pm.nodeName)] } := by
    simp [addPeerConnection, hfresh, SendHelloMessage, World.Write, hopen, helloFrame]
  -- frames before the expiry
  obtain ⟨w3, ctx3, flag3, h3, hreg3, hcl3, ⟨e1, hs3, he1⟩, _, _, hc3⟩ :=
    stepLoop_frames_in_order conn WatcherPc.waiting
      (Step.expire :: (mid1.map frameStep ++ Step.watcherSend ::
        (mid2.map frameStep ++ Step.watcherRemove :: post))) pre []
      { pm := { port := w.pm.port, nodeName := w.pm.nodeName,
                peers := fun a => if a = conn.remoteAddr then
                  some { Conn := conn, ReceivedHello := false } else w.pm.peers a },
        closed := w.closed,
        sent := w.sent ++ [(conn.id, helloFrame w.pm.nodeName)] } Ctx.active false
      (by simp) hopen
      (by
        rw [List.append_nil]
        apply keepsHandshakeOrder_of_malformed
        intro f hf
        obtain ⟨g, hg, rfl⟩ := List.mem_map.mp hf
        exact hpre g hg)
  obtain ⟨rfl, rfl⟩ := hc3 hpre rfl
  have hopen3 : conn.id ∉ w3.closed := by rw [hcl3]; exact hopen
  -- frames between the expiry and the watcher's write
  obtain ⟨w4, ctx4, flag4, h4, hreg4, hcl4, ⟨e2, hs4, he2⟩, hk4, hc4, _⟩ :=
    stepLoop_frames_in_order conn WatcherPc.sending
      (Step.watcherSend :: (mid2.map frameStep ++ Step.watcherRemove :: post)) mid1
      (mid2.map Prod.fst) w3 Ctx.deadlineExceeded false hreg3 hopen3
      (by simpa using hmid)
  have hctx4 := hc4 rfl
  subst hctx4
  have hopen4 : conn.id ∉ w4.closed := by rw [hcl4]; exact hopen3
  -- frames between the watcher's write and its removal
  obtain ⟨w5, ctx5, flag5, h5, hreg5, hcl5, ⟨e3, hs5, he3⟩, _, hc5, _⟩ :=
    stepLoop_frames_in_order conn WatcherPc.removing (Step.watcherRemove :: post) mid2 []
      (SendErrorMessage w4 conn "INVALID_HANDSHAKE" "No handshake within 20 seconds")
      Ctx.deadlineExceeded flag4
      (by rw [SendErrorMessage_open w4 _ _ _ hopen4]; exact hreg4)
      (by rw [SendErrorMessage_open w4 _ _ _ hopen4]; exact hopen4)
      (by rw [List.append_nil]; exact hk4)
  have hctx5 := hc5 rfl
  subst hctx5
  have hrun : (stepLoop conn conn.remoteAddr
      { pm := { port := w.pm.port, nodeName := w.pm.nodeName,
                peers := fun a => if a = conn.remoteAddr then
                  some { Conn := conn, ReceivedHello := false } else w.pm.peers a },
        closed := w.closed,
        sent := w.sent ++ [(conn.id, helloFrame w.pm.nodeName)] } Ctx.active WatcherPc.waiting
      (timeoutSteps pre mid1 mid2 post)).world = removeConnection w5 conn.remoteAddr := by
    unfold timeoutSteps
    rw [h3]
    simp only [stepLoop]
    rw [h4]
    simp only [stepLoop]
    rw [h5]
    simp only [stepLoop]
    exact stepLoop_after_removal conn conn.remoteAddr _ Ctx.deadlineExceeded
      (by simp [removeConnection_of_some w5 _ _ hreg5]) (by decide) post
  refine ⟨e1, e2, e3, he1, he2, he3, ?_⟩
  unfold handleConnectionSteps
  simp only [hstart, hrun]
  have habs : (removeConnection w5 conn.remoteAddr).pm.peers conn.remoteAddr = none := by
    simp [removeConnection_of_some w5 _ _ hreg5]
  rw [removeConnection_of_none _ _ habs]
  refine ⟨habs, ?_, ?_⟩
  · simp [removeConnection_of_some w5 _ _ hreg5, hcl5, SendErrorMessage_open w4 _ _ _ hopen4,
      hcl4, hcl3]
  · simp [removeConnection_of_some w5 _ _ hreg5, hs5, SendErrorMessage_open w4 _ _ _ hopen4,
      hs4, hs3]

/-- C7, amended: take a session in which every frame handled before the expiry
of the timer is malformed and in which the frames handled between the expiry
and the watcher's `removeConnection`, before or after the watcher's
`SendErrorMessage`, keep to the order of the handshake.  Whatever follows, the
connection is removed once (its transport is closed once and its entry is
absent at the end) and, among the frames sent on it during the session,
exactly one is an Error named `INVALID_HANDSHAKE`: the one with description
"No handshake within 20 seconds". -/
theorem handleConnection_handshake_timeout_steps (w : World) (conn : NetConn)
    (pre mid1 mid2 : List (String × Bool)) (post : List Step)
    (hfresh : w.pm.peers conn.remoteAddr = none) (hopen : conn.id ∉ w.closed)
    (hpre : ∀ f ∈ pre, ∀ msg, ParseMessage f.1 ≠ Except.ok msg)
    (hmid : keepsHandshakeOrder false ((mid1 ++ mid2).map Prod.fst) = true) :
    (handleConnectionSteps w conn (timeoutSteps pre mid1 mid2 post)).world.pm.peers
        conn.remoteAddr = none ∧
    (handleConnectionSteps w conn (timeoutSteps pre mid1 mid2 post)).world.closed
      = w.closed ++ [conn.id] ∧
    ((handleConnectionSteps w conn (timeoutSteps pre mid1 mid2 post)).world.sentOnSince
        conn.id w.sent.length).filter isInvalidHandshake
      = [errorFrame "INVALID_HANDSHAKE" "No handshake within 20 seconds"] := by
  obtain ⟨e1, e2, e3, he1, he2, he3, habs, hcl, hsent⟩ :=
    handleConnectionSteps_timeout_world w conn pre mid1 mid2 post hfresh hopen hpre hmid
  refine ⟨habs, hcl, ?_⟩
  simp only [World.sentOnSince, hsent, List.drop_left, List.filter_cons, List.filter_append,
    List.map_append, List.map_cons, decide_True, if_true,
    isInvalidHandshake_helloFrame, isInvalidHandshake_timeout,
    filter_isInvalidHandshake_nil conn.id e1 he1, filter_isInvalidHandshake_nil conn.id e2 he2,
    filter_isInvalidHandshake_nil conn.id e3 he3]
  simp

/-- C7, as stated, fails: no frame at all arrives before the timer expires,
the watcher sends its Error, and before the watcher calls `removeConnection`
the loop handles a frame of type `ping`.  The connection is still registered
and open, so the frame is answered with "Handshake first": two Errors named
`INVALID_HANDSHAKE` are sent on the connection.  It is closed once. -/
theorem handshake_timeout_two_errors :
    (handleConnectionSteps exEmpty exConn
      [Step.expire, Step.watcherSend, Step.frame exPing false, Step.watcherRemove]).world.closed
      = [exConn.id] ∧
    (handleConnectionSteps exEmpty exConn
      [Step.expire, Step.watcherSend, Step.frame exPing false,
        Step.watcherRemove]).world.pm.peers exAddr = none ∧
    ((handleConnectionSteps exEmpty exConn
      [Step.expire, Step.watcherSend, Step.frame exPing false, Step.watcherRemove]).world.sentOnSince
        exConn.id exEmpty.sent.length).filter isInvalidHandshake
      = [errorFrame "INVALID_HANDSHAKE" "No handshake within 20 seconds",
         errorFrame "INVALID_HANDSHAKE" "Handshake first"] := by
  decide

/-- C7, amended, for a session on the empty registry that receives an empty
frame and the frame `not json` before the timer expires, an empty frame
between the expiry and the watcher's write, a greeting and a frame of type
`ping` between the write and the removal, and a greeting after it. -/
theorem handleConnection_handshake_timeout_steps_witness :
    keepsHandshakeOrder false
      (([("", false)] ++ [(exHello, false), (exPing, true)]).map Prod.fst) = true ∧
    (handleConnectionSteps exEmpty exConn
      (timeoutSteps [("", false), ("not json", true)] [("", false)]
        [(exHello, false), (exPing, true)] [Step.frame exHello false])).world.pm.peers
        exConn.remoteAddr = none ∧
    (handleConnectionSteps exEmpty exConn
      (timeoutSteps [("", false), ("not json", true)] [("", false)]
        [(exHello, false), (exPing, true)] [Step.frame exHello false])).world.closed
      = exEmpty.closed ++ [exConn.id] ∧
    ((handleConnectionSteps exEmpty exConn
      (timeoutSteps [("", false), ("not json", true)] [("", false)]
        [(exHello, false), (exPing, true)] [Step.frame exHello false])).world.sentOnSince
        exConn.id exEmpty.sent.length).filter isInvalidHandshake
      = [errorFrame "INVALID_HANDSHAKE" "No handshake within 20 seconds"] :=
  ⟨by decide,
   handleConnection_handshake_timeout_steps exEmpty exConn [("", false), ("not json", true)]
    [("", false)] [(exHello, false), (exPing, true)] [Step.frame exHello false]
    (by decide) (by decide)
    (by
      intro f hf msg
      simp only [List.mem_cons, List.mem_singleton, List.not_mem_nil, or_false] at hf
      rcases hf with rfl | rfl
      · exact empty_frame_malformed msg
      · exact not_json_malformed msg)
    (by decide)⟩

/-- C10, as stated, fails: on the registry `exWorld true` the empty frame makes
the session send one Error `INVALID_FORMAT`. -/
theorem empty_frame_not_skipped :
    (exWorld true).pm.peers exAddr = some { Conn := exConn, ReceivedHello := true } ∧
    (loopBody exAddr (exWorld true) Ctx.canceled "").map (fun r => r.1.sent)
      = some [(exConn.id, errorFrame "INVALID_FORMAT" "Invalid message format")] ∧
    (loopBody exAddr (exWorld true) Ctx.canceled "").map (fun r => r.1.sent)
      ≠ some (exWorld true).sent := by
  decide

/-- C10, amended: an empty frame is handled as a malformed frame.  The session
sends exactly one Error `INVALID_FORMAT` / "Invalid message format"; the peer
manager, with the handshake flag of the connection, is unchanged and no
transport is closed. -/
theorem loopBody_empty_frame (w : World) (ctx : Ctx) (cs : ConnectionState)
    (hreg : w.pm.peers cs.Conn.remoteAddr = some cs) (hopen : cs.Conn.id ∉ w.closed) :
    ∃ w1, loopBody cs.Conn.remoteAddr w ctx ""
        = some (w1, if cs.ReceivedHello then ctx.cancel else ctx) ∧
      w1.sent = w.sent ++ [(cs.Conn.id, errorFrame "INVALID_FORMAT" "Invalid message format")] ∧
      w1.pm = w.pm ∧ w1.closed = w.closed := by
  refine ⟨{ w with sent := w.sent ++
      [(cs.Conn.id, errorFrame "INVALID_FORMAT" "Invalid message format")] }, ?_, rfl, rfl, rfl⟩
  unfold loopBody
  rw [hreg, handleMessage_of_parse_error w cs "" empty_frame_malformed,
    SendErrorMessage_open w _ _ _ hopen]
  simp only [hreg]
  by_cases hf : cs.ReceivedHello = true <;> simp [hf]


/-- C10, amended, at the registry `exWorld false`. -/
theorem loopBody_empty_frame_witness :
    (exWorld false).pm.peers exAddr = some { Conn := exConn, ReceivedHello := false } ∧
    exConn.id ∉ (exWorld false).closed ∧
    ∃ w1, loopBody exAddr (exWorld false) Ctx.active "" = some (w1, Ctx.active) ∧
      w1.sent = (exWorld false).sent ++
        [(exConn.id, errorFrame "INVALID_FORMAT" "Invalid message format")] ∧
      w1.pm = (exWorld false).pm ∧ w1.closed = (exWorld false).closed :=
  ⟨by decide, by decide,
   loopBody_empty_frame (exWorld false) Ctx.active { Conn := exConn, ReceivedHello := false }
     (by decide) (by decide)⟩

/-! ## The codec -/

/-! ### Go strings: the encoder fails on invalid UTF-8 -/

theorem val_ofNat_lt (n : Nat) (h : n < 256) : (Fin.ofNat n : Byte).val = n := by
  simp [Fin.ofNat, Nat.mod_eq_of_lt h]

theorem decodeRune_encodeChar (c : Char) (rest : List Byte) :
    decodeRune (utf8EncodeChar c ++ rest) = some (c, rest) := by
  have hvalid : c.toNat < 0xD800 ∨ (0xDFFF < c.toNat ∧ c.toNat < 0x110000) := c.valid
  have hc : Char.ofNat c.toNat = c := Char.ofNat_toNat c
  unfold utf8EncodeChar
  split_ifs with h1 h2 h3
  · have v0 := val_ofNat_lt c.toNat (by omega)
    simp only [List.singleton_append, decodeRune, v0, h1, if_true, hc]
  · have v0 := val_ofNat_lt (0xC0 + c.toNat / 0x40) (by omega)
    have v1 := val_ofNat_lt (0x80 + c.toNat % 0x40) (by omega)
    have e : (0xC0 + c.toNat / 0x40 - 0xC0) * 0x40 + (0x80 + c.toNat % 0x40 - 0x80) = c.toNat := by
      omega
    have a1 : ¬ (0xC0 + c.toNat / 0x40 < 0x80) := by omega
    have a2 : 0xC2 ≤ 0xC0 + c.toNat / 0x40 ∧ 0xC0 + c.toNat / 0x40 < 0xE0 := by omega
    have a3 : 0x80 ≤ 0x80 + c.toNat % 0x40 ∧ 0x80 + c.toNat % 0x40 < 0xC0 := by omega
    simp only [List.cons_append, List.nil_append, decodeRune, isCont, v0, v1, a1, a2, a3, e, hc,
      if_false, if_true, and_self, decide_True]
  · have v0 := val_ofNat_lt (0xE0 + c.toNat / 0x1000) (by omega)
    have v1 := val_ofNat_lt (0x80 + c.toNat / 0x40 % 0x40) (by omega)
    have v2 := val_ofNat_lt (0x80 + c.toNat % 0x40) (by omega)
    have e : (0xE0 + c.toNat / 0x1000 - 0xE0) * 0x1000 + (0x80 + c.toNat / 0x40 % 0x40 - 0x80) * 0x40
        + (0x80 + c.toNat % 0x40 - 0x80) = c.toNat := by
      omega
    have a1 : ¬ (0xE0 + c.toNat / 0x1000 < 0x80) := by omega
    have a2 : ¬ (0xC2 ≤ 0xE0 + c.toNat / 0x1000 ∧ 0xE0 + c.toNat / 0x1000 < 0xE0) := by omega
    have a3 : 0xE0 ≤ 0xE0 + c.toNat / 0x1000 ∧ 0xE0 + c.toNat / 0x1000 < 0xF0 := by omega
    have a4 : 0x80 ≤ 0x80 + c.toNat / 0x40 % 0x40 ∧ 0x80 + c.toNat / 0x40 % 0x40 < 0xC0 := by omega
    have a5 : 0x80 ≤ 0x80 + c.toNat % 0x40 ∧ 0x80 + c.toNat % 0x40 < 0xC0 := by omega
    have a6 : 0xE0 + c.toNat / 0x1000 = 0xE0 → 0xA0 ≤ 0x80 + c.toNat / 0x40 % 0x40 := by omega
    have a7 : 0xE0 + c.toNat / 0x1000 = 0xED → 0x80 + c.toNat / 0x40 % 0x40 < 0xA0 := by omega
    simp only [List.cons_append, List.nil_append, decodeRune, isCont, v0, v1, v2, a1, a2, a3, a4,
      a5, e, hc, if_false, if_true, and_self, decide_True, true_and]
    rw [if_pos ⟨a6, a7⟩]
  · have v0 := val_ofNat_lt (0xF0 + c.toNat / 0x40000) (by omega)
    have v1 := val_ofNat_lt (0x80 + c.toNat / 0x1000 % 0x40) (by omega)
    have v2 := val_ofNat_lt (0x80 + c.toNat / 0x40 % 0x40) (by omega)
    have v3 := val_ofNat_lt (0x80 + c.toNat % 0x40) (by omega)
    have e : (0xF0 + c.toNat / 0x40000 - 0xF0) * 0x40000
        + (0x80 + c.toNat / 0x1000 % 0x40 - 0x80) * 0x1000
        + (0x80 + c.toNat / 0x40 % 0x40 - 0x80) * 0x40
        + (0x80 + c.toNat % 0x40 - 0x80) = c.toNat := by
      omega
    have a1 : ¬ (0xF0 + c.toNat / 0x40000 < 0x80) := by omega
    have a2 : ¬ (0xC2 ≤ 0xF0 + c.toNat / 0x40000 ∧ 0xF0 + c.toNat / 0x40000 < 0xE0) := by omega
    have a3 : ¬ (0xE0 ≤ 0xF0 + c.toNat / 0x40000 ∧ 0xF0 + c.toNat / 0x40000 < 0xF0) := by omega
    have a3b : 0xF0 ≤ 0xF0 + c.toNat / 0x40000 ∧ 0xF0 + c.toNat / 0x40000 < 0xF5 := by omega
    have a4 : 0x80 ≤ 0x80 + c.toNat / 0x1000 % 0x40 ∧ 0x80 + c.toNat / 0x1000 % 0x40 < 0xC0 := by
      omega
    have a5 : 0x80 ≤ 0x80 + c.toNat / 0x40 % 0x40 ∧ 0x80 + c.toNat / 0x40 % 0x40 < 0xC0 := by omega
    have a5b : 0x80 ≤ 0x80 + c.toNat % 0x40 ∧ 0x80 + c.toNat % 0x40 < 0xC0 := by omega
    have a6 : 0xF0 + c.toNat / 0x40000 = 0xF0 → 0x90 ≤ 0x80 + c.toNat / 0x1000 % 0x40 := by omega
    have a7 : 0xF0 + c.toNat / 0x40000 = 0xF4 → 0x80 + c.toNat / 0x1000 % 0x40 < 0x90 := by omega
    simp only [List.cons_append, List.nil_append, decodeRune, isCont, v0, v1, v2, v3, a1, a2, a3,
      a3b, a4, a5, a5b, e, hc, if_false, if_true, and_self, decide_True, true_and]
    rw [if_pos ⟨a6, a7⟩]

theorem utf8EncodeChar_ne_nil (c : Char) : ∃ b bs, utf8EncodeChar c = b :: bs := by
  unfold utf8EncodeChar
  split_ifs <;> exact ⟨_, _, rfl⟩

theorem utf8DecodeFrom_utf8Encode (s : List Char) :
    ∀ n, s.length ≤ n → utf8DecodeFrom n (utf8Encode s) = some s := by
  induction s with
  | nil => intro n _; cases n <;> rfl
  | cons c cs ih =>
    intro n hn
    obtain ⟨k, rfl⟩ : ∃ k, n = k + 1 := ⟨n - 1, by simp at hn; omega⟩
    obtain ⟨b, bs, hb⟩ := utf8EncodeChar_ne_nil c
    have h := decodeRune_encodeChar c (utf8Encode cs)
    rw [utf8Encode]
    rw [hb] at h ⊢
    rw [List.cons_append] at h ⊢
    rw [utf8DecodeFrom, h]
    simp only []
    rw [ih k (by simp at hn; omega)]
    rfl

theorem length_le_utf8Encode (s : List Char) : s.length ≤ (utf8Encode s).length := by
  induction s with
  | nil => simp [utf8Encode]
  | cons c cs ih =>
    obtain ⟨b, bs, hb⟩ := utf8EncodeChar_ne_nil c
    simp only [utf8Encode, hb, List.length_cons, List.length_append]
    omega

/-- The encoding of a text is valid UTF-8 and decodes to the text. -/
theorem utf8Decode_utf8Encode (s : List Char) : utf8Decode (utf8Encode s) = some s :=
  utf8DecodeFrom_utf8Encode s _ (length_le_utf8Encode s)

theorem toNat_ofNat_valid (n : Nat) (h : n < 0xD800 ∨ (0xDFFF < n ∧ n < 0x110000)) :
    (Char.ofNat n).toNat = n := by
  have hv : n.isValidChar := h
  simp only [Char.ofNat, hv, dite_true, Char.ofNatAux]
  rfl

theorem byte_eq (b : Byte) (n : Nat) (h : b.val = n) : (Fin.ofNat n : Byte) = b := by
  apply Fin.ext
  have := b.isLt
  simp [Fin.ofNat, ← h, Nat.mod_eq_of_lt this]

/-- What `decodeRune` accepts is the encoding of the rune it returns. -/
theorem decodeRune_sound (bs : List Byte) (c : Char) (rest : List Byte)
    (h : decodeRune bs = some (c, rest)) : bs = utf8EncodeChar c ++ rest := by
  cases bs with
  | nil => simp [decodeRune] at h
  | cons b0 tl =>
    have hb0 := b0.isLt
    simp only [decodeRune] at h
    split_ifs at h with h1 h2 h3 h4
    · simp only [Option.some.injEq, Prod.mk.injEq] at h
      obtain ⟨rfl, rfl⟩ := h
      have hn := toNat_ofNat_valid b0.val (by omega)
      simp only [utf8EncodeChar, hn, h1, if_true, List.singleton_append]
      rw [byte_eq b0 _ rfl]
    · cases tl with
      | nil => simp at h
      | cons b1 tl1 =>
        simp only [] at h
        split_ifs at h with hc
        simp only [Option.some.injEq, Prod.mk.injEq] at h
        obtain ⟨rfl, rfl⟩ := h
        simp only [isCont, decide_eq_true_eq] at hc
        have hn := toNat_ofNat_valid ((b0.val - 0xC0) * 0x40 + (b1.val - 0x80)) (by omega)
        have e1 : ¬ ((b0.val - 0xC0) * 0x40 + (b1.val - 0x80) < 0x80) := by omega
        have e2 : (b0.val - 0xC0) * 0x40 + (b1.val - 0x80) < 0x800 := by omega
        simp only [utf8EncodeChar, hn, e1, e2, if_true, if_false, List.cons_append,
          List.nil_append]
        rw [byte_eq b0 _ (by omega), byte_eq b1 _ (by omega)]
    · cases tl with
      | nil => simp at h
      | cons b1 tl1 =>
        cases tl1 with
        | nil => simp at h
        | cons b2 tl2 =>
          simp only [] at h
          split_ifs at h with hc
          simp only [Option.some.injEq, Prod.mk.injEq] at h
          obtain ⟨rfl, rfl⟩ := h
          simp only [isCont, decide_eq_true_eq] at hc
          obtain ⟨hc1, hc2, hc3, hc4⟩ := hc
          have hn := toNat_ofNat_valid
            ((b0.val - 0xE0) * 0x1000 + (b1.val - 0x80) * 0x40 + (b2.val - 0x80)) (by omega)
          have e1 : ¬ ((b0.val - 0xE0) * 0x1000 + (b1.val - 0x80) * 0x40 + (b2.val - 0x80)
              < 0x80) := by omega
          have e2 : ¬ ((b0.val - 0xE0) * 0x1000 + (b1.val - 0x80) * 0x40 + (b2.val - 0x80)
              < 0x800) := by omega
          have e3 : (b0.val - 0xE0) * 0x1000 + (b1.val - 0x80) * 0x40 + (b2.val - 0x80)
              < 0x10000 := by omega
          simp only [utf8EncodeChar, hn, e1, e2, e3, if_true, if_false, List.cons_append,
            List.nil_append]
          rw [byte_eq b0 _ (by omega), byte_eq b1 _ (by omega), byte_eq b2 _ (by omega)]
    · cases tl with
      | nil => simp at h
      | cons b1 tl1 =>
        cases tl1 with
        | nil => simp at h
        | cons b2 tl2 =>
          cases tl2 with
          | nil => simp at h
          | cons b3 tl3 =>
            simp only [] at h
            split_ifs at h with hc
            simp only [Option.some.injEq, Prod.mk.injEq] at h
            obtain ⟨rfl, rfl⟩ := h
            simp only [isCont, decide_eq_true_eq] at hc
            obtain ⟨hc1, hc2, hc3, hc4, hc5⟩ := hc
            have hn := toNat_ofNat_valid
              ((b0.val - 0xF0) * 0x40000 + (b1.val - 0x80) * 0x1000 + (b2.val - 0x80) * 0x40
                + (b3.val - 0x80)) (by omega)
            have e1 : ¬ ((b0.val - 0xF0) * 0x40000 + (b1.val - 0x80) * 0x1000
                + (b2.val - 0x80) * 0x40 + (b3.val - 0x80) < 0x80) := by omega
            have e2 : ¬ ((b0.val - 0xF0) * 0x40000 + (b1.val - 0x80) * 0x1000
                + (b2.val - 0x80) * 0x40 + (b3.val - 0x80) < 0x800) := by omega
            have e3 : ¬ ((b0.val - 0xF0) * 0x40000 + (b1.val - 0x80) * 0x1000
                + (b2.val - 0x80) * 0x40 + (b3.val - 0x80) < 0x10000) := by omega
            simp only [utf8EncodeChar, hn, e1, e2, e3, if_false, List.cons_append,
              List.nil_append]
            rw [byte_eq b0 _ (by omega), byte_eq b1 _ (by omega), byte_eq b2 _ (by omega),
              byte_eq b3 _ (by omega)]

theorem utf8DecodeFrom_sound (n : Nat) :
    ∀ (bs : List Byte) (s : List Char), utf8DecodeFrom n bs = some s → bs = utf8Encode s := by
  induction n with
  | zero =>
    intro bs s h
    cases bs with
    | nil => simp only [utf8DecodeFrom, Option.some.injEq] at h; subst h; rfl
    | cons b tl => simp [utf8DecodeFrom] at h
  | succ n ih =>
    intro bs s h
    cases bs with
    | nil => simp only [utf8DecodeFrom, Option.some.injEq] at h; subst h; rfl
    | cons b tl =>
      simp only [utf8DecodeFrom] at h
      cases hd : decodeRune (b :: tl) with
      | none => simp [hd] at h
      | some r =>
        obtain ⟨c, rest⟩ := r
        simp only [hd] at h
        cases hr : utf8DecodeFrom n rest with
        | none => simp [hr] at h
        | some t =>
          simp only [hr, Option.map_some', Option.some.injEq] at h
          subst h
          rw [decodeRune_sound _ _ _ hd, ih rest t hr]
          rfl

/-- A Go string is valid UTF-8 with text `s` exactly when it is the UTF-8
encoding of `s`. -/
theorem utf8Decode_eq_some_iff (bs : GoString) (s : List Char) :
    utf8Decode bs = some s ↔ bs = utf8Encode s := by
  constructor
  · exact utf8DecodeFrom_sound _ bs s
  · rintro rfl
    exact utf8Decode_utf8Encode s

/-- A message whose strings are text is, as a Go value, valid UTF-8, and its
text is the message. -/
theorem text?_raw (msg : Message) : msg.raw.text? = some msg := by
  cases msg with
  | Hello m => simp [Message.raw, Raw.Message.text?, utf8Decode_utf8Encode]
  | Error m => simp [Message.raw, Raw.Message.text?, utf8Decode_utf8Encode]
  | Base m => simp [Message.raw, Raw.Message.text?, utf8Decode_utf8Encode]

/-- On text the encoder for Go strings is the encoder for text. -/
theorem canonicalMarshal_raw (msg : Message) :
    Raw.canonicalMarshal msg.raw = canonicalMarshal msg := by
  simp [Raw.canonicalMarshal, text?_raw]

theorem JsonMarshalwithEnd_raw (msg : Message) :
    Raw.JsonMarshalwithEnd msg.raw = JsonMarshalwithEnd msg := by
  simp [Raw.JsonMarshalwithEnd, JsonMarshalwithEnd, canonicalMarshal_raw]

theorem NewHelloMessage_text (version agent : GoString) (v a : List Char)
    (hv : utf8Decode version = some v) (ha : utf8Decode agent = some a) :
    (Raw.Message.Hello (Raw.NewHelloMessage version agent)).text?
      = some (Message.Hello { Type_ := "hello", Version := String.mk v, Agent := String.mk a }) := by
  simp only [Raw.Message.text?, Raw.NewHelloMessage, utf8Decode_utf8Encode, hv, ha]

theorem NewHelloMessage_text_none (version agent : GoString)
    (h : utf8Decode version = none ∨ utf8Decode agent = none) :
    (Raw.Message.Hello (Raw.NewHelloMessage version agent)).text? = none := by
  simp only [Raw.Message.text?, Raw.NewHelloMessage, utf8Decode_utf8Encode]
  rcases h with h | h
  · rw [h]
  · rw [h]; cases utf8Decode version <;> rfl


/-- C8, as stated, fails: the version may be any Go string, and for the
one-byte string `\xff`, which is not valid UTF-8, `Serialize` returns an error
and no bytes, so there is nothing for `ParseMessage` to read. -/
theorem hello_serialize_fails_on_invalid_utf8 :
    utf8Decode [0xff] = none ∧
    (∃ e, (Raw.NewHelloMessage [0xff] (utf8Encode "node-x".data)).Serialize = Except.error e) ∧
    ∀ bytes, (Raw.NewHelloMessage [0xff] (utf8Encode "node-x".data)).Serialize
      ≠ Except.ok bytes := by
  refine ⟨by decide, ⟨"canonicaljson: unsupported value", by decide⟩, ?_⟩
  intro bytes h
  have e : (Raw.NewHelloMessage [0xff] (utf8Encode "node-x".data)).Serialize
      = Except.error "canonicaljson: unsupported value" := by decide
  rw [e] at h
  exact Except.noConfusion h

/-- C8, amended: for Go strings `version` and `agent` that are valid UTF-8,
with the texts `v` and `a`, the empty agent included, `Serialize` on
`NewHelloMessage(version, agent)` succeeds and `ParseMessage` on its bytes
returns the hello message with type "hello", version `v` and agent `a`.
When one of the two strings is not valid UTF-8, `Serialize` returns an error. -/
theorem hello_serialize_parse_roundtrip_utf8 (version agent : GoString) :
    (∀ v a, utf8Decode version = some v → utf8Decode agent = some a →
      ∃ bytes, (Raw.NewHelloMessage version agent).Serialize = Except.ok bytes ∧
        ParseMessage bytes = Except.ok
          (Message.Hello { Type_ := "hello", Version := String.mk v, Agent := String.mk a })) ∧
    ((utf8Decode version = none ∨ utf8Decode agent = none) →
      ∃ e, (Raw.NewHelloMessage version agent).Serialize = Except.error e) := by
  constructor
  · intro v a hv ha
    obtain ⟨bytes, hm, hp⟩ := ParseMessage_marshal_hello (String.mk v) (String.mk a) "" (by decide)
    refine ⟨bytes, ?_, ?_⟩
    · simp [Raw.HelloMessage.Serialize, Raw.JsonMarshal, Raw.canonicalMarshal,
        NewHelloMessage_text version agent v a hv ha, hm]
    · simpa using hp
  · intro h
    refine ⟨"canonicaljson: unsupported value", ?_⟩
    simp [Raw.HelloMessage.Serialize, Raw.JsonMarshal, Raw.canonicalMarshal,
      NewHelloMessage_text_none version agent h]

/-- C8, amended, at version "0.10.0" and agent "node-x", and at the empty agent. -/
theorem hello_serialize_parse_roundtrip_utf8_witness :
    (∃ bytes, (Raw.NewHelloMessage (utf8Encode "0.10.0".data)
          (utf8Encode "node-x".data)).Serialize = Except.ok bytes ∧
        ParseMessage bytes = Except.ok
          (Message.Hello { Type_ := "hello", Version := "0.10.0", Agent := "node-x" })) ∧
    (∃ bytes, (Raw.NewHelloMessage (utf8Encode "0.10.0".data) []).Serialize = Except.ok bytes ∧
        ParseMessage bytes = Except.ok
          (Message.Hello { Type_ := "hello", Version := "0.10.0", Agent := "" })) ∧
    (utf8Decode [0xff] = none ∧
      ∃ e, (Raw.NewHelloMessage [0xff] []).Serialize = Except.error e) :=
  ⟨(hello_serialize_parse_roundtrip_utf8 (utf8Encode "0.10.0".data)
      (utf8Encode "node-x".data)).1 "0.10.0".data "node-x".data (by decide) (by decide),
   (hello_serialize_parse_roundtrip_utf8 (utf8Encode "0.10.0".data) []).1
      "0.10.0".data [] (by decide) (by decide),
   by decide,
   (hello_serialize_parse_roundtrip_utf8 [0xff] []).2 (Or.inl (by decide))⟩


/-! ## Invariants of the registry -/

theorem registry_inv_step (w : World) (op : RegistryOp) (hadm : op.admissible w)
    (h1 : RegisteredOpen w) (h2 : TransportsDistinct w) :
    RegisteredOpen (op.apply w) ∧ TransportsDistinct (op.apply w) := by
  cases op with
  | add A c =>
    obtain ⟨hopen, hnew⟩ := hadm
    cases hA : w.pm.peers A with
    | some cs0 =>
      have e : (RegistryOp.add A c).apply w = w.Close c := by
        simp [RegistryOp.apply, addPeerConnection, hA]
      rw [e]
      refine ⟨?_, h2⟩
      intro a cs ha
      simp only [World.Close, List.mem_append, List.mem_singleton, not_or]
      exact ⟨h1 a cs ha, hnew a cs ha⟩
    | none =>
      constructor
      · intro a cs ha
        simp only [RegistryOp.apply, addPeerConnection, hA] at ha ⊢
        by_cases haA : a = A
        · simp only [haA, if_true, Option.some.injEq] at ha
          subst ha; exact hopen
        · simp only [haA, if_false] at ha
          exact h1 a cs ha
      · intro a b csa csb ha hb hid
        simp only [RegistryOp.apply, addPeerConnection, hA] at ha hb
        by_cases haA : a = A <;> by_cases hbA : b = A
        · rw [haA, hbA]
        · simp only [haA, if_true, Option.some.injEq, hbA, if_false] at ha hb
          subst ha
          exact absurd hid.symm (hnew b csb hb)
        · simp only [haA, if_false, hbA, if_true, Option.some.injEq] at ha hb
          subst hb
          exact absurd hid (hnew a csa ha)
        · simp only [haA, hbA, if_false] at ha hb
          exact h2 a b csa csb ha hb hid
  | remove A =>
    cases hA : w.pm.peers A with
    | none =>
      have e : (RegistryOp.remove A).apply w = w := removeConnection_of_none w A hA
      rw [e]; exact ⟨h1, h2⟩
    | some cs0 =>
      have e : (RegistryOp.remove A).apply w = _ := removeConnection_of_some w A cs0 hA
      rw [e]
      constructor
      · intro a cs ha
        simp only at ha
        by_cases haA : a = A
        · simp [haA] at ha
        · simp only [haA, if_false] at ha
          simp only [List.mem_append, List.mem_singleton, not_or]
          refine ⟨h1 a cs ha, fun hid => haA (h2 a A cs cs0 ha hA hid)⟩
      · intro a b csa csb ha hb hid
        simp only at ha hb
        by_cases haA : a = A
        · simp [haA] at ha
        · by_cases hbA : b = A
          · simp [hbA] at hb
          · simp only [haA, hbA, if_false] at ha hb
            exact h2 a b csa csb ha hb hid
  | update A v =>
    cases hA : w.pm.peers A with
    | none =>
      have e : (RegistryOp.update A v).apply w = w := by
        simp [RegistryOp.apply, updateReceivedHello, hA]
      rw [e]; exact ⟨h1, h2⟩
    | some cs0 =>
      have key : ∀ a cs, ((RegistryOp.update A v).apply w).pm.peers a = some cs →
          ∃ cs1, w.pm.peers a = some cs1 ∧ cs1.Conn = cs.Conn := by
        intro a cs ha
        simp only [RegistryOp.apply, updateReceivedHello, hA] at ha
        by_cases haA : a = A
        · simp only [haA, if_true, Option.some.injEq] at ha
          subst ha; exact ⟨cs0, by rw [haA]; exact hA, rfl⟩
        · simp only [haA, if_false] at ha
          exact ⟨cs, ha, rfl⟩
      have hcl : ((RegistryOp.update A v).apply w).closed = w.closed := by
        simp [RegistryOp.apply, updateReceivedHello, hA]
      constructor
      · intro a cs ha
        obtain ⟨cs1, h, hc⟩ := key a cs ha
        rw [hcl, ← hc]; exact h1 a cs1 h
      · intro a b csa csb ha hb hid
        obtain ⟨ca, h, hc⟩ := key a csa ha
        obtain ⟨cb, h', hc'⟩ := key b csb hb
        exact h2 a b ca cb h h' (by rw [hc, hc', hid])

theorem registry_inv_run (ops : List RegistryOp) :
    ∀ w, admissibleOps w ops → RegisteredOpen w → TransportsDistinct w →
      RegisteredOpen (runOps w ops) ∧ TransportsDistinct (runOps w ops) := by
  induction ops with
  | nil => intro w _ h1 h2; exact ⟨h1, h2⟩
  | cons op ops ih =>
    intro w hadm h1 h2
    obtain ⟨ha, hrest⟩ := hadm
    obtain ⟨h1', h2'⟩ := registry_inv_step w op ha h1 h2
    exact ih _ hrest h1' h2'

/-- C14: start from the empty registry and apply any sequence of
`addPeerConnection`, `removeConnection` and `updateReceivedHello` in which
every transport handed to `addPeerConnection` is open and not registered.
Then every entry of the map holds a transport that has not been closed, and
no transport that has been closed is held by an entry. -/
theorem registered_implies_open (nodeName port : String) (closed : List Nat)
    (sent : List (Nat × String)) (ops : List RegistryOp)
    (hadm : admissibleOps
      { pm := NewPeerManager nodeName port, closed := closed, sent := sent } ops) :
    (∀ a cs,
      (runOps { pm := NewPeerManager nodeName port, closed := closed, sent := sent } ops).pm.peers a
          = some cs →
        cs.Conn.id ∉
          (runOps { pm := NewPeerManager nodeName port, closed := closed, sent := sent } ops).closed) ∧
    (∀ t, t ∈
        (runOps { pm := NewPeerManager nodeName port, closed := closed, sent := sent } ops).closed →
      ∀ a cs,
        (runOps { pm := NewPeerManager nodeName port, closed := closed, sent := sent } ops).pm.peers a
            = some cs →
          cs.Conn.id ≠ t) := by
  have h := (registry_inv_run ops _ hadm
    (by intro a cs ha; simp [NewPeerManager] at ha)
    (by intro a b csa csb ha; simp [NewPeerManager] at ha)).1
  refine ⟨h, ?_⟩
  intro t ht a cs ha hid
  exact h a cs ha (hid ▸ ht)

/-- The operations of `exOps` are admissible from the empty registry. -/
theorem exOps_admissible : admissibleOps exEmpty exOps := by
  refine ⟨⟨by decide, ?_⟩, ⟨by decide, ?_⟩, trivial, trivial, trivial⟩
  · intro a cs ha
    simp [exEmpty, NewPeerManager] at ha
  · intro a cs ha
    simp only [RegistryOp.apply, addPeerConnection, exEmpty, NewPeerManager] at ha
    split at ha
    · simp only [Option.some.injEq] at ha
      subst ha; decide
    · exact absurd ha (by simp)

/-- C14 for the run `exOps` from the empty registry. -/
theorem registered_implies_open_witness :
    admissibleOps exEmpty exOps ∧
    (∀ a cs, (runOps exEmpty exOps).pm.peers a = some cs →
      cs.Conn.id ∉ (runOps exEmpty exOps).closed) ∧
    (∀ t, t ∈ (runOps exEmpty exOps).closed →
      ∀ a cs, (runOps exEmpty exOps).pm.peers a = some cs → cs.Conn.id ≠ t) :=
  ⟨exOps_admissible, registered_implies_open "node-x" "18018" [] [] exOps exOps_admissible⟩

/-! ## The handshake flag -/

theorem SendErrorMessage_pm (w : World) (conn : NetConn) (name description : String) :
    (SendErrorMessage w conn name description).pm = w.pm := by
  unfold SendErrorMessage World.Write
  split <;> rfl

theorem EntryOrAbsent_send (a : String) (cs : ConnectionState) (w : World) (conn : NetConn)
    (name description : String) (h : EntryOrAbsent a cs w) :
    EntryOrAbsent a cs (SendErrorMessage w conn name description) := by
  unfold EntryOrAbsent at *
  rw [SendErrorMessage_pm]; exact h

theorem EntryOrAbsent_remove (a : String) (cs : ConnectionState) (w : World) (x : String)
    (h : EntryOrAbsent a cs w) : EntryOrAbsent a cs (removeConnection w x) := by
  unfold EntryOrAbsent at *
  cases hx : w.pm.peers x with
  | none => rw [removeConnection_of_none w x hx]; exact h
  | some c =>
    rw [removeConnection_of_some w x c hx]
    by_cases hax : a = x
    · left; simp [hax]
    · simpa [hax] using h

theorem EntryOrAbsent_update (a : String) (cs : ConnectionState) (w : World) (x : String)
    (hflag : cs.ReceivedHello = true) (h : EntryOrAbsent a cs w) :
    EntryOrAbsent a cs (updateReceivedHello w x true) := by
  unfold EntryOrAbsent at *
  cases hx : w.pm.peers x with
  | none => simpa [updateReceivedHello, hx] using h
  | some c =>
    by_cases hax : a = x
    · subst hax
      rcases h with h | h
      · rw [h] at hx; exact absurd hx (by simp)
      · right
        rw [h] at hx
        cases hx
        cases cs
        simp only at hflag
        simp [updateReceivedHello, h, hflag]
    · simpa [updateReceivedHello, hx, hax] using h

theorem EntryOrAbsent_handleMessage (a : String) (cs : ConnectionState) (w w1 : World)
    (f : String) (c : Option ConnectionState) (hflag : cs.ReceivedHello = true)
    (h : EntryOrAbsent a cs w) (hw : handleMessage w f c = some w1) : EntryOrAbsent a cs w1 := by
  unfold handleMessage parseAndLogMessage at hw
  cases hp : ParseMessage f with
  | error e =>
    cases c with
    | none => simp [hp] at hw
    | some c0 =>
      simp only [hp, Option.some.injEq] at hw
      subst hw; exact EntryOrAbsent_send a cs w _ _ _ h
  | ok msg =>
    cases c with
    | none => simp [hp] at hw
    | some c0 =>
      simp only [hp] at hw
      split at hw
      · simp only [Option.some.injEq] at hw
        subst hw
        exact EntryOrAbsent_remove a cs _ _ (EntryOrAbsent_send a cs w _ _ _ h)
      · simp only [Option.some.injEq] at hw
        subst hw
        cases msg with
        | Hello m =>
          simp only [routeMessage, handleHello]
          split
          · exact EntryOrAbsent_remove a cs _ _ (EntryOrAbsent_send a cs w _ _ _ h)
          · exact EntryOrAbsent_update a cs w _ hflag h
        | Error m => exact h
        | Base m => exact h

theorem EntryOrAbsent_loopBody (a : String) (cs : ConnectionState) (addr : String)
    (w : World) (ctx : Ctx) (f : String) (r : World × Ctx) (hflag : cs.ReceivedHello = true)
    (h : EntryOrAbsent a cs w) (hr : loopBody addr w ctx f = some r) : EntryOrAbsent a cs r.1 := by
  unfold loopBody at hr
  cases hm : handleMessage w f (w.pm.peers addr) with
  | none => simp [hm] at hr
  | some w1 =>
    have h1 := EntryOrAbsent_handleMessage a cs w w1 f _ hflag h hm
    simp only [hm] at hr
    split at hr
    · split at hr <;> (simp only [Option.some.injEq] at hr; subst hr; exact h1)
    · simp only [Option.some.injEq] at hr; subst hr; exact h1

theorem EntryOrAbsent_timeoutWatcher (a : String) (cs : ConnectionState) (conn : NetConn)
    (addr : String) (w : World) (ctx : Ctx) (h : EntryOrAbsent a cs w) :
    EntryOrAbsent a cs (timeoutWatcher conn addr w ctx).1 := by
  cases ctx with
  | active => exact EntryOrAbsent_remove a cs _ _ (EntryOrAbsent_send a cs w _ _ _ h)
  | canceled => exact h
  | deadlineExceeded => exact h

theorem EntryOrAbsent_scanLoop (a : String) (cs : ConnectionState) (conn : NetConn)
    (addr : String) (hflag : cs.ReceivedHello = true) (es : List Event) :
    ∀ (w : World) (ctx : Ctx), EntryOrAbsent a cs w →
      EntryOrAbsent a cs (scanLoop conn addr w ctx es).world := by
  induction es with
  | nil => intro w ctx h; exact h
  | cons e es ih =>
    intro w ctx h
    cases e with
    | deadline =>
      simp only [scanLoop]
      exact ih _ _ (EntryOrAbsent_timeoutWatcher a cs conn addr w ctx h)
    | frame text buffered =>
      simp only [scanLoop]
      split
      · exact h
      · cases hb : loopBody addr w ctx text with
        | none => exact h
        | some r => exact ih _ _ (EntryOrAbsent_loopBody a cs addr w ctx text r hflag h hb)

/-- The same when the calls of the watcher are interleaved with the turns of
the loop in any order. -/
theorem EntryOrAbsent_stepLoop (a : String) (cs : ConnectionState) (conn : NetConn)
    (addr : String) (hflag : cs.ReceivedHello = true) (ss : List Step) :
    ∀ (w : World) (ctx : Ctx) (pc : WatcherPc), EntryOrAbsent a cs w →
      EntryOrAbsent a cs (stepLoop conn addr w ctx pc ss).world := by
  induction ss with
  | nil => intro w ctx pc h; exact h
  | cons s ss ih =>
    intro w ctx pc h
    cases s with
    | expire => cases ctx <;> (simp only [stepLoop]; exact ih _ _ _ h)
    | watcherSend =>
      cases pc <;> simp only [stepLoop]
      · exact ih _ _ _ h
      · exact ih _ _ _ (EntryOrAbsent_send a cs w _ _ _ h)
      · exact ih _ _ _ h
      · exact ih _ _ _ h
    | watcherRemove =>
      cases pc <;> simp only [stepLoop]
      · exact ih _ _ _ h
      · exact ih _ _ _ h
      · exact ih _ _ _ (EntryOrAbsent_remove a cs _ _ h)
      · exact ih _ _ _ h
    | frame text buffered =>
      simp only [stepLoop]
      split
      · exact h
      · cases hb : loopBody addr w ctx text with
        | none => exact h
        | some r => exact ih _ _ _ (EntryOrAbsent_loopBody a cs addr w ctx text r hflag h hb)

/-- C15: there is no way back from established.  Whatever frames and expiries
of the timer a session processes, an entry of the registry whose flag is true
is afterwards either gone or exactly as it was, flag included. -/
theorem established_stays_established (conn : NetConn) (addr : String) (w : World) (ctx : Ctx)
    (es : List Event) (a : String) (cs : ConnectionState)
    (hreg : w.pm.peers a = some cs) (hflag : cs.ReceivedHello = true) :
    (scanLoop conn addr w ctx es).world.pm.peers a = none ∨
    (scanLoop conn addr w ctx es).world.pm.peers a = some cs :=
  EntryOrAbsent_scanLoop a cs conn addr hflag es w ctx (Or.inr hreg)

/-- C15 at the registry `exWorld true`, for a session that receives a frame of
an unknown type, an empty frame, the expiry of the timer and a second
greeting. -/
theorem established_stays_established_witness :
    (exWorld true).pm.peers exAddr = some { Conn := exConn, ReceivedHello := true } ∧
    ((scanLoop exConn exAddr (exWorld true) Ctx.canceled
        [Event.frame exPing false, Event.frame "" true, Event.deadline,
         Event.frame exHello false]).world.pm.peers exAddr = none ∨
     (scanLoop exConn exAddr (exWorld true) Ctx.canceled
        [Event.frame exPing false, Event.frame "" true, Event.deadline,
         Event.frame exHello false]).world.pm.peers exAddr
        = some { Conn := exConn, ReceivedHello := true }) :=
  ⟨by decide,
   established_stays_established exConn exAddr (exWorld true) Ctx.canceled
     [Event.frame exPing false, Event.frame "" true, Event.deadline, Event.frame exHello false]
     exAddr { Conn := exConn, ReceivedHello := true } (by decide) rfl⟩

/-- C16: on a registered address `updateReceivedHello` sets the flag of that
entry and nothing else: the transport of the entry, the set of registered
addresses, the other entries and the logs of closed transports and sent
frames are unchanged.  On an absent address it changes nothing. -/
theorem updateReceivedHello_spec (w : World) (A : String) (v : Bool) :
    (∀ cs, w.pm.peers A = some cs →
      (updateReceivedHello w A v).pm.peers A = some { Conn := cs.Conn, ReceivedHello := v } ∧
      (∀ a, a ≠ A → (updateReceivedHello w A v).pm.peers a = w.pm.peers a) ∧
      (∀ a, ((updateReceivedHello w A v).pm.peers a).isSome = (w.pm.peers a).isSome) ∧
      (updateReceivedHello w A v).closed = w.closed ∧
      (updateReceivedHello w A v).sent = w.sent) ∧
    (w.pm.peers A = none → updateReceivedHello w A v = w) := by
  constructor
  · intro cs h
    refine ⟨by simp [updateReceivedHello, h], ?_, ?_, by simp [updateReceivedHello, h],
      by simp [updateReceivedHello, h]⟩
    · intro a ha; simp [updateReceivedHello, h, ha]
    · intro a
      by_cases ha : a = A
      · subst ha; simp [updateReceivedHello, h]
      · simp [updateReceivedHello, h, ha]
  · intro h; simp [updateReceivedHello, h]

/-- C16 at the registry `exWorld false`, for the registered address and for an
absent one. -/
theorem updateReceivedHello_spec_witness :
    ((updateReceivedHello (exWorld false) exAddr true).pm.peers exAddr
        = some { Conn := exConn, ReceivedHello := true } ∧
      (∀ a, a ≠ exAddr →
        (updateReceivedHello (exWorld false) exAddr true).pm.peers a = (exWorld false).pm.peers a) ∧
      (∀ a, ((updateReceivedHello (exWorld false) exAddr true).pm.peers a).isSome
        = ((exWorld false).pm.peers a).isSome) ∧
      (updateReceivedHello (exWorld false) exAddr true).closed = (exWorld false).closed ∧
      (updateReceivedHello (exWorld false) exAddr true).sent = (exWorld false).sent) ∧
    updateReceivedHello (exWorld false) "10.0.0.2:5000" true = exWorld false :=
  ⟨(updateReceivedHello_spec (exWorld false) exAddr true).1
      { Conn := exConn, ReceivedHello := false } (by decide),
   (updateReceivedHello_spec (exWorld false) "10.0.0.2:5000" true).2 (by decide)⟩

/-! ## Framing of the frames sent -/

theorem newline_not_mem_escapeChar (c : Char) : '\n' ∉ escapeChar c := by
  unfold escapeChar
  have hd : ∀ n, n < 16 → hexDigit n ≠ '\n' := by
    intro n hn; interval_cases n <;> decide
  split_ifs with h1 h2 h3 h4 h5 h6 h7 h8
  · decide
  · decide
  · decide
  · decide
  · decide
  · decide
  · decide
  · have ha := hd (c.toNat / 16) (by omega)
    have hb := hd (c.toNat % 16) (by omega)
    simp only [List.mem_cons, List.mem_singleton, List.not_mem_nil, or_false, not_or]
    exact ⟨by decide, by decide, by decide, by decide, fun h => ha h.symm, fun h => hb h.symm⟩
  · simp only [List.mem_singleton]
    exact fun h => h5 h.symm

theorem newline_not_mem_escape (s : List Char) : '\n' ∉ escape s := by
  induction s with
  | nil => simp [escape]
  | cons c s ih =>
    simp only [escape, List.mem_append, not_or]
    exact ⟨newline_not_mem_escapeChar c, ih⟩

theorem newline_not_mem_quote (s : List Char) : '\n' ∉ quote s := by
  simp only [quote, List.mem_cons, List.mem_append, List.mem_singleton, List.not_mem_nil,
    or_false, not_or]
  exact ⟨by decide, newline_not_mem_escape s, by decide⟩

theorem newline_not_mem_encodeMembers (ms : List (List Char × List Char)) :
    '\n' ∉ encodeMembers ms := by
  induction ms with
  | nil => simp [encodeMembers]
  | cons m ms ih =>
    cases ms with
    | nil =>
      simp only [encodeMembers, List.mem_append, List.mem_cons, not_or]
      exact ⟨newline_not_mem_quote _, by decide, newline_not_mem_quote _⟩
    | cons m2 ms2 =>
      have h1 := newline_not_mem_quote m.1
      have h2 := newline_not_mem_quote m.2
      have h3 : ¬ ('\n' : Char) = ':' := by decide
      have h4 : ¬ ('\n' : Char) = ',' := by decide
      simp only [encodeMembers, List.mem_append, List.mem_cons]
      tauto

theorem newline_not_mem_encodeObject (ms : List (List Char × List Char)) :
    '\n' ∉ encodeObject ms := by
  simp only [encodeObject, List.mem_cons, List.mem_append, List.mem_singleton, List.not_mem_nil,
    or_false, not_or]
  exact ⟨by decide, newline_not_mem_encodeMembers ms, by decide⟩

theorem dropCR_encodeObject (ms : List (List Char × List Char)) :
    dropCR (encodeObject ms) = encodeObject ms := by
  have h : (encodeObject ms).getLast? = some '}' := by
    have e : encodeObject ms = ('{' :: encodeMembers ms) ++ ['}'] := rfl
    rw [e, List.getLast?_concat]
  simp only [dropCR, h]
  rfl

theorem utf8Encode_append (a b : List Char) :
    utf8Encode (a ++ b) = utf8Encode a ++ utf8Encode b := by
  induction a with
  | nil => rfl
  | cons c cs ih => simp [utf8Encode, ih]

theorem byteLength_append (a b : List Char) :
    byteLength (a ++ b) = byteLength a + byteLength b := by
  simp [byteLength, utf8Encode_append]

theorem byteLength_cons (c : Char) (cs : List Char) :
    byteLength (c :: cs) = byteLength [c] + byteLength cs :=
  byteLength_append [c] cs

theorem byteLength_reverse (s : List Char) : byteLength s.reverse = byteLength s := by
  induction s with
  | nil => rfl
  | cons c cs ih =>
    rw [List.reverse_cons, byteLength_append, ih, byteLength_cons c cs]
    omega

/-- A line shorter than the buffer is delivered when its newline is read. -/
theorem scanLinesFrom_line (xs rest : List Char) (hx : '\n' ∉ xs) :
    ∀ cur, byteLength (cur.reverse ++ xs) < maxScanTokenSize →
      scanLinesFrom cur (xs ++ '\n' :: rest)
        = dropCR (cur.reverse ++ xs) :: scanLinesFrom [] rest := by
  induction xs with
  | nil => intro cur _; simp [scanLinesFrom]
  | cons x xs ih =>
    intro cur hsz
    have hx1 : x ≠ '\n' := fun h => hx (by simp [h])
    have hx2 : '\n' ∉ xs := fun h => hx (List.mem_cons_of_mem _ h)
    have e : cur.reverse ++ x :: xs = (x :: cur).reverse ++ xs := by simp
    have hcur : ¬ maxScanTokenSize ≤ byteLength (x :: cur) := by
      rw [e, byteLength_append, byteLength_reverse] at hsz
      omega
    have h := ih hx2 (x :: cur) (by rw [← e]; exact hsz)
    rw [← e] at h
    simpa [scanLinesFrom, hx1, hcur] using h

/-- A line that fills the buffer is not delivered, and nothing after it. -/
theorem scanLinesFrom_too_long (xs rest : List Char) (hx : '\n' ∉ xs) :
    ∀ cur, byteLength cur < maxScanTokenSize →
      maxScanTokenSize ≤ byteLength (cur.reverse ++ xs) →
      scanLinesFrom cur (xs ++ rest) = [] := by
  induction xs with
  | nil =>
    intro cur h1 h2
    rw [List.append_nil, byteLength_reverse] at h2
    omega
  | cons x xs ih =>
    intro cur h1 h2
    have hx1 : x ≠ '\n' := fun h => hx (by simp [h])
    have hx2 : '\n' ∉ xs := fun h => hx (List.mem_cons_of_mem _ h)
    have e : cur.reverse ++ x :: xs = (x :: cur).reverse ++ xs := by simp
    by_cases hcur : maxScanTokenSize ≤ byteLength (x :: cur)
    · simp [scanLinesFrom, hx1, hcur]
    · have h := ih hx2 (x :: cur) (by omega) (by rw [← e]; exact h2)
      simpa [scanLinesFrom, hx1, hcur] using h

/-- The bytes of `JsonMarshalwithEnd` for a message whose strings are text:
the encoded message, which holds no newline, followed by one newline.  The
scanner of the receiving side makes one frame of them when the encoded
message is shorter than its buffer, and none otherwise. -/
theorem JsonMarshalwithEnd_text (msg : Message) :
    ∃ body : String, JsonMarshal msg = Except.ok body ∧
      JsonMarshalwithEnd msg = body ++ "\n" ∧
      '\n' ∉ body.data ∧
      (JsonMarshalwithEnd msg).data.count '\n' = 1 ∧
      (JsonMarshalwithEnd msg).data.getLast? = some '\n' ∧
      (byteLength body.data < maxScanTokenSize →
        scanLines (JsonMarshalwithEnd msg).data = [body.data]) ∧
      (maxScanTokenSize ≤ byteLength body.data →
        scanLines (JsonMarshalwithEnd msg).data = []) := by
  refine ⟨String.mk (encodeObject ((canonicalMembers msg.fields).map
    fun (m : String × String) => (m.1.data, m.2.data))), rfl, rfl,
    newline_not_mem_encodeObject _, ?_, ?_, ?_, ?_⟩
  · simp only [JsonMarshalwithEnd, canonicalMarshal, String.data_append]
    rw [List.count_append, List.count_eq_zero_of_not_mem (newline_not_mem_encodeObject _)]
    rfl
  · simp only [JsonMarshalwithEnd, canonicalMarshal, String.data_append]
    exact List.getLast?_concat _
  · intro hsz
    simp only [JsonMarshalwithEnd, canonicalMarshal, String.data_append, scanLines]
    have h := scanLinesFrom_line _ [] (newline_not_mem_encodeObject
      ((canonicalMembers msg.fields).map fun (m : String × String) => (m.1.data, m.2.data))) []
      (by simpa using hsz)
    simp only [List.reverse_nil, List.nil_append, dropCR_encodeObject] at h
    exact h
  · intro hsz
    simp only [JsonMarshalwithEnd, canonicalMarshal, String.data_append, scanLines]
    exact scanLinesFrom_too_long _ _ (newline_not_mem_encodeObject
      ((canonicalMembers msg.fields).map fun (m : String × String) => (m.1.data, m.2.data))) []
      (by decide) (by simpa using hsz)

theorem length_le_escape (s : List Char) : s.length ≤ (escape s).length := by
  induction s with
  | nil => simp [escape]
  | cons c cs ih =>
    have h : 1 ≤ (escapeChar c).length := by
      unfold escapeChar
      split_ifs <;> simp
    simp only [escape, List.length_cons, List.length_append]
    omega

/-- The encoding of a greeting is at least as long as its agent. -/
theorem length_le_marshal_hello (v a body : String) (ha : a ≠ "")
    (hb : JsonMarshal (Message.Hello { Type_ := "hello", Version := v, Agent := a })
      = Except.ok body) :
    a.data.length ≤ byteLength body.data := by
  have e : body = String.mk (encodeObject ((canonicalMembers
      (Message.Hello { Type_ := "hello", Version := v, Agent := a }).fields).map
        fun (m : String × String) => (m.1.data, m.2.data))) := by
    simp only [JsonMarshal, canonicalMarshal] at hb
    exact (Except.ok.inj hb).symm
  rw [e, canonicalMembers_hello v a ha]
  have h1 := length_le_escape a.data
  have h2 := length_le_utf8Encode (encodeObject ([("agent", a), ("type", "hello"),
    ("version", v)].map fun (m : String × String) => (m.1.data, m.2.data)))
  simp only [byteLength]
  simp only [List.map, encodeObject, encodeMembers, quote, List.length_cons, List.length_append]
    at h2 ⊢
  omega

/-- The text-level encoder and the encoder for Go strings agree on the frame. -/
theorem JsonMarshal_raw (msg : Message) : Raw.JsonMarshal msg.raw = JsonMarshal msg := by
  simp [Raw.JsonMarshal, JsonMarshal, canonicalMarshal_raw]

/-- C17, amended: for a message whose strings are all valid UTF-8, the bytes
of `JsonMarshalwithEnd` are the encoded message followed by one newline; the
newline occurs once, as the last byte, whatever the strings hold.  When the
encoded message is shorter than the buffer of the scanner (64 KiB) the
receiving side makes exactly one frame of the bytes, the encoded message;
when it is not, the scanner fails and delivers no frame.  For a message with
a string that is not valid UTF-8 the encoder fails and `JsonMarshalwithEnd`
returns nil: no byte, no newline. -/
theorem JsonMarshalwithEnd_frames (data : Raw.Message) :
    (∀ m, data.text? = some m →
      ∃ body : String, Raw.JsonMarshal data = Except.ok body ∧
        Raw.JsonMarshalwithEnd data = body ++ "\n" ∧
        '\n' ∉ body.data ∧
        (Raw.JsonMarshalwithEnd data).data.count '\n' = 1 ∧
        (Raw.JsonMarshalwithEnd data).data.getLast? = some '\n' ∧
        (byteLength body.data < maxScanTokenSize →
          scanLines (Raw.JsonMarshalwithEnd data).data = [body.data]) ∧
        (maxScanTokenSize ≤ byteLength body.data →
          scanLines (Raw.JsonMarshalwithEnd data).data = [])) ∧
    (data.text? = none →
      Raw.JsonMarshalwithEnd data = "" ∧ ∃ e, Raw.JsonMarshal data = Except.error e) := by
  constructor
  · intro m hm
    have e1 : Raw.JsonMarshal data = JsonMarshal m := by
      simp [Raw.JsonMarshal, Raw.canonicalMarshal, hm, JsonMarshal]
    have e2 : Raw.JsonMarshalwithEnd data = JsonMarshalwithEnd m := by
      simp [Raw.JsonMarshalwithEnd, Raw.canonicalMarshal, hm, JsonMarshalwithEnd]
    rw [e1, e2]
    exact JsonMarshalwithEnd_text m
  · intro h
    refine ⟨?_, "canonicaljson: unsupported value", ?_⟩
    · simp [Raw.JsonMarshalwithEnd, Raw.canonicalMarshal, h]
    · simp [Raw.JsonMarshal, Raw.canonicalMarshal, h]

/-- C17, as stated, fails.  For the greeting whose agent is the byte `\xff`
the encoder fails and `JsonMarshalwithEnd` returns nil, which holds no newline
and of which the receiving side makes no frame.  For the greeting whose agent
is 65536 letters the bytes end in their only newline, but the line does not
fit the buffer of the receiving scanner, which delivers no frame. -/
theorem JsonMarshalwithEnd_not_one_frame :
    (Raw.JsonMarshalwithEnd exRawHelloInvalid = "" ∧
      (Raw.JsonMarshalwithEnd exRawHelloInvalid).data.count '\n' = 0 ∧
      scanLines (Raw.JsonMarshalwithEnd exRawHelloInvalid).data = []) ∧
    ((Raw.JsonMarshalwithEnd exHelloLong.raw).data.count '\n' = 1 ∧
      (Raw.JsonMarshalwithEnd exHelloLong.raw).data.getLast? = some '\n' ∧
      scanLines (Raw.JsonMarshalwithEnd exHelloLong.raw).data = []) := by
  refine ⟨⟨by decide, by decide, by decide⟩, ?_⟩
  rw [JsonMarshalwithEnd_raw]
  obtain ⟨body, hb, _, _, hcount, hlast, _, hlong⟩ := JsonMarshalwithEnd_text exHelloLong
  refine ⟨hcount, hlast, hlong ?_⟩
  have hne : String.mk (List.replicate 65536 'a') ≠ "" := by
    intro h
    have h2 : (List.replicate 65536 'a').length = 0 := congrArg (fun x => x.data.length) h
    rw [List.length_replicate] at h2
    exact absurd h2 (by decide)
  have h := length_le_marshal_hello "0.10.0" (String.mk (List.replicate 65536 'a')) body hne hb
  rw [List.length_replicate] at h
  exact h

/-- C17, amended, at the greeting `exHelloNewline`, whose agent holds a
newline, and at the greeting `exRawHelloInvalid`. -/
theorem JsonMarshalwithEnd_frames_witness :
    exHelloNewline.raw.text? = some exHelloNewline ∧
    (∃ body : String, Raw.JsonMarshal exHelloNewline.raw = Except.ok body ∧
        Raw.JsonMarshalwithEnd exHelloNewline.raw = body ++ "\n" ∧
        '\n' ∉ body.data ∧
        (Raw.JsonMarshalwithEnd exHelloNewline.raw).data.count '\n' = 1 ∧
        (Raw.JsonMarshalwithEnd exHelloNewline.raw).data.getLast? = some '\n' ∧
        (byteLength body.data < maxScanTokenSize →
          scanLines (Raw.JsonMarshalwithEnd exHelloNewline.raw).data = [body.data]) ∧
        (maxScanTokenSize ≤ byteLength body.data →
          scanLines (Raw.JsonMarshalwithEnd exHelloNewline.raw).data = [])) ∧
    scanLines (Raw.JsonMarshalwithEnd exHelloNewline.raw).data
      = ["\x7b\"agent\":\"node\\nx\",\"type\":\"hello\",\"version\":\"0.10.0\"\x7d".data] ∧
    exRawHelloInvalid.text? = none ∧
    (Raw.JsonMarshalwithEnd exRawHelloInvalid = "" ∧
      ∃ e, Raw.JsonMarshal exRawHelloInvalid = Except.error e) :=
  ⟨by decide,
   (JsonMarshalwithEnd_frames exHelloNewline.raw).1 exHelloNewline (by decide),
   by decide, by decide,
   (JsonMarshalwithEnd_frames exRawHelloInvalid).2 (by decide)⟩

/-! ## Lock discipline, nil state and the bytes on the wire -/

/-- The three methods of the registry access the map only between `Lock` and
`Unlock`. -/
theorem registry_methods_locked (w : World) (addr : String) :
    (∀ a ∈ addPeerConnectionAccesses w addr, a.locked = true) ∧
    (∀ a ∈ removeConnectionAccesses w addr, a.locked = true) ∧
    (∀ a ∈ updateReceivedHelloAccesses, a.locked = true) := by
  refine ⟨?_, ?_, ?_⟩
  · intro a ha
    unfold addPeerConnectionAccesses at ha
    split at ha <;> simp at ha <;> rcases ha with rfl | rfl <;> rfl
  · intro a ha
    unfold removeConnectionAccesses at ha
    split at ha <;> simp at ha <;> rcases ha with rfl | rfl <;> rfl
  · intro a ha
    simp [updateReceivedHelloAccesses] at ha
    subst ha; rfl

/-- C13, evaluated: a turn of the scan loop that handles a first greeting reads
`pm.peers` three times without holding `pm.mu`; only the lookup made inside
`updateReceivedHello` is locked.  No turn of the loop, on any input, keeps to
the rule that every access is locked. -/
theorem loopBody_reads_map_unlocked :
    loopBodyAccesses exAddr (exWorld false) exHello
      = [{ write := false, locked := false }, { write := false, locked := true },
         { write := false, locked := false }, { write := false, locked := false }] ∧
    ∀ (addr : String) (w : World) (message : String),
      ¬ ∀ a ∈ loopBodyAccesses addr w message, a.locked = true := by
  refine ⟨by decide, ?_⟩
  intro addr w message h
  have := h { write := false, locked := false } (by simp [loopBodyAccesses])
  simp at this

/-- C18, evaluated: after a handler or the timeout watcher has removed the
connection, the lookup `pm.peers[addr]` finds nothing, `handleMessage` called
on that result panics, and so does the loop on a frame that is already
buffered. -/
theorem handleMessage_called_with_nil_state :
    (scanLoop exConn exAddr (exWorld false) Ctx.active
      [Event.frame exPing false]).world.pm.peers exAddr = none ∧
    (timeoutWatcher exConn exAddr (exWorld false) Ctx.active).1.pm.peers exAddr = none ∧
    (handleMessage (timeoutWatcher exConn exAddr (exWorld false) Ctx.active).1 exHello
      ((timeoutWatcher exConn exAddr (exWorld false) Ctx.active).1.pm.peers exAddr)).isNone = true ∧
    (scanLoop exConn exAddr (exWorld false) Ctx.active
      [Event.frame exPing false, Event.frame exHello true]).panicked = true ∧
    (scanLoop exConn exAddr (exWorld false) Ctx.active
      [Event.frame "" false, Event.deadline, Event.frame exHello true]).panicked = true := by
  decide

/-- C12, as stated, fails: the frames written for the Error `INVALID_HANDSHAKE` /
"Handshake first" and for the greeting of `node-x` have their members in the
order of their names, not in the order of the struct fields. -/
theorem sent_frames_members_sorted :
    (SendErrorMessage exEmpty exConn "INVALID_HANDSHAKE" "Handshake first").sent
      = [(0, "\x7b\"description\":\"Handshake first\",\"name\":\"INVALID_HANDSHAKE\",\"type\":\"error\"\x7d\n")] ∧
    (SendErrorMessage exEmpty exConn "INVALID_HANDSHAKE" "Handshake first").sent
      ≠ [(0, "\x7b\"type\":\"error\",\"name\":\"INVALID_HANDSHAKE\",\"description\":\"Handshake first\"\x7d\n")] ∧
    (SendHelloMessage exEmpty exConn "node-x").sent
      = [(0, "\x7b\"agent\":\"node-x\",\"type\":\"hello\",\"version\":\"0.10.0\"\x7d\n")] ∧
    (SendHelloMessage exEmpty exConn "node-x").sent
      ≠ [(0, "\x7b\"type\":\"hello\",\"version\":\"0.10.0\",\"agent\":\"node-x\"\x7d\n")] := by
  decide

/-- C12, amended: on an open transport `SendErrorMessage` with
`INVALID_HANDSHAKE` / "Handshake first" writes exactly the object with the
members `description`, `name`, `type` in this order and one newline, and
`SendHelloMessage` with `node-x` writes exactly the object with the members
`agent`, `type`, `version` in this order and one newline. -/
theorem sent_frames_bytes (w : World) (conn : NetConn) (hopen : conn.id ∉ w.closed) :
    (SendErrorMessage w conn "INVALID_HANDSHAKE" "Handshake first").sent
      = w.sent ++ [(conn.id,
          "\x7b\"description\":\"Handshake first\",\"name\":\"INVALID_HANDSHAKE\",\"type\":\"error\"\x7d\n")] ∧
    (SendHelloMessage w conn "node-x").sent
      = w.sent ++ [(conn.id,
          "\x7b\"agent\":\"node-x\",\"type\":\"hello\",\"version\":\"0.10.0\"\x7d\n")] := by
  have e1 : errorFrame "INVALID_HANDSHAKE" "Handshake first"
      = "\x7b\"description\":\"Handshake first\",\"name\":\"INVALID_HANDSHAKE\",\"type\":\"error\"\x7d\n" := by
    decide
  have e2 : helloFrame "node-x"
      = "\x7b\"agent\":\"node-x\",\"type\":\"hello\",\"version\":\"0.10.0\"\x7d\n" := by
    decide
  constructor
  · rw [SendErrorMessage_open w conn _ _ hopen, e1]
  · simp only [SendHelloMessage, World.Write, hopen, if_false]
    rw [← e2]; rfl

/-- C12, amended, at the empty registry and the transport `exConn`. -/
theorem sent_frames_bytes_witness :
    exConn.id ∉ exEmpty.closed ∧
    (SendErrorMessage exEmpty exConn "INVALID_HANDSHAKE" "Handshake first").sent
      = exEmpty.sent ++ [(exConn.id,
          "\x7b\"description\":\"Handshake first\",\"name\":\"INVALID_HANDSHAKE\",\"type\":\"error\"\x7d\n")] ∧
    (SendHelloMessage exEmpty exConn "node-x").sent
      = exEmpty.sent ++ [(exConn.id,
          "\x7b\"agent\":\"node-x\",\"type\":\"hello\",\"version\":\"0.10.0\"\x7d\n")] :=
  ⟨by decide, sent_frames_bytes exEmpty exConn (by decide)⟩

/-! ## What the decoder makes of a JSON object -/

theorem equalFold_iff (f key : List Char) :
    equalFold f key = true ↔ f.map foldRune = key.map foldRune := by
  simp [equalFold]

theorem findField_eq_find (fields : List (List Char)) (hd : FoldDistinct fields)
    (key : List Char) :
    findField fields key = fields.find? fun f => equalFold f key := by
  unfold findField
  cases h : fields.find? (fun f => decide (f = key)) with
  | none => rfl
  | some f =>
    have hf : f = key := by simpa using List.find?_some h
    have hmem : f ∈ fields := List.mem_of_find?_eq_some h
    cases h2 : fields.find? (fun f => equalFold f key) with
    | none =>
      have := (List.find?_eq_none.mp h2) f hmem
      simp [equalFold, hf] at this
    | some g =>
      have hg : equalFold g key = true := by
        have h3 := List.find?_some h2
        exact h3
      have hgm : g ∈ fields := List.mem_of_find?_eq_some h2
      have : g = f := by
        apply List.inj_on_of_nodup_map hd hgm hmem
        rw [(equalFold_iff g key).mp hg, hf]
      simp [this]

theorem findField_eq_some_iff (fields : List (List Char)) (hd : FoldDistinct fields)
    (tag : List Char) (htag : tag ∈ fields) (key : List Char) :
    findField fields key = some tag ↔ equalFold tag key = true := by
  rw [findField_eq_find fields hd key]
  constructor
  · intro h
    have h3 := List.find?_some h
    exact h3
  · intro h
    cases h2 : fields.find? (fun f => equalFold f key) with
    | none =>
      have := (List.find?_eq_none.mp h2) tag htag
      simp [h] at this
    | some g =>
      have hg : equalFold g key = true := by
        have h3 := List.find?_some h2
        exact h3
      have hgm : g ∈ fields := List.mem_of_find?_eq_some h2
      have : g = tag := by
        apply List.inj_on_of_nodup_map hd hgm htag
        rw [(equalFold_iff g key).mp hg, (equalFold_iff tag key).mp h]
      simp [this]

/-- The value a field ends up with: the last string among the members of its
name, the earlier value when there is none. -/
theorem foldl_storeMember_field (fields : List (List Char)) (hd : FoldDistinct fields)
    (tag : String) (htag : tag.data ∈ fields) (ms : List (List Char × Json)) :
    ∀ d : Decoded, (ms.foldl (storeMember fields) d).field tag.data
      = lastText (d.field tag.data) (membersNamed tag ms) := by
  induction ms with
  | nil => intro d; rfl
  | cons m ms ih =>
    intro d
    simp only [List.foldl_cons]
    rw [ih]
    by_cases hm : equalFold tag.data m.1 = true
    · have hf := (findField_eq_some_iff fields hd tag.data htag m.1).mpr hm
      have e : membersNamed tag (m :: ms) = m :: membersNamed tag ms := by
        simp [membersNamed, List.filter_cons, hm]
      rw [e]
      simp only [lastText, List.foldl_cons]
      congr 1
      simp only [storeMember, hf]
      cases m.2 <;> simp
    · have e : membersNamed tag (m :: ms) = membersNamed tag ms := by
        simp [membersNamed, List.filter_cons, hm]
      rw [e]
      congr 1
      simp only [storeMember]
      cases hf : findField fields m.1 with
      | none => rfl
      | some f =>
        have hne : tag.data ≠ f := by
          intro he
          rw [← he] at hf
          exact hm ((findField_eq_some_iff fields hd tag.data htag m.1).mp hf)
        cases m.2 <;> simp [hne]

theorem foldl_storeMember_typeError (fields : List (List Char))
    (ms : List (List Char × Json)) :
    ∀ d : Decoded, (ms.foldl (storeMember fields) d).typeError
      = (d.typeError || ms.any (isTypeError fields)) := by
  induction ms with
  | nil => intro d; simp
  | cons m ms ih =>
    intro d
    simp only [List.foldl_cons, List.any_cons]
    rw [ih, ← Bool.or_assoc]
    congr 1
    simp only [storeMember, isTypeError]
    cases hf : findField fields m.1 with
    | none => simp
    | some f => cases m.2 <;> simp [Json.isStr, Json.isNull]

theorem foldDistinct_base : FoldDistinct (["type"].map String.data) := by
  unfold FoldDistinct; decide

theorem foldDistinct_hello : FoldDistinct (["type", "version", "agent"].map String.data) := by
  unfold FoldDistinct; decide

theorem foldDistinct_error : FoldDistinct (["type", "name", "description"].map String.data) := by
  unfold FoldDistinct; decide

theorem findField_some (fields : List (List Char)) (hd : FoldDistinct fields)
    (key f : List Char) (h : findField fields key = some f) :
    f ∈ fields ∧ equalFold f key = true := by
  rw [findField_eq_find fields hd key] at h
  have h3 := List.find?_some h
  exact ⟨List.mem_of_find?_eq_some h, h3⟩

/-- The result of `json.Unmarshal` on a text that is a JSON object. -/
theorem unmarshalStruct_obj (fields : List String) (frame : String)
    (ms : List (List Char × Json)) (hobj : parseJson frame.data = some (Json.obj ms)) :
    unmarshalStruct fields frame
      = if ms.any (isTypeError (fields.map String.data)) then none
        else some fun tag => String.mk
          ((ms.foldl (storeMember (fields.map String.data))
            { field := fun _ => [], typeError := false }).field tag.data) := by
  simp only [unmarshalStruct, hobj, decodeStruct, foldl_storeMember_typeError, Bool.false_or]
  split <;> simp

/-- No member saves a type error when the members named like a field are all
strings or `null`. -/
theorem any_isTypeError_eq_false (fields : List String)
    (hd : FoldDistinct (fields.map String.data)) (ms : List (List Char × Json))
    (h : ∀ tag ∈ fields, ∀ m ∈ membersNamed tag ms, m.2.isStr = true ∨ m.2.isNull = true) :
    ms.any (isTypeError (fields.map String.data)) = false := by
  rw [List.any_eq_false]
  intro m hm hbad
  simp only [isTypeError, Bool.and_eq_true, Bool.not_eq_true', Bool.or_eq_false_iff] at hbad
  obtain ⟨hsome, hs, hn⟩ := hbad
  obtain ⟨f, hf⟩ := Option.isSome_iff_exists.mp hsome
  obtain ⟨hfm, hfe⟩ := findField_some _ hd m.1 f hf
  obtain ⟨tag, htag, rfl⟩ := List.mem_map.mp hfm
  have hmem : m ∈ membersNamed tag ms := by
    simp [membersNamed, hm, hfe]
  rcases h tag htag m hmem with h1 | h1
  · rw [h1] at hs; exact Bool.noConfusion hs
  · rw [h1] at hn; exact Bool.noConfusion hn

/-- The value `json.Unmarshal` gives to a field of a struct, on a JSON object
that saves no type error. -/
theorem unmarshalStruct_obj_field (fields : List String)
    (hd : FoldDistinct (fields.map String.data)) (frame : String)
    (ms : List (List Char × Json)) (hobj : parseJson frame.data = some (Json.obj ms))
    (hok : ms.any (isTypeError (fields.map String.data)) = false) :
    ∃ r, unmarshalStruct fields frame = some r ∧
      ∀ tag ∈ fields, r tag = String.mk (lastText [] (membersNamed tag ms)) := by
  rw [unmarshalStruct_obj fields frame ms hobj, hok]
  refine ⟨_, rfl, ?_⟩
  intro tag htag
  rw [foldl_storeMember_field _ hd tag (List.mem_map.mpr ⟨tag, htag, rfl⟩)]

theorem storable_iff (tag : String) (ms : List (List Char × Json)) :
    storable tag ms = true ↔ ∀ m ∈ membersNamed tag ms, m.2.isStr = true ∨ m.2.isNull = true := by
  simp only [storable, List.all_eq_true, Bool.or_eq_true]

/-- A type error is saved exactly when a member named like a field is neither
a string nor `null`. -/
theorem any_isTypeError_iff (fields : List String)
    (hd : FoldDistinct (fields.map String.data)) (ms : List (List Char × Json)) :
    ms.any (isTypeError (fields.map String.data)) = false ↔ ∀ tag ∈ fields, storable tag ms = true := by
  constructor
  · intro h tag htag
    rw [storable_iff]
    intro m hm
    by_contra hbad
    have hm1 : m ∈ ms := (List.mem_filter.mp hm).1
    have hm2 : equalFold tag.data m.1 = true := (List.mem_filter.mp hm).2
    have hf := (findField_eq_some_iff (fields.map String.data) hd tag.data
      (List.mem_map.mpr ⟨tag, htag, rfl⟩) m.1).mpr hm2
    have := (List.any_eq_false.mp h) m hm1
    apply this
    simp only [isTypeError, hf, Option.isSome_some, Bool.true_and, Bool.not_eq_true',
      Bool.or_eq_false_iff]
    constructor
    · cases h1 : m.2.isStr
      · rfl
      · exact absurd (Or.inl h1) hbad
    · cases h1 : m.2.isNull
      · rfl
      · exact absurd (Or.inr h1) hbad
  · intro h
    exact any_isTypeError_eq_false fields hd ms fun tag htag => (storable_iff tag ms).mp (h tag htag)

/-- The discriminator `json.Unmarshal` reads from a JSON object. -/
theorem unmarshalBaseMessage_obj (frame : String) (ms : List (List Char × Json))
    (hobj : parseJson frame.data = some (Json.obj ms)) :
    unmarshalBaseMessage frame
      = if storable "type" ms then some { Type_ := decodedField "type" ms } else none := by
  by_cases hs : storable "type" ms = true
  · have hok : ms.any (isTypeError (["type"].map String.data)) = false :=
      (any_isTypeError_iff ["type"] foldDistinct_base ms).mpr (by simpa using hs)
    obtain ⟨r, hr, hv⟩ := unmarshalStruct_obj_field ["type"] foldDistinct_base frame ms hobj hok
    simp only [unmarshalBaseMessage, hr, Option.map_some', hv "type" (by simp), hs, if_true,
      decodedField]
  · have hbad : ¬ ms.any (isTypeError (["type"].map String.data)) = false := by
      intro h
      exact hs ((any_isTypeError_iff ["type"] foldDistinct_base ms).mp h "type" (by simp))
    simp only [Bool.not_eq_false] at hbad
    simp only [unmarshalBaseMessage, unmarshalStruct_obj ["type"] frame ms hobj, hbad, if_true,
      Option.map_none', hs]
    rfl

/-- The hello message `json.Unmarshal` reads from a JSON object. -/
theorem unmarshalHelloMessage_obj (frame : String) (ms : List (List Char × Json))
    (hobj : parseJson frame.data = some (Json.obj ms)) :
    unmarshalHelloMessage frame
      = if storable "type" ms && storable "version" ms && storable "agent" ms then
          some { Type_ := decodedField "type" ms, Version := decodedField "version" ms,
                 Agent := decodedField "agent" ms }
        else none := by
  by_cases hs : (storable "type" ms && storable "version" ms && storable "agent" ms) = true
  · have hs3 : storable "type" ms = true ∧ storable "version" ms = true ∧
        storable "agent" ms = true := by
      simpa [Bool.and_eq_true, and_assoc] using hs
    have hok : ms.any (isTypeError (["type", "version", "agent"].map String.data)) = false :=
      (any_isTypeError_iff _ foldDistinct_hello ms).mpr (by simpa using hs3)
    obtain ⟨r, hr, hv⟩ :=
      unmarshalStruct_obj_field ["type", "version", "agent"] foldDistinct_hello frame ms hobj hok
    simp only [unmarshalHelloMessage, hr, Option.map_some', hv "type" (by simp),
      hv "version" (by simp), hv "agent" (by simp), hs, if_true, decodedField]
  · have hbad : ¬ ms.any (isTypeError (["type", "version", "agent"].map String.data)) = false := by
      intro h
      have h3 := (any_isTypeError_iff _ foldDistinct_hello ms).mp h
      apply hs
      simp [h3 "type" (by simp), h3 "version" (by simp), h3 "agent" (by simp)]
    simp only [Bool.not_eq_false] at hbad
    simp only [unmarshalHelloMessage, unmarshalStruct_obj _ frame ms hobj, hbad, if_true,
      Option.map_none', hs]
    rfl

/-- C11, amended: take a frame that is a JSON object as `encoding/json`
accepts it.  When every member named `type` up to letter case is a string or
`null` and the last string among them, the empty string when there is none,
is neither "hello" nor "error", `ParseMessage` returns a `BaseMessage` with
that string as its type, and handling the frame on a registered, established
connection changes nothing: nothing is sent and the registry is as before.
`ParseMessage` returns a `BaseMessage` for no other JSON object. -/
theorem parse_unrecognized_type (w : World) (cs : ConnectionState) (frame : String)
    (ms : List (List Char × Json))
    (hreg : w.pm.peers cs.Conn.remoteAddr = some cs) (hflag : cs.ReceivedHello = true)
    (hobj : parseJson frame.data = some (Json.obj ms)) :
    (storable "type" ms = true → decodedField "type" ms ≠ "hello" →
      decodedField "type" ms ≠ "error" →
      ParseMessage frame = Except.ok (Message.Base { Type_ := decodedField "type" ms }) ∧
      handleMessage w frame (w.pm.peers cs.Conn.remoteAddr) = some w) ∧
    (∀ b, ParseMessage frame = Except.ok (Message.Base b) →
      storable "type" ms = true ∧ b.Type_ = decodedField "type" ms ∧
      b.Type_ ≠ "hello" ∧ b.Type_ ≠ "error") := by
  constructor
  · intro hs h1 h2
    have hp : ParseMessage frame
        = Except.ok (Message.Base { Type_ := decodedField "type" ms }) := by
      simp [ParseMessage, unmarshalBaseMessage_obj frame ms hobj, hs, h1, h2]
    refine ⟨hp, ?_⟩
    rw [hreg]
    simp [handleMessage, parseAndLogMessage, hp, hflag, routeMessage]
  · intro b hb
    unfold ParseMessage at hb
    rw [unmarshalBaseMessage_obj frame ms hobj] at hb
    by_cases hs : storable "type" ms = true
    · simp only [hs, if_true] at hb
      by_cases h1 : decodedField "type" ms = "hello"
      · simp only [h1, if_true] at hb
        cases hu : unmarshalHelloMessage frame <;> simp [hu] at hb
      · by_cases h2 : decodedField "type" ms = "error"
        · have hne : ("error" : String) ≠ "hello" := by decide
          simp only [h2, hne, if_true, if_false] at hb
          cases hu : unmarshalErrorMessage frame <;> simp [hu] at hb
        · simp only [h1, h2, if_false] at hb
          have e : b = { Type_ := decodedField "type" ms } := by
            have := Except.ok.inj hb
            exact (Message.Base.inj this).symm
          subst e
          exact ⟨hs, rfl, h1, h2⟩
    · simp only [hs] at hb
      simp at hb


theorem storable_false (tag : String) (ms : List (List Char × Json))
    (h : storable tag ms = false) :
    ∃ m ∈ membersNamed tag ms, m.2.isStr = false ∧ m.2.isNull = false := by
  simp only [storable, List.all_eq_false] at h
  obtain ⟨m, hm, hbad⟩ := h
  refine ⟨m, hm, ?_⟩
  simpa [Bool.or_eq_false_iff] using hbad

/-- C11, as stated, fails: the frame `exPingTwoTypes` is a JSON object whose
member `type` is "ping", yet it decodes to a hello message, because the
decoder also stores the member `TYPE` into the field; on an established
connection it is answered by an Error and the connection is removed. -/
theorem two_type_members_decode_as_hello :
    (parseJson exPingTwoTypes.data).map Json.isObj = some true ∧
    frameText exPingTwoTypes "type" = some "ping" ∧
    ParseMessage exPingTwoTypes
      = Except.ok (Message.Hello { Type_ := "hello", Version := "", Agent := "" }) ∧
    (handleMessage (exWorld true) exPingTwoTypes ((exWorld true).pm.peers exAddr)).map
        (fun x => (x.sent, x.closed, x.pm.peers exAddr))
      = some ([(0, errorFrame "INVALID_HANDSHAKE" "Handshake already received")], [0], none) := by
  decide

/-- C11, amended, at the registry `exWorld true` and the frame `exPingPong`,
which has two members named `type` up to letter case. -/
theorem parse_unrecognized_type_witness :
    (exWorld true).pm.peers exAddr = some { Conn := exConn, ReceivedHello := true } ∧
    parseJson exPingPong.data
      = some (Json.obj [("type".data, Json.str "ping".data), ("Type".data, Json.str "pong".data)]) ∧
    (ParseMessage exPingPong = Except.ok (Message.Base { Type_ := "pong" }) ∧
      handleMessage (exWorld true) exPingPong ((exWorld true).pm.peers exAddr)
        = some (exWorld true)) :=
  ⟨by decide, by rfl,
   (parse_unrecognized_type (exWorld true) { Conn := exConn, ReceivedHello := true } exPingPong
     [("type".data, Json.str "ping".data), ("Type".data, Json.str "pong".data)]
     (by decide) rfl (by rfl)).1 (by decide) (by decide) (by decide)⟩

/-- C19, amended: take a JSON object, as `encoding/json` accepts it, whose
members named `type` up to letter case are strings or `null`, the last string
among them being "hello".  When its members named `version` or `agent` up to
letter case are all strings or `null`, `ParseMessage` returns a hello message
whose version and agent are the last strings so named, empty when there is
none, and on a registered connection that is not established the frame sets
the flag exactly as a greeting with version "0.10.0" does.  `ParseMessage`
fails on such an object only when a member named `version` or `agent` is
neither a string nor `null`. -/
theorem parse_hello_object (frame : String) (ms : List (List Char × Json))
    (hobj : parseJson frame.data = some (Json.obj ms))
    (hs : storable "type" ms = true) (htype : decodedField "type" ms = "hello") :
    ((storable "version" ms = true ∧ storable "agent" ms = true) →
      ParseMessage frame = Except.ok (Message.Hello
        { Type_ := "hello", Version := decodedField "version" ms,
          Agent := decodedField "agent" ms }) ∧
      ∀ (w : World) (cs : ConnectionState),
        w.pm.peers cs.Conn.remoteAddr = some cs → cs.ReceivedHello = false →
        handleMessage w frame (w.pm.peers cs.Conn.remoteAddr)
          = some (updateReceivedHello w cs.Conn.remoteAddr true) ∧
        ∀ (greeting : String) (m0 : HelloMessage),
          ParseMessage greeting = Except.ok (Message.Hello m0) → m0.Version = "0.10.0" →
          handleMessage w greeting (w.pm.peers cs.Conn.remoteAddr)
            = handleMessage w frame (w.pm.peers cs.Conn.remoteAddr)) ∧
    (∀ e, ParseMessage frame = Except.error e →
      ∃ m ∈ membersNamed "version" ms ++ membersNamed "agent" ms,
        m.2.isStr = false ∧ m.2.isNull = false) := by
  have hparse : ParseMessage frame
      = match unmarshalHelloMessage frame with
        | none => Except.error "invalid 'hello' message format"
        | some msg => Except.ok (Message.Hello msg) := by
    simp only [ParseMessage, unmarshalBaseMessage_obj frame ms hobj, hs, htype, if_true]
  constructor
  · rintro ⟨hv, ha⟩
    have hp : ParseMessage frame = Except.ok (Message.Hello
        { Type_ := "hello", Version := decodedField "version" ms,
          Agent := decodedField "agent" ms }) := by
      rw [hparse, unmarshalHelloMessage_obj frame ms hobj]
      simp [hs, hv, ha, htype]
    refine ⟨hp, ?_⟩
    intro w cs hreg hflag
    have hh : ∀ (f : String) (m : HelloMessage), ParseMessage f = Except.ok (Message.Hello m) →
        handleMessage w f (w.pm.peers cs.Conn.remoteAddr)
          = some (updateReceivedHello w cs.Conn.remoteAddr true) := by
      intro f m hf
      rw [hreg]
      simp [handleMessage, parseAndLogMessage, hf, hflag, routeMessage, handleHello,
        Message.isHello]
    refine ⟨hh frame _ hp, ?_⟩
    intro greeting m0 hg _
    rw [hh greeting m0 hg, hh frame _ hp]
  · intro e herr
    rw [hparse, unmarshalHelloMessage_obj frame ms hobj] at herr
    cases hv : storable "version" ms with
    | false =>
      obtain ⟨m, hm, hbad⟩ := storable_false "version" ms hv
      exact ⟨m, List.mem_append_left _ hm, hbad⟩
    | true =>
      cases ha : storable "agent" ms with
      | false =>
        obtain ⟨m, hm, hbad⟩ := storable_false "agent" ms ha
        exact ⟨m, List.mem_append_right _ hm, hbad⟩
      | true => simp [hs, hv, ha] at herr

/-- C19, as stated, fails: `exHelloTwoTypes` and `exHelloNumber` are JSON
objects whose member `type` is "hello" and which have no member `version` or
`agent`.  The first decodes to a `BaseMessage` of type "ping" and is rejected
before the handshake; for the second `ParseMessage` fails. -/
theorem hello_object_not_decoded_as_hello :
    frameText exHelloTwoTypes "type" = some "hello" ∧
    frameLacks exHelloTwoTypes "version" = true ∧ frameLacks exHelloTwoTypes "agent" = true ∧
    ParseMessage exHelloTwoTypes = Except.ok (Message.Base { Type_ := "ping" }) ∧
    (handleMessage (exWorld false) exHelloTwoTypes ((exWorld false).pm.peers exAddr)).map
        (fun x => (x.sent, x.closed, x.pm.peers exAddr))
      = some ([(0, errorFrame "INVALID_HANDSHAKE" "Handshake first")], [0], none) ∧
    frameText exHelloNumber "type" = some "hello" ∧
    frameLacks exHelloNumber "version" = true ∧ frameLacks exHelloNumber "agent" = true ∧
    ParseMessage exHelloNumber = Except.error "invalid 'hello' message format" := by
  decide

/-- C19, amended, at the frame `exHelloUpper`, whose members are named in
upper case and which has members that are `null`, and the registry
`exWorld false`. -/
theorem parse_hello_object_witness :
    parseJson exHelloUpper.data
      = some (Json.obj [("TYPE".data, Json.str "hello".data), ("type".data, Json.null),
          ("VERSION".data, Json.str "9.9".data), ("agent".data, Json.null)]) ∧
    ParseMessage exHelloUpper
      = Except.ok (Message.Hello { Type_ := "hello", Version := "9.9", Agent := "" }) ∧
    handleMessage (exWorld false) exHelloUpper ((exWorld false).pm.peers exAddr)
      = some (updateReceivedHello (exWorld false) exAddr true) ∧
    handleMessage (exWorld false) exHello ((exWorld false).pm.peers exAddr)
      = handleMessage (exWorld false) exHelloUpper ((exWorld false).pm.peers exAddr) :=
  have h := (parse_hello_object exHelloUpper
    [("TYPE".data, Json.str "hello".data), ("type".data, Json.null),
      ("VERSION".data, Json.str "9.9".data), ("agent".data, Json.null)]
    (by rfl) (by decide) (by decide)).1 ⟨by decide, by decide⟩
  have h2 := h.2 (exWorld false) { Conn := exConn, ReceivedHello := false } (by decide) rfl
  ⟨by rfl, h.1, h2.1, h2.2 exHello _ exHello_decodes rfl⟩

end Bitmunt
